import Mathlib

/-
Verification of the endpoint-resolution and per-node configuration-patching
core of generate_talos_configs.py.

The script manipulates YAML documents loaded by yaml.safe_load as Python
dicts/lists/scalars.  We embed such documents as the inductive type `Yaml`
below (dicts are insertion-ordered association lists, exactly as Python 3.7+
dicts are), and translate each function of the script into a Lean function
over this type.  Fallible operations (Python exceptions such as
AttributeError/TypeError on non-dict values) are modelled with
`Except String`.
-/

namespace Talos

/-- A YAML document value as produced by yaml.safe_load: null, booleans,
integers, strings, sequences, and insertion-ordered mappings with string
keys. -/
inductive Yaml where
  | null : Yaml
  | bool (b : Bool) : Yaml
  | int (n : Int) : Yaml
  | str (s : String) : Yaml
  | arr (xs : List Yaml) : Yaml
  | map (kvs : List (String × Yaml)) : Yaml

/-- Python `d[k]` lookup on an insertion-ordered dict (first matching key). -/
def mapGet? {α : Type} : List (String × α) → String → Option α
  | [], _ => none
  | (k', v) :: rest, k => if k' = k then some v else mapGet? rest k

/-- Python `d[k] = v`: update the value in place if the key exists (the key
keeps its position), otherwise append the new key at the end. -/
def mapSet {α : Type} : List (String × α) → String → α → List (String × α)
  | [], k, v => [(k, v)]
  | (k', v') :: rest, k, v =>
      if k' = k then (k, v) :: rest else (k', v') :: mapSet rest k v

/-- Python `d.setdefault(k, {})`: return the updated dict together with the
value now stored at `k` (the existing value, or a fresh empty dict appended
at the end). -/
def setdefaultMap (kvs : List (String × Yaml)) (k : String) :
    List (String × Yaml) × Yaml :=
  match mapGet? kvs k with
  | some v => (kvs, v)
  | none => (kvs ++ [(k, Yaml.map [])], Yaml.map [])

/-- Python truthiness of a YAML value (`if x:`): None, False, 0, "", [] and
{} are falsy, everything else is truthy. -/
def pyTruthy : Yaml → Bool
  | .null => false
  | .bool b => b
  | .int n => n != 0
  | .str s => s != ""
  | .arr xs => !xs.isEmpty
  | .map kvs => !kvs.isEmpty

/-- Python truthiness of an optional string (`if a.vip:` where the value is
None or a str): None and "" are falsy. -/
def optTruthy : Option String → Bool
  | none => false
  | some s => s != ""

/-- Treat a YAML value as a dict, failing (as the Python attribute/item
access would) when it is not a mapping. -/
def asMap : Yaml → Except String (List (String × Yaml))
  | .map kvs => .ok kvs
  | _ => .error "not a dict"

/-- Chase a chain of mapping keys down a YAML document. -/
def getPath : Yaml → List String → Option Yaml
  | y, [] => some y
  | .map kvs, k :: ks =>
      match mapGet? kvs k with
      | some v => getPath v ks
      | none => none
  | _, _ :: _ => none

/-! ## Endpoint resolution (gen_base_configs, lines 63-75)

`a.vip` and `a.endpoint` come from argparse/env and are either None or a
string, so we model them as `Option String` / `String`.  The phase is the
`bootstrap_phase` boolean the script threads around (`True` = Bootstrap,
`False` = HA).  `a.control_planes[0]` raises IndexError on an empty list,
which we model by returning `none`. -/

/-- Lines 63-69 of gen_base_configs: the resolved endpoint URL. -/
def endpoint_url (bootstrap_phase : Bool) (vip : Option String)
    (control_planes : List String) (endpoint : String) : Option String :=
  if bootstrap_phase && optTruthy vip then
    control_planes.head?.map (fun ip => "https://" ++ ip ++ ":6443")
  else if optTruthy vip then
    some ("https://" ++ vip.getD "" ++ ":6443")
  else
    some ("https://" ++ endpoint)

/-- The list the script seeds `sans` with: the VIP when it is truthy
(`if a.vip: sans.append(a.vip)`), then every control-plane IP
(`sans.extend(a.control_planes)`). -/
def vipPart (vip : Option String) : List String :=
  if optTruthy vip then [vip.getD ""] else []

/-- Python `list(dict.fromkeys(xs))` accumulator: insert each element at the
end of the accumulated key list unless it is already present. -/
def fromKeysAux (acc : List String) : List String → List String
  | [] => acc
  | x :: xs => fromKeysAux (if x ∈ acc then acc else acc ++ [x]) xs

/-- Line 75: `sans = list(dict.fromkeys(sans))`, de-duplicate keeping
insertion order. -/
def pyFromKeys (xs : List String) : List String := fromKeysAux [] xs

/-- Lines 71-75 of gen_base_configs: the resolved SAN list. -/
def gen_sans (vip : Option String) (control_planes : List String) :
    List String :=
  pyFromKeys (vipPart vip ++ control_planes)

/-- Modelled from the spec (section 4.1): remove duplicates while preserving
first-seen order.  This is the specification-side description of the SAN
de-duplication; the code-side `pyFromKeys` is proved to coincide with it. -/
def dedupFirst : List String → List String
  | [] => []
  | x :: xs => x :: dedupFirst (xs.filter (fun y => y ≠ x))
  termination_by xs => xs.length
  decreasing_by
    simp only [List.length_cons]
    exact Nat.lt_succ_of_le (List.length_filter_le _ _)

/-! ### Basic lemmas about the de-duplication -/

/-- The emit-style view of the fromkeys accumulator: elements already seen
are skipped, new ones are emitted and added to the seen set. -/
def fromKeysEmit (seen : List String) : List String → List String
  | [] => []
  | x :: xs =>
      if x ∈ seen then fromKeysEmit seen xs
      else x :: fromKeysEmit (seen ++ [x]) xs

theorem fromKeysAux_eq_emit (xs : List String) :
    ∀ acc, fromKeysAux acc xs = acc ++ fromKeysEmit acc xs := by
  induction xs with
  | nil => intro acc; simp [fromKeysAux, fromKeysEmit]
  | cons x xs ih =>
      intro acc
      by_cases hx : x ∈ acc
      · simp [fromKeysAux, fromKeysEmit, hx, ih]
      · simp [fromKeysAux, fromKeysEmit, hx, ih (acc ++ [x])]

theorem fromKeysEmit_eq_dedupFirst (xs : List String) :
    ∀ seen, fromKeysEmit seen xs
      = dedupFirst (xs.filter (fun y => y ∉ seen)) := by
  induction xs with
  | nil => intro seen; simp [fromKeysEmit, dedupFirst]
  | cons x xs ih =>
      intro seen
      by_cases hx : x ∈ seen
      · simp only [fromKeysEmit, if_pos hx, ih seen, List.filter_cons]
        have : (decide (x ∉ seen)) = false := by simp [hx]
        simp [this]
      · simp only [fromKeysEmit, if_neg hx, List.filter_cons]
        have hdx : (decide (x ∉ seen)) = true := by simp [hx]
        simp only [hdx, if_pos]
        rw [dedupFirst, ih (seen ++ [x])]
        rw [List.filter_filter]
        have hp : ∀ y ∈ xs, (decide (y ∉ seen ++ [x]) : Bool)
            = (decide (y ≠ x) && decide (y ∉ seen)) := by
          intro y _
          by_cases hyx : y = x <;> by_cases hys : y ∈ seen <;>
            simp [hyx, hys]
        rw [List.filter_congr hp]

theorem pyFromKeys_eq_dedupFirst (xs : List String) :
    pyFromKeys xs = dedupFirst xs := by
  rw [pyFromKeys, fromKeysAux_eq_emit, fromKeysEmit_eq_dedupFirst]
  simp

theorem dedupFirst_sublist (xs : List String) : (dedupFirst xs).Sublist xs := by
  induction xs using dedupFirst.induct with
  | case1 => simp [dedupFirst]
  | case2 x xs ih =>
      rw [dedupFirst]
      exact (ih.trans (List.filter_sublist _)).cons₂ x

theorem mem_dedupFirst {a : String} {xs : List String} :
    a ∈ dedupFirst xs ↔ a ∈ xs := by
  induction xs using dedupFirst.induct with
  | case1 => simp [dedupFirst]
  | case2 x xs ih =>
      rw [dedupFirst]
      constructor
      · intro h
        rcases List.mem_cons.mp h with h | h
        · simp [h]
        · exact List.mem_cons_of_mem _ (List.mem_of_mem_filter (ih.mp h))
      · intro h
        rcases List.mem_cons.mp h with h | h
        · simp [h]
        · by_cases hax : a = x
          · simp [hax]
          · exact List.mem_cons_of_mem _
              (ih.mpr (List.mem_filter.mpr ⟨h, by simp [hax]⟩))

theorem dedupFirst_nodup (xs : List String) : (dedupFirst xs).Nodup := by
  induction xs using dedupFirst.induct with
  | case1 => simp [dedupFirst]
  | case2 x xs ih =>
      rw [dedupFirst]
      refine List.nodup_cons.mpr ⟨?_, ih⟩
      intro hx
      have hmem : x ∈ xs.filter (fun y => y ≠ x) := mem_dedupFirst.mp hx
      have := List.of_mem_filter hmem
      simp at this

/-! ## Per-node patching (patch_node, lines 109-179)

`patch_node` deep-copies the template and then mutates the copy in place.
Because the copy is freshly deep-copied and every alias the function forms
(`install_config`, `mnet`, `kubelet`, `features`, `cluster`) is a sub-dict
of the copy reached by a fixed key path, the net effect on the returned
value is the purely functional path update below; each `let` mirrors one
statement of the source, in source order (a separate heap model later in
this file handles the aliasing/isolation semantics).  A Python exception
(attribute/item access on a non-dict) is an `Except.error`. -/

/-- Line 129-131: the fixed guest-agent install extension list. -/
def qemuAgentExt : Yaml :=
  Yaml.arr [Yaml.map [("image", Yaml.str "ghcr.io/siderolabs/qemu-guest-agent:9.2.0")]]

/-- Line 134: the fixed kernel argument list. -/
def ifnamesKernelArgs : Yaml := Yaml.arr [Yaml.str "net.ifnames=0"]

/-- Lines 162-166: the Talos-API-access feature block enabled for the CCM,
scoped to the kube-system namespace. -/
def ccmFeatureBlock : Yaml :=
  Yaml.map [("enabled", Yaml.bool true),
            ("allowedRoles", Yaml.arr [Yaml.str "os:reader"]),
            ("allowedKubernetesNamespaces", Yaml.arr [Yaml.str "kube-system"])]

/-- Line 174: the fixed cloud-controller-manager manifest URL. -/
def ccmManifestUrl1 : String :=
  "https://raw.githubusercontent.com/siderolabs/talos-cloud-controller-manager/main/docs/deploy/cloud-controller-manager.yml"

/-- Line 175: the fixed kubelet-serving-cert-approver manifest URL. -/
def ccmManifestUrl2 : String :=
  "https://raw.githubusercontent.com/alex1989hu/kubelet-serving-cert-approver/main/deploy/standalone-install.yaml"

/-- Lines 171-177: the cluster-level external-cloud-provider block with the
two fixed manifest URLs. -/
def externalCloudProviderBlock : Yaml :=
  Yaml.map [("enabled", Yaml.bool true),
            ("manifests", Yaml.arr [Yaml.str ccmManifestUrl1, Yaml.str ccmManifestUrl2])]

/-- Lines 138-145: the single replacement network interface entry; the `vip`
key is added only when the optional VIP is truthy. -/
def mkIface (ip cidr gw ifname : String) (vip : Option String) : Yaml :=
  let base : List (String × Yaml) :=
    [("interface", Yaml.str ifname),
     ("dhcp", Yaml.bool false),
     ("addresses", Yaml.arr [Yaml.str (ip ++ "/" ++ cidr)]),
     ("routes", Yaml.arr [Yaml.map [("network", Yaml.str "0.0.0.0/0"),
                                    ("gateway", Yaml.str gw)]])]
  if optTruthy vip then
    Yaml.map (base ++ [("vip", Yaml.map [("ip", Yaml.str (vip.getD ""))])])
  else
    Yaml.map base

/-- Lines 126-134: the install sub-dict after setting the disk, the
extension list and the kernel arguments. -/
def patchInstall (inst : List (String × Yaml)) (disk : String) :
    List (String × Yaml) :=
  mapSet (mapSet (mapSet inst "disk" (Yaml.str disk))
      "extensions" qemuAgentExt)
    "extraKernelArgs" ifnamesKernelArgs

/-- Lines 146-147: the network sub-dict after replacing the interface list
and the nameserver list. -/
def patchNetwork (mnet : List (String × Yaml))
    (ip cidr gw ns ifname : String) (vip : Option String) :
    List (String × Yaml) :=
  mapSet (mapSet mnet "interfaces" (Yaml.arr [mkIface ip cidr gw ifname vip]))
    "nameservers" (Yaml.arr [Yaml.str ns])

/-- Lines 154 and 158: the kubelet extraArgs after enabling certificate
rotation and, when the CCM is enabled, the external cloud-provider
argument. -/
def patchKubeletArgs (ea : List (String × Yaml)) (enable_ccm : Bool) :
    List (String × Yaml) :=
  let ea1 := mapSet ea "rotate-server-certificates" (Yaml.str "true")
  if enable_ccm then mapSet ea1 "cloud-provider" (Yaml.str "external") else ea1

/-- Lines 125-166: everything patch_node does inside `cfg["machine"]`, in
source order (install, network, kubelet, and with CCM the features
block). -/
def patch_machine (m : List (String × Yaml))
    (ip cidr gw ns ifname disk : String) (vip : Option String)
    (enable_ccm : Bool) : Except String (List (String × Yaml)) := do
  let (m1, instval) := setdefaultMap m "install"
  let inst ← asMap instval
  let m2 := mapSet m1 "install" (Yaml.map (patchInstall inst disk))
  let (m3, netval) := setdefaultMap m2 "network"
  let mnet ← asMap netval
  let m4 := mapSet m3 "network"
    (Yaml.map (patchNetwork mnet ip cidr gw ns ifname vip))
  let (m5, kubval) := setdefaultMap m4 "kubelet"
  let kub ← asMap kubval
  let (kub1, eaval) := setdefaultMap kub "extraArgs"
  let ea ← asMap eaval
  let kub2 := mapSet kub1 "extraArgs" (Yaml.map (patchKubeletArgs ea enable_ccm))
  let m6 := mapSet m5 "kubelet" (Yaml.map kub2)
  if enable_ccm then
    let (m7, fval) := setdefaultMap m6 "features"
    let f ← asMap fval
    pure (mapSet m7 "features"
      (Yaml.map (mapSet f "kubernetesTalosAPIAccess" ccmFeatureBlock)))
  else
    pure m6

/-- Lines 169-177: `if cfg.get("cluster", {}).get("controlPlane", {}):`
followed by setting the external-cloud-provider block on the cluster
sub-dict.  Only reached when the CCM is enabled. -/
def patch_cluster_ccm (cfg : List (String × Yaml)) :
    Except String (List (String × Yaml)) := do
  let clv := (mapGet? cfg "cluster").getD (Yaml.map [])
  let cl ← asMap clv
  let cpv := (mapGet? cl "controlPlane").getD (Yaml.map [])
  if pyTruthy cpv then
    let (cfg1, cval) := setdefaultMap cfg "cluster"
    let c ← asMap cval
    pure (mapSet cfg1 "cluster"
      (Yaml.map (mapSet c "externalCloudProvider" externalCloudProviderBlock)))
  else
    pure cfg

/-- Lines 109-179: patch_node.  The returned document is the value of the
deep-copied-and-mutated `cfg`. -/
def patch_node (base : Yaml) (ip cidr gw ns ifname disk : String)
    (vip : Option String) (enable_ccm : Bool) : Except String Yaml := do
  let cfg ← asMap base
  let (cfg1, mval) := setdefaultMap cfg "machine"
  let m ← asMap mval
  let mm ← patch_machine m ip cidr gw ns ifname disk vip enable_ccm
  let cfg2 := mapSet cfg1 "machine" (Yaml.map mm)
  if enable_ccm then do
    let cfg3 ← patch_cluster_ccm cfg2
    pure (Yaml.map cfg3)
  else
    pure (Yaml.map cfg2)

/-- Line 169, `cfg.get("cluster", {}).get("controlPlane", {})` as a
truthiness test of a document's top-level dict (false also in the cases
where the Python expression raises, which `patch_cluster_ccm` reports as an
error instead). -/
def clusterCPTruthy (cfg : List (String × Yaml)) : Bool :=
  match (mapGet? cfg "cluster").getD (Yaml.map []) with
  | .map cl => pyTruthy ((mapGet? cl "controlPlane").getD (Yaml.map []))
  | _ => false

/-- Line 169 as a predicate of the template: whether the CCM branch treats
the document as a control-plane one.  The patcher does not modify
`cluster`/`controlPlane` before this test, so the test only depends on the
template. -/
def ccmControlPlaneCond (base : Yaml) : Bool :=
  match base with
  | .map kvs => clusterCPTruthy kvs
  | _ => false

/-! ## The pipeline (create_node_configs, lines 191-234, and
validate_files, lines 182-188) -/

/-- One produced document per IP, in topology order: the file name
`{tag}{i}.yaml` (1-based `i`) paired with the patched document.  Mirrors
the two `for i, ip in enumerate(..., 1)` loops of create_node_configs; a
patch failure (Python exception) aborts the run. -/
def patchSeq (tpl : Yaml) (tag : String) (ips : List String) (i : Nat)
    (cidr gw ns ifname disk : String) (vip : Option String)
    (enable_ccm : Bool) : Except String (List (String × Yaml)) :=
  match ips with
  | [] => Except.ok []
  | ip :: rest => do
      let d ← patch_node tpl ip cidr gw ns ifname disk vip enable_ccm
      let tail ← patchSeq tpl tag rest (i + 1) cidr gw ns ifname disk vip enable_ccm
      pure ((tag ++ toString i ++ ".yaml", d) :: tail)

/-- Lines 191-232 of create_node_configs: the ordered list of generated
(file name, document) pairs — every control-plane document (with the shared
VIP) first, then every worker document (no VIP). -/
def create_node_configs (cp_tpl wk_tpl : Yaml) (cps wks : List String)
    (cidr gw ns ifname disk : String) (vip : Option String)
    (enable_ccm : Bool) : Except String (List (String × Yaml)) := do
  let cpDocs ← patchSeq cp_tpl "cp" cps 1 cidr gw ns ifname disk vip enable_ccm
  let wkDocs ← patchSeq wk_tpl "w" wks 1 cidr gw ns ifname disk none enable_ccm
  pure (cpDocs ++ wkDocs)

/-- An observable event of one pipeline run: a document being written
(`yaml_dump` in a loop body) or a document being passed to the external
validator (`talosctl validate` inside validate_files). -/
inductive Ev where
  | produce (name : String) : Ev
  | validate (name : String) : Ev
  deriving DecidableEq, Repr

/-- The 1-based positional file names for a list of node IPs. -/
def docNames (tag : String) (i : Nat) : List String → List String
  | [] => []
  | _ :: rest => (tag ++ toString i ++ ".yaml") :: docNames tag (i + 1) rest

/-- Lines 182-188: validate_files attempts each file in order; `sh` exits
the process on the first validator failure, so no later event happens. -/
def validate_files_tr (ok : String → Bool) : List String → List Ev
  | [] => []
  | p :: ps => Ev.validate p :: (if ok p then validate_files_tr ok ps else [])

/-- The produce events of one `for i, ip in enumerate(...)` loop: one event
per successfully patched document; a patch failure aborts (second component
`false`). -/
def produceEvents (tpl : Yaml) (tag : String) (ips : List String) (i : Nat)
    (cidr gw ns ifname disk : String) (vip : Option String)
    (enable_ccm : Bool) : List Ev × Bool :=
  match ips with
  | [] => ([], true)
  | ip :: rest =>
      match patch_node tpl ip cidr gw ns ifname disk vip enable_ccm with
      | .error _ => ([], false)
      | .ok _ =>
          let (evs, ok) := produceEvents tpl tag rest (i + 1) cidr gw ns ifname disk vip enable_ccm
          (Ev.produce (tag ++ toString i ++ ".yaml") :: evs, ok)

/-- The full event trace of create_node_configs (lines 191-234): write all
control-plane documents, then all worker documents, then run validate_files
over all generated paths in the same order. -/
def create_node_configs_tr (cp_tpl wk_tpl : Yaml) (cps wks : List String)
    (cidr gw ns ifname disk : String) (vip : Option String)
    (enable_ccm : Bool) (ok : String → Bool) : List Ev :=
  let (cpe, ok1) := produceEvents cp_tpl "cp" cps 1 cidr gw ns ifname disk vip enable_ccm
  if ok1 then
    let (wke, ok2) := produceEvents wk_tpl "w" wks 1 cidr gw ns ifname disk none enable_ccm
    if ok2 then
      cpe ++ wke ++ validate_files_tr ok (docNames "cp" 1 cps ++ docNames "w" 1 wks)
    else cpe ++ wke
  else cpe

/-! ## Dictionary operation lemmas -/

theorem mapGet?_mapSet {α : Type} (kvs : List (String × α)) (k k' : String) (v : α) :
    mapGet? (mapSet kvs k v) k' = if k = k' then some v else mapGet? kvs k' := by
  induction kvs with
  | nil => by_cases h : k = k' <;> simp [mapSet, mapGet?, h]
  | cons kv rest ih =>
      obtain ⟨k₀, v₀⟩ := kv
      simp only [mapSet]
      by_cases h0 : k₀ = k
      · subst h0
        simp only [if_pos rfl]
        by_cases h1 : k₀ = k' <;> simp [mapGet?, h1]
      · simp only [if_neg h0, mapGet?]
        by_cases h1 : k₀ = k'
        · subst h1
          have hk : ¬ k = k₀ := fun h => h0 h.symm
          simp [mapGet?, hk]
        · simp [h1, ih]

theorem mapGet?_mapSet_self {α : Type} (kvs : List (String × α)) (k : String) (v : α) :
    mapGet? (mapSet kvs k v) k = some v := by
  simp [mapGet?_mapSet]

theorem mapGet?_mapSet_ne {α : Type} (kvs : List (String × α)) (k k' : String)
    (v : α) (h : k ≠ k') :
    mapGet? (mapSet kvs k v) k' = mapGet? kvs k' := by
  simp [mapGet?_mapSet, h]

theorem setdefaultMap_fst_get_ne (kvs : List (String × Yaml)) (k k' : String)
    (h : k ≠ k') :
    mapGet? (setdefaultMap kvs k).1 k' = mapGet? kvs k' := by
  unfold setdefaultMap
  cases hg : mapGet? kvs k with
  | some v => rfl
  | none =>
      simp only []
      induction kvs with
      | nil => simp [mapGet?, h]
      | cons kv rest ih =>
          obtain ⟨k₀, v₀⟩ := kv
          by_cases h1 : k₀ = k'
          · simp [mapGet?, h1]
          · simp only [mapGet?] at hg ⊢
            by_cases h2 : k₀ = k
            · simp [h2] at hg
            · simp [h1, ih (by simpa [h2] using hg)]

theorem setdefaultMap_snd (kvs : List (String × Yaml)) (k : String) :
    (setdefaultMap kvs k).2 = (mapGet? kvs k).getD (Yaml.map []) := by
  unfold setdefaultMap
  cases mapGet? kvs k <;> rfl

theorem mapGet?_append_of_none {α : Type} (kvs : List (String × α)) (k : String)
    (rest : List (String × α)) (h : mapGet? kvs k = none) :
    mapGet? (kvs ++ rest) k = mapGet? rest k := by
  induction kvs with
  | nil => rfl
  | cons kv tail ih =>
      obtain ⟨k₀, v₀⟩ := kv
      simp only [mapGet?] at h ⊢
      by_cases h2 : k₀ = k
      · simp [h2] at h
      · simpa [h2] using ih (by simpa [h2] using h)

theorem setdefaultMap_fst_get_self (kvs : List (String × Yaml)) (k : String) :
    mapGet? (setdefaultMap kvs k).1 k
      = some ((mapGet? kvs k).getD (Yaml.map [])) := by
  unfold setdefaultMap
  cases hg : mapGet? kvs k with
  | some v => simpa using hg
  | none => simp [mapGet?_append_of_none _ _ _ hg, mapGet?]

theorem asMap_ok {y : Yaml} {kvs : List (String × Yaml)}
    (h : asMap y = .ok kvs) : y = Yaml.map kvs := by
  cases y <;> simp [asMap] at h
  simp [h]

theorem except_bind_eq_ok {α β : Type} {x : Except String α}
    {f : α → Except String β} {b : β} :
    (x >>= f) = .ok b ↔ ∃ a, x = .ok a ∧ f a = .ok b := by
  cases x <;> simp [Bind.bind, Except.bind]

/-! ## Postcondition and frame lemmas for patch_node -/

/-- What patch_machine guarantees about the machine sub-dict on success:
untouched keys are preserved, and the install/network/kubelet/features
sections have the patched shape. -/
theorem patch_machine_spec {m m' : List (String × Yaml)}
    {ip cidr gw ns ifname disk : String} {vip : Option String}
    {enable_ccm : Bool}
    (h : patch_machine m ip cidr gw ns ifname disk vip enable_ccm = .ok m') :
    (∀ k, k ≠ "install" → k ≠ "network" → k ≠ "kubelet" → k ≠ "features" →
        mapGet? m' k = mapGet? m k) ∧
    (∃ net, mapGet? m' "network" = some (Yaml.map net) ∧
        mapGet? net "interfaces"
          = some (Yaml.arr [mkIface ip cidr gw ifname vip]) ∧
        mapGet? net "nameservers" = some (Yaml.arr [Yaml.str ns])) ∧
    (∃ inst, mapGet? m' "install" = some (Yaml.map inst) ∧
        mapGet? inst "disk" = some (Yaml.str disk)) ∧
    (∃ kub ea, mapGet? m' "kubelet" = some (Yaml.map kub) ∧
        mapGet? kub "extraArgs" = some (Yaml.map ea) ∧
        mapGet? ea "rotate-server-certificates" = some (Yaml.str "true") ∧
        (enable_ccm = true →
          mapGet? ea "cloud-provider" = some (Yaml.str "external"))) ∧
    (enable_ccm = true → ∃ f, mapGet? m' "features" = some (Yaml.map f) ∧
        mapGet? f "kubernetesTalosAPIAccess" = some ccmFeatureBlock) := by
  rw [patch_machine] at h
  rw [except_bind_eq_ok] at h
  obtain ⟨inst, hinst, h⟩ := h
  rw [except_bind_eq_ok] at h
  obtain ⟨mnet, hmnet, h⟩ := h
  rw [except_bind_eq_ok] at h
  obtain ⟨kub, hkub, h⟩ := h
  rw [except_bind_eq_ok] at h
  obtain ⟨ea, hea, h⟩ := h
  cases enable_ccm with
  | true =>
    rw [if_pos rfl] at h
    rw [except_bind_eq_ok] at h
    obtain ⟨f, hf, h⟩ := h
    simp only [pure, Except.pure, Except.ok.injEq] at h
    subst h
    refine ⟨?_, ?_, ?_, ?_, ?_⟩
    · intro k h1 h2 h3 h4
      simp [mapGet?_mapSet_ne _ _ _ _ (Ne.symm h4),
            setdefaultMap_fst_get_ne _ _ _ (Ne.symm h4),
            mapGet?_mapSet_ne _ _ _ _ (Ne.symm h3),
            setdefaultMap_fst_get_ne _ _ _ (Ne.symm h3),
            mapGet?_mapSet_ne _ _ _ _ (Ne.symm h2),
            setdefaultMap_fst_get_ne _ _ _ (Ne.symm h2),
            mapGet?_mapSet_ne _ _ _ _ (Ne.symm h1),
            setdefaultMap_fst_get_ne _ _ _ (Ne.symm h1)]
    · refine ⟨patchNetwork mnet ip cidr gw ns ifname vip, ?_, ?_, ?_⟩
      · simp [mapGet?_mapSet_ne, setdefaultMap_fst_get_ne, mapGet?_mapSet_self]
      · simp [patchNetwork, mapGet?_mapSet_ne, mapGet?_mapSet_self]
      · simp [patchNetwork, mapGet?_mapSet_self]
    · refine ⟨patchInstall inst disk, ?_, ?_⟩
      · simp [mapGet?_mapSet_ne, setdefaultMap_fst_get_ne, mapGet?_mapSet_self]
      · simp [patchInstall, mapGet?_mapSet_ne, mapGet?_mapSet_self]
    · refine ⟨mapSet (setdefaultMap kub "extraArgs").1 "extraArgs"
          (Yaml.map (patchKubeletArgs ea true)),
        patchKubeletArgs ea true, ?_, ?_, ?_, ?_⟩
      · simp [mapGet?_mapSet_ne, setdefaultMap_fst_get_ne, mapGet?_mapSet_self]
      · simp [mapGet?_mapSet_self]
      · simp [patchKubeletArgs, mapGet?_mapSet_ne, mapGet?_mapSet_self]
      · intro _
        simp [patchKubeletArgs, mapGet?_mapSet_self]
    · intro _
      refine ⟨mapSet f "kubernetesTalosAPIAccess" ccmFeatureBlock, ?_, ?_⟩
      · simp [mapGet?_mapSet_self]
      · simp [mapGet?_mapSet_self]
  | false =>
    rw [if_neg (by decide)] at h
    simp only [pure, Except.pure, Except.ok.injEq] at h
    subst h
    refine ⟨?_, ?_, ?_, ?_, by simp⟩
    · intro k h1 h2 h3 h4
      simp [mapGet?_mapSet_ne _ _ _ _ (Ne.symm h3),
            setdefaultMap_fst_get_ne _ _ _ (Ne.symm h3),
            mapGet?_mapSet_ne _ _ _ _ (Ne.symm h2),
            setdefaultMap_fst_get_ne _ _ _ (Ne.symm h2),
            mapGet?_mapSet_ne _ _ _ _ (Ne.symm h1),
            setdefaultMap_fst_get_ne _ _ _ (Ne.symm h1)]
    · refine ⟨patchNetwork mnet ip cidr gw ns ifname vip, ?_, ?_, ?_⟩
      · simp [mapGet?_mapSet_ne, setdefaultMap_fst_get_ne, mapGet?_mapSet_self]
      · simp [patchNetwork, mapGet?_mapSet_ne, mapGet?_mapSet_self]
      · simp [patchNetwork, mapGet?_mapSet_self]
    · refine ⟨patchInstall inst disk, ?_, ?_⟩
      · simp [mapGet?_mapSet_ne, setdefaultMap_fst_get_ne, mapGet?_mapSet_self]
      · simp [patchInstall, mapGet?_mapSet_ne, mapGet?_mapSet_self]
    · refine ⟨mapSet (setdefaultMap kub "extraArgs").1 "extraArgs"
          (Yaml.map (patchKubeletArgs ea false)),
        patchKubeletArgs ea false, ?_, ?_, ?_, by simp⟩
      · simp [mapGet?_mapSet_ne, setdefaultMap_fst_get_ne, mapGet?_mapSet_self]
      · simp [mapGet?_mapSet_self]
      · simp [patchKubeletArgs, mapGet?_mapSet_ne, mapGet?_mapSet_self]

/-- Lookup a key under an optional YAML value: none unless the value is
present and a mapping.  Used to compare sub-dicts of a patched document and
its template even when a section is absent on one side. -/
def optMapGet : Option Yaml → String → Option Yaml
  | some (.map kvs), k => mapGet? kvs k
  | _, _ => none

theorem clusterCPTruthy_congr {a b : List (String × Yaml)}
    (h : mapGet? a "cluster" = mapGet? b "cluster") :
    clusterCPTruthy a = clusterCPTruthy b := by
  simp [clusterCPTruthy, h]

/-- What patch_cluster_ccm guarantees on success: keys other than `cluster`
are untouched; when the control-plane test is truthy the
external-cloud-provider block is set on the existing cluster dict, and
otherwise the document is returned unchanged. -/
theorem patch_cluster_ccm_spec {cfg cfg' : List (String × Yaml)}
    (h : patch_cluster_ccm cfg = .ok cfg') :
    (∀ k, k ≠ "cluster" → mapGet? cfg' k = mapGet? cfg k) ∧
    (clusterCPTruthy cfg = true →
      ∃ c, mapGet? cfg "cluster" = some (Yaml.map c) ∧
        mapGet? cfg' "cluster" = some
          (Yaml.map (mapSet c "externalCloudProvider" externalCloudProviderBlock))) ∧
    (clusterCPTruthy cfg = false → cfg' = cfg) := by
  rw [patch_cluster_ccm] at h
  rw [except_bind_eq_ok] at h
  obtain ⟨cl, hcl, h⟩ := h
  have hcond : clusterCPTruthy cfg
      = pyTruthy ((mapGet? cl "controlPlane").getD (Yaml.map [])) := by
    unfold clusterCPTruthy
    rw [asMap_ok hcl]
  by_cases hcp : pyTruthy ((mapGet? cl "controlPlane").getD (Yaml.map [])) = true
  · rw [if_pos hcp] at h
    rw [except_bind_eq_ok] at h
    obtain ⟨c, hc, h⟩ := h
    simp only [pure, Except.pure, Except.ok.injEq] at h
    subst h
    have hclsome : mapGet? cfg "cluster" = some (Yaml.map cl) := by
      cases hg : mapGet? cfg "cluster" with
      | some y =>
          rw [hg] at hcl
          simp only [Option.getD_some] at hcl
          rw [asMap_ok hcl]
      | none =>
          rw [hg] at hcl
          simp [asMap] at hcl
          subst hcl
          simp [mapGet?, pyTruthy] at hcp
    have hsd1 : (setdefaultMap cfg "cluster").1 = cfg := by
      unfold setdefaultMap; rw [hclsome]
    have hsd2 : (setdefaultMap cfg "cluster").2 = Yaml.map cl := by
      rw [setdefaultMap_snd, hclsome]; rfl
    rw [hsd2] at hc
    have hceq : cl = c := by simpa [asMap] using hc
    subst hceq
    refine ⟨?_, ?_, ?_⟩
    · intro k hk
      rw [hsd1, mapGet?_mapSet_ne _ _ _ _ (Ne.symm hk)]
    · intro _
      exact ⟨cl, hclsome, by rw [hsd1, mapGet?_mapSet_self]⟩
    · intro hfalse
      rw [hcond, hcp] at hfalse
      exact absurd hfalse (by simp)
  · rw [if_neg hcp] at h
    simp only [pure, Except.pure, Except.ok.injEq] at h
    subst h
    refine ⟨fun _ _ => rfl, ?_, fun _ => rfl⟩
    intro htrue
    rw [hcond] at htrue
    exact absurd htrue hcp

/-- What patch_node guarantees about the whole document on success. -/
theorem patch_node_spec {base doc : Yaml}
    {ip cidr gw ns ifname disk : String} {vip : Option String}
    {enable_ccm : Bool}
    (h : patch_node base ip cidr gw ns ifname disk vip enable_ccm = .ok doc) :
    ∃ bkvs dkvs m mm,
      base = Yaml.map bkvs ∧ doc = Yaml.map dkvs ∧
      asMap ((mapGet? bkvs "machine").getD (Yaml.map [])) = .ok m ∧
      patch_machine m ip cidr gw ns ifname disk vip enable_ccm = .ok mm ∧
      mapGet? dkvs "machine" = some (Yaml.map mm) ∧
      (∀ k, k ≠ "machine" → k ≠ "cluster" →
        mapGet? dkvs k = mapGet? bkvs k) ∧
      (enable_ccm = false → mapGet? dkvs "cluster" = mapGet? bkvs "cluster") ∧
      (enable_ccm = true → ccmControlPlaneCond base = true →
        ∃ c, mapGet? bkvs "cluster" = some (Yaml.map c) ∧
          mapGet? dkvs "cluster" = some
            (Yaml.map (mapSet c "externalCloudProvider" externalCloudProviderBlock))) ∧
      (enable_ccm = true → ccmControlPlaneCond base = false →
        mapGet? dkvs "cluster" = mapGet? bkvs "cluster") := by
  rw [patch_node] at h
  rw [except_bind_eq_ok] at h
  obtain ⟨bkvs, hbase, h⟩ := h
  rw [except_bind_eq_ok] at h
  obtain ⟨m, hm, h⟩ := h
  rw [except_bind_eq_ok] at h
  obtain ⟨mm, hmm, h⟩ := h
  rw [setdefaultMap_snd] at hm
  have hmach_self :
      mapGet? (mapSet (setdefaultMap bkvs "machine").1 "machine" (Yaml.map mm)) "machine"
        = some (Yaml.map mm) := mapGet?_mapSet_self _ _ _
  have hmach_ne : ∀ k, k ≠ "machine" →
      mapGet? (mapSet (setdefaultMap bkvs "machine").1 "machine" (Yaml.map mm)) k
        = mapGet? bkvs k := by
    intro k hk
    rw [mapGet?_mapSet_ne _ _ _ _ (Ne.symm hk),
        setdefaultMap_fst_get_ne _ _ _ (Ne.symm hk)]
  cases enable_ccm with
  | true =>
      rw [if_pos rfl] at h
      rw [except_bind_eq_ok] at h
      obtain ⟨cfg3, hcfg3, h⟩ := h
      simp only [pure, Except.pure, Except.ok.injEq] at h
      subst h
      obtain ⟨hframe, htrue, hfalse⟩ := patch_cluster_ccm_spec hcfg3
      have hcondeq : clusterCPTruthy
          (mapSet (setdefaultMap bkvs "machine").1 "machine" (Yaml.map mm))
            = ccmControlPlaneCond base := by
        rw [asMap_ok hbase, ccmControlPlaneCond]
        exact clusterCPTruthy_congr (hmach_ne _ (by decide))
      refine ⟨bkvs, cfg3, m, mm, asMap_ok hbase, rfl, hm, hmm, ?_, ?_, ?_, ?_, ?_⟩
      · rw [hframe "machine" (by decide), hmach_self]
      · intro k hk1 hk2
        rw [hframe k hk2, hmach_ne k hk1]
      · intro hfalse2; exact absurd hfalse2 (by simp)
      · intro _ hcond
        obtain ⟨c, hc1, hc2⟩ := htrue (by rw [hcondeq, hcond])
        exact ⟨c, by rw [← hmach_ne "cluster" (by decide), hc1], hc2⟩
      · intro _ hcond
        rw [hfalse (by rw [hcondeq, hcond])]
        exact hmach_ne "cluster" (by decide)
  | false =>
      rw [if_neg (by decide)] at h
      simp only [pure, Except.pure, Except.ok.injEq] at h
      subst h
      refine ⟨bkvs, _, m, mm, asMap_ok hbase, rfl, hm, hmm, hmach_self, ?_, ?_, ?_, ?_⟩
      · intro k hk1 _; exact hmach_ne k hk1
      · intro _; exact hmach_ne "cluster" (by decide)
      · intro habs; exact absurd habs (by simp)
      · intro habs; exact absurd habs (by simp)

/-! ## Claim C2: endpoint selection with a configured VIP -/

/-- C2: for every topology with a non-empty control-plane list and a
configured (truthy) VIP, the Bootstrap-phase endpoint URL is
`https://` ++ first control-plane IP ++ `:6443` (independent of the length
of the list), and the HighAvailability-phase endpoint URL is
`https://` ++ vip ++ `:6443`. -/
theorem c2_endpoint_with_vip (v : String) (cps : List String) (ep : String)
    (hv : v ≠ "") (hcps : cps ≠ []) :
    endpoint_url true (some v) cps ep
      = some ("https://" ++ cps.head hcps ++ ":6443") ∧
    endpoint_url false (some v) cps ep
      = some ("https://" ++ v ++ ":6443") := by
  obtain ⟨a, t, rfl⟩ := List.exists_cons_of_ne_nil hcps
  constructor
  · simp [endpoint_url, optTruthy, hv]
  · simp [endpoint_url, optTruthy, hv]

/-- Witness for C2 at a concrete three-node topology. -/
theorem c2_endpoint_with_vip_w :
    endpoint_url true (some "10.0.0.10") ["10.0.0.11", "10.0.0.12"] "ep"
      = some "https://10.0.0.11:6443" ∧
    endpoint_url false (some "10.0.0.10") ["10.0.0.11", "10.0.0.12"] "ep"
      = some "https://10.0.0.10:6443" := by
  have h := c2_endpoint_with_vip "10.0.0.10" ["10.0.0.11", "10.0.0.12"] "ep"
    (by decide) (by decide)
  exact ⟨h.1.trans (by decide), h.2.trans (by decide)⟩

/-! ## Claim C3: SAN list construction -/

/-- C3: the resolved SAN list is the VIP (when truthy) followed by the
control-plane IPs in topology order, de-duplicated keeping the first-seen
occurrence: it equals the spec-side `dedupFirst` of that list, has no
duplicates, is an order-preserving sublist of it with the same members,
and when the VIP equals one of the control-plane IPs that address occurs
exactly once, at its first-seen position (the head). -/
theorem c3_san_list (vip : Option String) (cps : List String) :
    gen_sans vip cps = dedupFirst (vipPart vip ++ cps) ∧
    (gen_sans vip cps).Nodup ∧
    (gen_sans vip cps).Sublist (vipPart vip ++ cps) ∧
    (∀ x, x ∈ gen_sans vip cps ↔ x ∈ vipPart vip ++ cps) ∧
    (∀ v, vip = some v → v ≠ "" → v ∈ cps →
      (gen_sans vip cps).count v = 1 ∧ (gen_sans vip cps).head? = some v) := by
  have h1 : gen_sans vip cps = dedupFirst (vipPart vip ++ cps) :=
    pyFromKeys_eq_dedupFirst _
  refine ⟨h1, h1 ▸ dedupFirst_nodup _, h1 ▸ dedupFirst_sublist _,
    fun x => h1 ▸ mem_dedupFirst, ?_⟩
  intro v hvip hv hmem
  subst hvip
  have hpart : vipPart (some v) = [v] := by simp [vipPart, optTruthy, hv]
  constructor
  · exact List.count_eq_one_of_mem (h1 ▸ dedupFirst_nodup _)
      ((h1 ▸ mem_dedupFirst).mpr (by simp [hpart]))
  · rw [h1, hpart, List.singleton_append, dedupFirst]
    rfl

/-- Witness for C3 with the VIP equal to the second control-plane IP. -/
theorem c3_san_list_w :
    (gen_sans (some "10.0.0.12")
        ["10.0.0.11", "10.0.0.12", "10.0.0.13"]).count "10.0.0.12" = 1 ∧
    (gen_sans (some "10.0.0.12")
        ["10.0.0.11", "10.0.0.12", "10.0.0.13"]).head? = some "10.0.0.12" :=
  (c3_san_list (some "10.0.0.12") ["10.0.0.11", "10.0.0.12", "10.0.0.13"]).2.2.2.2
    "10.0.0.12" rfl (by decide) (by decide)

/-! ## Claim C6: endpoint selection without a VIP (corrected)

The code does not use the explicit endpoint verbatim: line 69 builds
`f"https://{a.endpoint}"`, prepending a scheme to the caller's endpoint
string. -/

/-- C6 counterexample: with no VIP and explicit endpoint "10.0.0.5:6443",
the resolved endpoint is "https://10.0.0.5:6443" in both phases — not the
verbatim string "10.0.0.5:6443" the claim requires. -/
theorem c6_counterexample :
    endpoint_url true none ["10.0.0.11"] "10.0.0.5:6443"
        = some "https://10.0.0.5:6443" ∧
    endpoint_url false none ["10.0.0.11"] "10.0.0.5:6443"
        = some "https://10.0.0.5:6443" ∧
    ¬ endpoint_url true none ["10.0.0.11"] "10.0.0.5:6443"
        = some "10.0.0.5:6443" := by
  refine ⟨by decide, by decide, by decide⟩

/-- C6 (amended): for every input with no VIP configured, in both phases
the resolved endpoint equals the explicit endpoint string supplied by the
caller with the fixed scheme marker "https://" prepended (and no other
reformatting). -/
theorem c6_endpoint_without_vip (bootstrap_phase : Bool) (cps : List String)
    (ep : String) :
    endpoint_url bootstrap_phase none cps ep = some ("https://" ++ ep) := by
  cases bootstrap_phase <;> simp [endpoint_url, optTruthy]

/-! ## Claim C10: an empty-string VIP behaves exactly like an absent VIP -/

theorem mkIface_empty (ip cidr gw ifname : String) :
    mkIface ip cidr gw ifname (some "") = mkIface ip cidr gw ifname none := rfl

theorem patchNetwork_empty (mnet : List (String × Yaml))
    (ip cidr gw ns ifname : String) :
    patchNetwork mnet ip cidr gw ns ifname (some "")
      = patchNetwork mnet ip cidr gw ns ifname none := by
  simp only [patchNetwork, mkIface_empty]

theorem patch_machine_empty (m : List (String × Yaml))
    (ip cidr gw ns ifname disk : String) (enable_ccm : Bool) :
    patch_machine m ip cidr gw ns ifname disk (some "") enable_ccm
      = patch_machine m ip cidr gw ns ifname disk none enable_ccm := by
  simp only [patch_machine, patchNetwork_empty]

theorem patch_node_empty (base : Yaml) (ip cidr gw ns ifname disk : String)
    (enable_ccm : Bool) :
    patch_node base ip cidr gw ns ifname disk (some "") enable_ccm
      = patch_node base ip cidr gw ns ifname disk none enable_ccm := by
  simp only [patch_node, patch_machine_empty]

/-- What patch_node puts at machine.network on success: exactly one
interface entry built by `mkIface` and a single nameserver. -/
theorem patch_node_interfaces {base doc : Yaml}
    {ip cidr gw ns ifname disk : String} {vip : Option String}
    {enable_ccm : Bool}
    (h : patch_node base ip cidr gw ns ifname disk vip enable_ccm = .ok doc) :
    getPath doc ["machine", "network", "interfaces"]
      = some (Yaml.arr [mkIface ip cidr gw ifname vip]) ∧
    getPath doc ["machine", "network", "nameservers"]
      = some (Yaml.arr [Yaml.str ns]) := by
  obtain ⟨bkvs, dkvs, m, mm, hb, hd, hmok, hmach, hdm, -, -, -, -⟩ :=
    patch_node_spec h
  obtain ⟨-, ⟨net, hnet, hnet1, hnet2⟩, -, -, -⟩ := patch_machine_spec hmach
  subst hd
  simp [getPath, hdm, hnet, hnet1, hnet2]

/-- C10: an empty-string VIP is treated exactly as an absent VIP: the
endpoint resolution coincides with the no-VIP case (in Bootstrap phase it
falls through to the explicit endpoint, not the first control-plane IP),
the empty string is not added to the SAN list, patch_node produces exactly
the same document as with no VIP, and that document's single interface is
the no-VIP interface (no VIP block). -/
theorem c10_empty_vip (bootstrap_phase : Bool) (cps : List String)
    (ep : String) (base : Yaml) (ip cidr gw ns ifname disk : String)
    (enable_ccm : Bool) :
    endpoint_url bootstrap_phase (some "") cps ep
      = endpoint_url bootstrap_phase none cps ep ∧
    endpoint_url true (some "") cps ep = some ("https://" ++ ep) ∧
    gen_sans (some "") cps = pyFromKeys cps ∧
    gen_sans (some "") cps = gen_sans none cps ∧
    patch_node base ip cidr gw ns ifname disk (some "") enable_ccm
      = patch_node base ip cidr gw ns ifname disk none enable_ccm ∧
    (∀ doc,
      patch_node base ip cidr gw ns ifname disk (some "") enable_ccm = .ok doc →
      getPath doc ["machine", "network", "interfaces"]
        = some (Yaml.arr [mkIface ip cidr gw ifname none])) := by
  refine ⟨?_, ?_, ?_, ?_, patch_node_empty base ip cidr gw ns ifname disk enable_ccm, ?_⟩
  · cases bootstrap_phase <;> simp [endpoint_url, optTruthy]
  · simp [endpoint_url, optTruthy]
  · simp [gen_sans, vipPart, optTruthy]
  · simp [gen_sans, vipPart, optTruthy]
  · intro doc hdoc
    rw [patch_node_empty] at hdoc
    exact (patch_node_interfaces hdoc).1

/-- Witness input and output for C10. -/
def w10doc : Yaml :=
  Yaml.map [("machine", Yaml.map [
    ("install", Yaml.map [("disk", Yaml.str "d"),
      ("extensions", qemuAgentExt), ("extraKernelArgs", ifnamesKernelArgs)]),
    ("network", Yaml.map [("interfaces", Yaml.arr [mkIface "i" "24" "g" "e" none]),
      ("nameservers", Yaml.arr [Yaml.str "n"])]),
    ("kubelet", Yaml.map [("extraArgs",
      Yaml.map [("rotate-server-certificates", Yaml.str "true")])])])]

/-- Witness for C10 at the empty template. -/
theorem c10_empty_vip_w :
    gen_sans (some "") ["10.0.0.11"] = pyFromKeys ["10.0.0.11"] ∧
    patch_node (Yaml.map []) "i" "24" "g" "n" "e" "d" (some "") false
      = patch_node (Yaml.map []) "i" "24" "g" "n" "e" "d" none false ∧
    getPath w10doc ["machine", "network", "interfaces"]
      = some (Yaml.arr [mkIface "i" "24" "g" "e" none]) := by
  have h := c10_empty_vip true ["10.0.0.11"] "ep" (Yaml.map []) "i" "24" "g" "n" "e" "d" false
  exact ⟨h.2.2.1, h.2.2.2.2.1, h.2.2.2.2.2 w10doc rfl⟩

/-! ## Claim C7: frame property of patch_node -/

/-- C7: the patched document agrees with the input template on every field
outside the sub-paths the patcher touches: every top-level key other than
`machine` and `cluster` is preserved verbatim, every key of `machine` other
than `install`/`network`/`kubelet`/`features` is preserved verbatim, and
every key of `cluster` other than `externalCloudProvider` is preserved
verbatim (unknown extra fields survive). -/
theorem c7_frame {base doc : Yaml} {ip cidr gw ns ifname disk : String}
    {vip : Option String} {enable_ccm : Bool}
    (h : patch_node base ip cidr gw ns ifname disk vip enable_ccm = .ok doc) :
    ∃ bkvs dkvs, base = Yaml.map bkvs ∧ doc = Yaml.map dkvs ∧
      (∀ k, k ≠ "machine" → k ≠ "cluster" →
        mapGet? dkvs k = mapGet? bkvs k) ∧
      (∀ k, k ≠ "install" → k ≠ "network" → k ≠ "kubelet" → k ≠ "features" →
        optMapGet (mapGet? dkvs "machine") k
          = optMapGet (mapGet? bkvs "machine") k) ∧
      (∀ k, k ≠ "externalCloudProvider" →
        optMapGet (mapGet? dkvs "cluster") k
          = optMapGet (mapGet? bkvs "cluster") k) := by
  obtain ⟨bkvs, dkvs, m, mm, hb, hd, hmok, hmach, hdm, hframe, hccmF, hccmTT, hccmTF⟩ :=
    patch_node_spec h
  refine ⟨bkvs, dkvs, hb, hd, hframe, ?_, ?_⟩
  · intro k h1 h2 h3 h4
    obtain ⟨mf, -, -, -, -⟩ := patch_machine_spec hmach
    have hmf := mf k h1 h2 h3 h4
    rw [hdm]
    cases hbm : mapGet? bkvs "machine" with
    | none =>
        rw [hbm] at hmok
        have hm0 : m = [] := by
          have := hmok
          simp [asMap] at this
          exact this
        simp [optMapGet, hmf, hm0, mapGet?]
    | some y =>
        rw [hbm] at hmok
        simp only [Option.getD_some] at hmok
        have hy := asMap_ok hmok
        subst hy
        simp [optMapGet, hmf]
  · intro k hk
    cases enable_ccm with
    | false => rw [hccmF rfl]
    | true =>
        cases hcond : ccmControlPlaneCond base with
        | false => rw [hccmTF rfl hcond]
        | true =>
            obtain ⟨c, hc1, hc2⟩ := hccmTT rfl hcond
            rw [hc1, hc2]
            simp [optMapGet, mapGet?_mapSet_ne _ _ _ _ (Ne.symm hk)]

/-- Witness template and output for C7: a template with an unknown extra
field `spam`, patched with the CCM disabled. -/
def w7doc : Yaml :=
  Yaml.map [("spam", Yaml.int 1),
    ("machine", Yaml.map [
      ("install", Yaml.map [("disk", Yaml.str "/dev/sda"),
        ("extensions", qemuAgentExt), ("extraKernelArgs", ifnamesKernelArgs)]),
      ("network", Yaml.map [
        ("interfaces", Yaml.arr [mkIface "10.0.0.5" "24" "10.0.0.1" "eth0" none]),
        ("nameservers", Yaml.arr [Yaml.str "1.1.1.1"])]),
      ("kubelet", Yaml.map [("extraArgs",
        Yaml.map [("rotate-server-certificates", Yaml.str "true")])])])]

/-- Witness for C7 at a concrete template containing an unknown field. -/
theorem c7_frame_w :
    ∃ bkvs dkvs, (Yaml.map [("spam", Yaml.int 1)]) = Yaml.map bkvs ∧
      w7doc = Yaml.map dkvs ∧
      (∀ k, k ≠ "machine" → k ≠ "cluster" →
        mapGet? dkvs k = mapGet? bkvs k) ∧
      (∀ k, k ≠ "install" → k ≠ "network" → k ≠ "kubelet" → k ≠ "features" →
        optMapGet (mapGet? dkvs "machine") k
          = optMapGet (mapGet? bkvs "machine") k) ∧
      (∀ k, k ≠ "externalCloudProvider" →
        optMapGet (mapGet? dkvs "cluster") k
          = optMapGet (mapGet? bkvs "cluster") k) :=
  @c7_frame (Yaml.map [("spam", Yaml.int 1)]) w7doc
    "10.0.0.5" "24" "10.0.0.1" "1.1.1.1" "eth0" "/dev/sda" none false rfl

/-! ## Claim C5: CCM gating -/

/-- C5: with the CCM flag enabled, the patched document carries the kubelet
`cloud-provider = "external"` argument and the Talos-API-access feature
block scoped to kube-system; the cluster-level external-cloud-provider
block with exactly the two fixed manifest URLs is present precisely when
the template's `cluster.controlPlane` is truthy (control-plane templates),
and on worker templates (condition false) the `cluster.externalCloudProvider`
path is left exactly as in the template — in particular absent when the
template has none. -/
theorem c5_ccm_gating {base doc : Yaml} {ip cidr gw ns ifname disk : String}
    {vip : Option String}
    (h : patch_node base ip cidr gw ns ifname disk vip true = .ok doc) :
    getPath doc ["machine", "kubelet", "extraArgs", "cloud-provider"]
      = some (Yaml.str "external") ∧
    getPath doc ["machine", "kubelet", "extraArgs", "rotate-server-certificates"]
      = some (Yaml.str "true") ∧
    getPath doc ["machine", "features", "kubernetesTalosAPIAccess"]
      = some ccmFeatureBlock ∧
    (ccmControlPlaneCond base = true →
      getPath doc ["cluster", "externalCloudProvider"]
        = some externalCloudProviderBlock) ∧
    (ccmControlPlaneCond base = false →
      getPath doc ["cluster", "externalCloudProvider"]
        = getPath base ["cluster", "externalCloudProvider"]) ∧
    (ccmControlPlaneCond base = false →
      getPath base ["cluster", "externalCloudProvider"] = none →
      getPath doc ["cluster", "externalCloudProvider"] = none) := by
  obtain ⟨bkvs, dkvs, m, mm, hb, hd, hmok, hmach, hdm, hframe, hccmF, hccmTT, hccmTF⟩ :=
    patch_node_spec h
  obtain ⟨-, -, -, ⟨kub, ea, hkub, hea, hrot, hcp⟩, hfeat⟩ :=
    patch_machine_spec hmach
  obtain ⟨f, hf, hfa⟩ := hfeat rfl
  subst hd
  refine ⟨?_, ?_, ?_, ?_, ?_, ?_⟩
  · simp [getPath, hdm, hkub, hea, hcp rfl]
  · simp [getPath, hdm, hkub, hea, hrot]
  · simp only [getPath, hdm, hf, hfa]
    rfl
  · intro hcond
    obtain ⟨c, hc1, hc2⟩ := hccmTT rfl hcond
    simp only [getPath, hc2, mapGet?_mapSet_self]
    rfl
  · intro hcond
    have hcl := hccmTF rfl hcond
    subst hb
    simp only [getPath, hcl]
  · intro hcond hnone
    have hcl := hccmTF rfl hcond
    subst hb
    simp only [getPath, hcl] at hnone ⊢
    exact hnone

/-- Witness base and output for C5: a control-plane template. -/
def w5base : Yaml :=
  Yaml.map [("cluster", Yaml.map [("controlPlane",
    Yaml.map [("endpoint", Yaml.str "e")])])]

/-- Witness output document for C5. -/
def w5doc : Yaml :=
  Yaml.map [
    ("cluster", Yaml.map [("controlPlane", Yaml.map [("endpoint", Yaml.str "e")]),
      ("externalCloudProvider", externalCloudProviderBlock)]),
    ("machine", Yaml.map [
      ("install", Yaml.map [("disk", Yaml.str "/dev/sda"),
        ("extensions", qemuAgentExt), ("extraKernelArgs", ifnamesKernelArgs)]),
      ("network", Yaml.map [
        ("interfaces", Yaml.arr [mkIface "10.0.0.5" "24" "10.0.0.1" "eth0" (some "10.0.0.9")]),
        ("nameservers", Yaml.arr [Yaml.str "1.1.1.1"])]),
      ("kubelet", Yaml.map [("extraArgs",
        Yaml.map [("rotate-server-certificates", Yaml.str "true"),
                  ("cloud-provider", Yaml.str "external")])]),
      ("features", Yaml.map [("kubernetesTalosAPIAccess", ccmFeatureBlock)])])]

/-- Witness for C5 at a concrete control-plane template. -/
theorem c5_ccm_gating_w :
    getPath w5doc ["machine", "kubelet", "extraArgs", "cloud-provider"]
      = some (Yaml.str "external") ∧
    getPath w5doc ["machine", "features", "kubernetesTalosAPIAccess"]
      = some ccmFeatureBlock ∧
    getPath w5doc ["cluster", "externalCloudProvider"]
      = some externalCloudProviderBlock := by
  have h := @c5_ccm_gating w5base w5doc
    "10.0.0.5" "24" "10.0.0.1" "1.1.1.1" "eth0" "/dev/sda" (some "10.0.0.9") rfl
  exact ⟨h.1, h.2.2.1, h.2.2.2.1 (by decide)⟩

/-! ## Claim C4: VIP placement across the pipeline -/

theorem mkIface_vip_some (ip cidr gw ifname v : String) (hv : v ≠ "") :
    ∃ ifkvs, mkIface ip cidr gw ifname (some v) = Yaml.map ifkvs ∧
      mapGet? ifkvs "vip" = some (Yaml.map [("ip", Yaml.str v)]) := by
  have ht : optTruthy (some v) = true := by simp [optTruthy, hv]
  refine ⟨[("interface", Yaml.str ifname), ("dhcp", Yaml.bool false),
    ("addresses", Yaml.arr [Yaml.str (ip ++ "/" ++ cidr)]),
    ("routes", Yaml.arr [Yaml.map [("network", Yaml.str "0.0.0.0/0"),
                                   ("gateway", Yaml.str gw)]]),
    ("vip", Yaml.map [("ip", Yaml.str v)])], ?_, by rfl⟩
  simp [mkIface, ht]

theorem mkIface_vip_none (ip cidr gw ifname : String) :
    ∃ ifkvs, mkIface ip cidr gw ifname none = Yaml.map ifkvs ∧
      mapGet? ifkvs "vip" = none :=
  ⟨[("interface", Yaml.str ifname), ("dhcp", Yaml.bool false),
    ("addresses", Yaml.arr [Yaml.str (ip ++ "/" ++ cidr)]),
    ("routes", Yaml.arr [Yaml.map [("network", Yaml.str "0.0.0.0/0"),
                                   ("gateway", Yaml.str gw)]])], rfl, rfl⟩

/-- Shape of one patch loop's output: one named document per IP, in
topology order, with the 1-based positional name. -/
theorem patchSeq_spec {tpl : Yaml} {tag : String} {ips : List String}
    {i : Nat} {cidr gw ns ifname disk : String} {vip : Option String}
    {enable_ccm : Bool} {out : List (String × Yaml)}
    (h : patchSeq tpl tag ips i cidr gw ns ifname disk vip enable_ccm = .ok out) :
    out.length = ips.length ∧
    ∀ j (hj : j < ips.length), ∃ d,
      out.get? j = some (tag ++ toString (i + j) ++ ".yaml", d) ∧
      patch_node tpl (ips.get ⟨j, hj⟩) cidr gw ns ifname disk vip enable_ccm
        = .ok d := by
  induction ips generalizing i out with
  | nil =>
      rw [patchSeq] at h
      simp only [Except.ok.injEq] at h
      subst h
      exact ⟨rfl, fun j hj => absurd hj (by simp)⟩
  | cons ip rest ih =>
      rw [patchSeq] at h
      rw [except_bind_eq_ok] at h
      obtain ⟨d, hd, h⟩ := h
      rw [except_bind_eq_ok] at h
      obtain ⟨tail, htail, h⟩ := h
      simp only [pure, Except.pure, Except.ok.injEq] at h
      subst h
      obtain ⟨hlen, hall⟩ := ih htail
      refine ⟨by simp [hlen], ?_⟩
      intro j hj
      cases j with
      | zero =>
          refine ⟨d, ?_, by simpa using hd⟩
          simp
      | succ j' =>
          have hj' : j' < rest.length := by simpa using Nat.lt_of_succ_lt_succ hj
          obtain ⟨d', hget, hpatch⟩ := hall j' hj'
          refine ⟨d', ?_, by simpa using hpatch⟩
          have hi : i + (j' + 1) = (i + 1) + j' := by omega
          rw [hi]
          simpa using hget

/-- C4: in a run with a configured (truthy) VIP, the pipeline produces one
document per control-plane IP (named cp1... in topology order) whose single
interface entry carries a VIP block with exactly that address, followed by
one document per worker IP (named w1...) whose single interface entry has
no VIP block at all. -/
theorem c4_vip_placement {cp_tpl wk_tpl : Yaml} {cps wks : List String}
    {cidr gw ns ifname disk : String} {v : String} {enable_ccm : Bool}
    {docs : List (String × Yaml)} (hv : v ≠ "")
    (h : create_node_configs cp_tpl wk_tpl cps wks cidr gw ns ifname disk
          (some v) enable_ccm = .ok docs) :
    docs.length = cps.length + wks.length ∧
    (∀ j (hj : j < cps.length), ∃ d,
      docs.get? j = some ("cp" ++ toString (1 + j) ++ ".yaml", d) ∧
      getPath d ["machine", "network", "interfaces"]
        = some (Yaml.arr [mkIface (cps.get ⟨j, hj⟩) cidr gw ifname (some v)]) ∧
      ∃ ifkvs, mkIface (cps.get ⟨j, hj⟩) cidr gw ifname (some v)
          = Yaml.map ifkvs ∧
        mapGet? ifkvs "vip" = some (Yaml.map [("ip", Yaml.str v)])) ∧
    (∀ j (hj : j < wks.length), ∃ d,
      docs.get? (cps.length + j) = some ("w" ++ toString (1 + j) ++ ".yaml", d) ∧
      getPath d ["machine", "network", "interfaces"]
        = some (Yaml.arr [mkIface (wks.get ⟨j, hj⟩) cidr gw ifname none]) ∧
      ∃ ifkvs, mkIface (wks.get ⟨j, hj⟩) cidr gw ifname none = Yaml.map ifkvs ∧
        mapGet? ifkvs "vip" = none) := by
  rw [create_node_configs] at h
  rw [except_bind_eq_ok] at h
  obtain ⟨cpDocs, hcp, h⟩ := h
  rw [except_bind_eq_ok] at h
  obtain ⟨wkDocs, hwk, h⟩ := h
  simp only [pure, Except.pure, Except.ok.injEq] at h
  subst h
  obtain ⟨hcplen, hcpall⟩ := patchSeq_spec hcp
  obtain ⟨hwklen, hwkall⟩ := patchSeq_spec hwk
  refine ⟨by simp [hcplen, hwklen], ?_, ?_⟩
  · intro j hj
    obtain ⟨d, hget, hpatch⟩ := hcpall j hj
    refine ⟨d, ?_, (patch_node_interfaces hpatch).1, mkIface_vip_some _ _ _ _ _ hv⟩
    rw [List.get?_append (show j < cpDocs.length by omega)]
    exact hget
  · intro j hj
    obtain ⟨d, hget, hpatch⟩ := hwkall j hj
    refine ⟨d, ?_, (patch_node_interfaces hpatch).1, mkIface_vip_none _ _ _ _⟩
    rw [List.get?_append_right (by omega : cpDocs.length ≤ cps.length + j)]
    have hidx : cps.length + j - cpDocs.length = j := by omega
    rw [hidx]
    exact hget

/-- Witness control-plane document for C4. -/
def w4cp : Yaml :=
  Yaml.map [("machine", Yaml.map [
    ("install", Yaml.map [("disk", Yaml.str "d"),
      ("extensions", qemuAgentExt), ("extraKernelArgs", ifnamesKernelArgs)]),
    ("network", Yaml.map [
      ("interfaces", Yaml.arr [mkIface "10.0.0.11" "24" "g" "e" (some "10.0.0.10")]),
      ("nameservers", Yaml.arr [Yaml.str "n"])]),
    ("kubelet", Yaml.map [("extraArgs",
      Yaml.map [("rotate-server-certificates", Yaml.str "true")])])])]

/-- Witness worker document for C4. -/
def w4wk : Yaml :=
  Yaml.map [("machine", Yaml.map [
    ("install", Yaml.map [("disk", Yaml.str "d"),
      ("extensions", qemuAgentExt), ("extraKernelArgs", ifnamesKernelArgs)]),
    ("network", Yaml.map [
      ("interfaces", Yaml.arr [mkIface "10.0.0.21" "24" "g" "e" none]),
      ("nameservers", Yaml.arr [Yaml.str "n"])]),
    ("kubelet", Yaml.map [("extraArgs",
      Yaml.map [("rotate-server-certificates", Yaml.str "true")])])])]

/-- Witness for C4 at a one-control-plane, one-worker topology. -/
theorem c4_vip_placement_w :
    ∃ d, ([("cp1.yaml", w4cp), ("w1.yaml", w4wk)] : List (String × Yaml)).get? 0
        = some ("cp" ++ toString (1 + 0) ++ ".yaml", d) ∧
      getPath d ["machine", "network", "interfaces"]
        = some (Yaml.arr [mkIface ((["10.0.0.11"] : List String).get ⟨0, by decide⟩)
            "24" "g" "e" (some "10.0.0.10")]) ∧
      ∃ ifkvs, mkIface ((["10.0.0.11"] : List String).get ⟨0, by decide⟩)
          "24" "g" "e" (some "10.0.0.10") = Yaml.map ifkvs ∧
        mapGet? ifkvs "vip" = some (Yaml.map [("ip", Yaml.str "10.0.0.10")]) :=
  (@c4_vip_placement (Yaml.map []) (Yaml.map []) ["10.0.0.11"] ["10.0.0.21"]
    "24" "g" "n" "e" "d" "10.0.0.10" false
    [("cp1.yaml", w4cp), ("w1.yaml", w4wk)] (by decide) rfl).2.1 0 (by decide)

/-! ## Claim C9: pipeline ordering (corrected)

In the source, create_node_configs writes every control-plane document,
then every worker document, and only then calls validate_files on the full
list (line 234).  So control-plane documents are not validated before
worker documents are produced; validation of all documents happens after
all production, in the same order, aborting at the first failure. -/

theorem produceEvents_ok {tpl : Yaml} {tag : String} {ips : List String}
    {cidr gw ns ifname disk : String} {vip : Option String}
    {enable_ccm : Bool} (i : Nat)
    (hall : ∀ q ∈ ips,
      ∃ d, patch_node tpl q cidr gw ns ifname disk vip enable_ccm = .ok d) :
    produceEvents tpl tag ips i cidr gw ns ifname disk vip enable_ccm
      = ((docNames tag i ips).map Ev.produce, true) := by
  induction ips generalizing i with
  | nil => rfl
  | cons q rest ih =>
      obtain ⟨d, hd⟩ := hall q (by simp)
      rw [produceEvents, hd]
      have ihr := ih (i + 1) (fun r hr => hall r (by simp [hr]))
      rw [ihr]
      simp [docNames]

theorem validate_files_tr_spec (ok : String → Bool) (names : List String) :
    validate_files_tr ok names
      = ((names.takeWhile ok).map Ev.validate)
        ++ (match names.dropWhile ok with
            | [] => []
            | p :: _ => [Ev.validate p]) := by
  induction names with
  | nil => rfl
  | cons p ps ih =>
      by_cases hp : ok p = true
      · simp [validate_files_tr, List.takeWhile_cons, List.dropWhile_cons, hp, ih]
      · replace hp : ok p = false := by
          cases hok : ok p
          · rfl
          · exact absurd hok hp
        simp [validate_files_tr, List.takeWhile_cons, List.dropWhile_cons, hp]

/-- C9 (amended): the run first produces every control-plane document in
topology order, then every worker document in topology order, and only
after all documents are produced does it validate them, in the same order,
with the first validation failure aborting the run (no event follows the
failed validation).  The claim's assertion that control-plane documents
are validated before any worker document is produced does not hold of the
code. -/
theorem c9_pipeline_order {cp_tpl wk_tpl : Yaml} {cps wks : List String}
    {cidr gw ns ifname disk : String} {vip : Option String}
    {enable_ccm : Bool} (ok : String → Bool)
    (hcp : ∀ q ∈ cps,
      ∃ d, patch_node cp_tpl q cidr gw ns ifname disk vip enable_ccm = .ok d)
    (hwk : ∀ q ∈ wks,
      ∃ d, patch_node wk_tpl q cidr gw ns ifname disk none enable_ccm = .ok d) :
    create_node_configs_tr cp_tpl wk_tpl cps wks cidr gw ns ifname disk vip
        enable_ccm ok
      = ((docNames "cp" 1 cps ++ docNames "w" 1 wks).map Ev.produce)
        ++ (((docNames "cp" 1 cps ++ docNames "w" 1 wks).takeWhile ok).map
              Ev.validate)
        ++ (match (docNames "cp" 1 cps ++ docNames "w" 1 wks).dropWhile ok with
            | [] => []
            | p :: _ => [Ev.validate p]) := by
  rw [create_node_configs_tr, produceEvents_ok 1 hcp, produceEvents_ok 1 hwk]
  simp [validate_files_tr_spec, List.append_assoc]

/-- Witness for C9 with one control plane, one worker and a validator that
rejects the worker document: the failed validation is the last event. -/
theorem c9_pipeline_order_w :
    create_node_configs_tr (Yaml.map []) (Yaml.map []) ["10.0.0.11"]
        ["10.0.0.21"] "24" "g" "n" "e" "d" none false
        (fun p => p != "w1.yaml")
      = [Ev.produce "cp1.yaml", Ev.produce "w1.yaml",
         Ev.validate "cp1.yaml", Ev.validate "w1.yaml"] := by
  have h := @c9_pipeline_order (Yaml.map []) (Yaml.map []) ["10.0.0.11"]
    ["10.0.0.21"] "24" "g" "n" "e" "d" none false (fun p => p != "w1.yaml")
    (by intro q hq; rw [show q = "10.0.0.11" by simpa using hq]; exact ⟨_, rfl⟩)
    (by intro q hq; rw [show q = "10.0.0.21" by simpa using hq]; exact ⟨_, rfl⟩)
  exact h.trans (by decide)

/-- C9 counterexample: with one control-plane IP, one worker IP and a
validator that accepts everything, the trace is produce cp1, produce w1,
validate cp1, validate w1 — the control-plane document is validated only
after the worker document is produced, contradicting the claim that all
control-plane documents are produced and validated before any worker
document is produced. -/
theorem c9_counterexample :
    create_node_configs_tr (Yaml.map []) (Yaml.map []) ["10.0.0.11"]
        ["10.0.0.21"] "24" "g" "n" "e" "d" none false (fun _ => true)
      = [Ev.produce "cp1.yaml", Ev.produce "w1.yaml",
         Ev.validate "cp1.yaml", Ev.validate "w1.yaml"] ∧
    ¬ (∀ i j : Nat,
      (create_node_configs_tr (Yaml.map []) (Yaml.map []) ["10.0.0.11"]
          ["10.0.0.21"] "24" "g" "n" "e" "d" none false
          (fun _ => true)).get? i = some (Ev.validate "cp1.yaml") →
      (create_node_configs_tr (Yaml.map []) (Yaml.map []) ["10.0.0.11"]
          ["10.0.0.21"] "24" "g" "n" "e" "d" none false
          (fun _ => true)).get? j = some (Ev.produce "w1.yaml") →
      i < j) := by
  refine ⟨by decide, ?_⟩
  intro hall
  have h21 := hall 2 1 (by decide) (by decide)
  omega

/-! ## A heap model of patch_node (claims C1 and C8)

The pure `patch_node` above captures the value of the returned document,
but the isolation claims are about Python's reference semantics: dicts and
lists are heap objects passed by reference, `copy.deepcopy` allocates fresh
objects, and the statements of patch_node mutate them in place.  We model
that directly: `HVal` is a Python runtime value (scalars immediate,
containers a reference into a `Heap`), and `patchH` below is patch_node
again, statement by statement, as explicit heap-state passing. -/

/-- A Python runtime value: containers live on the heap behind a
reference, scalars are immediate. -/
inductive HVal where
  | ref (a : Nat) : HVal
  | str (s : String) : HVal
  | bool (b : Bool) : HVal
  | int (n : Int) : HVal
  | null : HVal
  deriving DecidableEq

/-- A heap object: a dict (insertion-ordered, string keys — the only dicts
the script builds) or a list. -/
inductive HObj where
  | dict (kvs : List (String × HVal)) : HObj
  | arr (xs : List HVal) : HObj
  deriving DecidableEq

/-- The heap: an association list of allocated objects plus the next fresh
address. -/
structure Heap where
  mem : List (Nat × HObj)
  next : Nat

def Heap.lookup (h : Heap) (a : Nat) : Option HObj :=
  (h.mem.find? (fun e => e.1 == a)).map (fun e => e.2)

/-- Overwrite the object stored at an (allocated) address. -/
def Heap.write (h : Heap) (a : Nat) (o : HObj) : Heap :=
  ⟨h.mem.map (fun e => if e.1 = a then (a, o) else e), h.next⟩

/-- Allocate a fresh object, returning the new heap and its address. -/
def Heap.alloc (h : Heap) (o : HObj) : Heap × Nat :=
  (⟨h.mem ++ [(h.next, o)], h.next + 1⟩, h.next)

/-- A pending read: a single value, the tail of a list being read back
into a sequence, or the tail of a dict being read back into a mapping. -/
inductive RT where
  | v (x : HVal) : RT
  | l (xs : List HVal) : RT
  | kv (kvs : List (String × HVal)) : RT

/-- Read a heap value back into a pure `Yaml` tree.  Cyclic structures
cannot be produced by this program, but the heap type cannot rule them
out, so the read is fuelled (a unit of fuel per traversal step; structural
in the fuel so that concrete runs compute). -/
def readT : Nat → Heap → RT → Option Yaml
  | _, _, .v (.str s) => some (.str s)
  | _, _, .v (.bool b) => some (.bool b)
  | _, _, .v (.int n) => some (.int n)
  | _, _, .v .null => some .null
  | 0, _, .v (.ref _) => none
  | fuel + 1, h, .v (.ref a) =>
      match h.lookup a with
      | some (.dict kvs) => readT fuel h (.kv kvs)
      | some (.arr xs) => readT fuel h (.l xs)
      | none => none
  | _, _, .l [] => some (.arr [])
  | 0, _, .l (_ :: _) => none
  | fuel + 1, h, .l (x :: xs) =>
      match readT fuel h (.v x), readT fuel h (.l xs) with
      | some y, some (.arr ys) => some (.arr (y :: ys))
      | _, _ => none
  | _, _, .kv [] => some (.map [])
  | 0, _, .kv (_ :: _) => none
  | fuel + 1, h, .kv ((k, x) :: kvs) =>
      match readT fuel h (.v x), readT fuel h (.kv kvs) with
      | some y, some (.map ys) => some (.map ((k, y) :: ys))
      | _, _ => none

/-- Read one heap value back into a pure `Yaml` tree. -/
def readY (fuel : Nat) (h : Heap) (v : HVal) : Option Yaml :=
  readT fuel h (RT.v v)

/- Lay a pure `Yaml` tree out in the heap (children first), producing the
value that refers to it.  Together with `readY` this models `copy.deepcopy`
of a loaded YAML document. -/
mutual
def allocY : Heap → Yaml → Heap × HVal
  | h, .null => (h, .null)
  | h, .bool b => (h, .bool b)
  | h, .int n => (h, .int n)
  | h, .str s => (h, .str s)
  | h, .arr xs =>
      let (h1, vs) := allocL h xs
      let (h2, a) := h1.alloc (.arr vs)
      (h2, .ref a)
  | h, .map kvs =>
      let (h1, hkvs) := allocKVs h kvs
      let (h2, a) := h1.alloc (.dict hkvs)
      (h2, .ref a)
def allocL : Heap → List Yaml → Heap × List HVal
  | h, [] => (h, [])
  | h, y :: ys =>
      let (h1, v) := allocY h y
      let (h2, vs) := allocL h1 ys
      (h2, v :: vs)
def allocKVs : Heap → List (String × Yaml) → Heap × List (String × HVal)
  | h, [] => (h, [])
  | h, (k, y) :: kvs =>
      let (h1, v) := allocY h y
      let (h2, vs) := allocKVs h1 kvs
      (h2, (k, v) :: vs)
end

/-- Line 122, `cfg = copy.deepcopy(base)`: read the (tree-shaped) document
and lay out a fresh, fully independent copy. -/
def copyH (fuel : Nat) (h : Heap) (v : HVal) : Option (Heap × HVal) :=
  (readY fuel h v).map (fun t => allocY h t)

/-- Resolve a value that the program is about to use as a dict (attribute
or item access on it): it must be a reference to a dict object. -/
def asDictAddr (h : Heap) (v : HVal) : Except String Nat :=
  match v with
  | .ref a =>
      match h.lookup a with
      | some (.dict _) => .ok a
      | _ => .error "not a dict"
  | _ => .error "not a dict"

/-- The entries of the dict stored at an address. -/
def dictEntries (h : Heap) (a : Nat) : Except String (List (String × HVal)) :=
  match h.lookup a with
  | some (.dict kvs) => .ok kvs
  | _ => .error "not a dict"

/-- Python `d[k] = v` on the dict at address `a`. -/
def hSetItem (h : Heap) (a : Nat) (k : String) (v : HVal) :
    Except String Heap := do
  let kvs ← dictEntries h a
  .ok (h.write a (.dict (mapSet kvs k v)))

/-- Python `d[k]` on the dict at address `a`. -/
def hGetItem (h : Heap) (a : Nat) (k : String) : Except String HVal := do
  let kvs ← dictEntries h a
  match mapGet? kvs k with
  | some v => .ok v
  | none => .error "KeyError"

/-- Python `d.setdefault(k, {})` on the dict at address `a`: return the
stored value, or allocate a fresh empty dict, append it under `k` and
return it. -/
def hSetdefault (h : Heap) (a : Nat) (k : String) :
    Except String (Heap × HVal) := do
  let kvs ← dictEntries h a
  match mapGet? kvs k with
  | some v => .ok (h, v)
  | none =>
      let (h1, b) := h.alloc (.dict [])
      .ok (h1.write a (.dict (kvs ++ [(k, .ref b)])), .ref b)

/-- Python truthiness of a runtime value (containers by emptiness). -/
def hTruthy (h : Heap) : HVal → Bool
  | .null => false
  | .bool b => b
  | .int n => n != 0
  | .str s => s != ""
  | .ref a =>
      match h.lookup a with
      | some (.dict kvs) => !kvs.isEmpty
      | some (.arr xs) => !xs.isEmpty
      | none => false

/-- Line 169, the test `cfg.get("cluster", \x7b\x7d).get("controlPlane", \x7b\x7d)`:
the truth value of the `controlPlane` entry of the `cluster` entry of the
document whose entries are `cfgKvs` (each missing key defaults to an empty,
falsy dict, and a non-dict `cluster` raises as the chained access would). -/
def ccmCond (h : Heap) (cfgKvs : List (String × HVal)) :
    Except String Bool :=
  match mapGet? cfgKvs "cluster" with
  | none => Except.ok false
  | some clv =>
      match clv with
      | .ref ca =>
          (match h.lookup ca with
           | some (.dict ckvs) =>
               Except.ok (match mapGet? ckvs "controlPlane" with
                 | none => false
                 | some cpv => hTruthy h cpv)
           | _ => Except.error "AttributeError")
      | _ => Except.error "AttributeError"

/-- Lines 109-179 of patch_node over the heap, one step per statement of
the source (comments give the line numbers).  `fuel` bounds the deepcopy
recursion only. -/
def patchH (fuel : Nat) (h0 : Heap) (base : HVal)
    (ip cidr gw ns ifname disk : String) (vip : Option String)
    (enable_ccm : Bool) : Except String (Heap × HVal) := do
  -- line 122: cfg = copy.deepcopy(base)
  let (h, cfg) ← match copyH fuel h0 base with
                 | some r => Except.ok r
                 | none => Except.error "deepcopy"
  -- line 125: install_config = cfg.setdefault("machine", {}).setdefault("install", {})
  let cfgA ← asDictAddr h cfg
  let (h, mval) ← hSetdefault h cfgA "machine"
  let mA ← asDictAddr h mval
  let (h, instval) ← hSetdefault h mA "install"
  let instA ← asDictAddr h instval
  -- line 126: install_config["disk"] = disk
  let h ← hSetItem h instA "disk" (.str disk)
  -- lines 129-131: install_config["extensions"] = [{"image": ...}]
  let (h, extv) := allocY h qemuAgentExt
  let h ← hSetItem h instA "extensions" extv
  -- line 134: install_config["extraKernelArgs"] = ["net.ifnames=0"]
  let (h, kav) := allocY h ifnamesKernelArgs
  let h ← hSetItem h instA "extraKernelArgs" kav
  -- line 137: mnet = cfg["machine"].setdefault("network", {})
  let mval2 ← hGetItem h cfgA "machine"
  let mA2 ← asDictAddr h mval2
  let (h, netval) ← hSetdefault h mA2 "network"
  let netA ← asDictAddr h netval
  -- lines 138-143: iface = {interface:, dhcp:, addresses:, routes:}
  let (h, ifv) := allocY h (mkIface ip cidr gw ifname none)
  let ifA ← asDictAddr h ifv
  -- lines 144-145: if vip: iface["vip"] = {"ip": vip}
  let h ← (if optTruthy vip then do
      let (h1, vv) := allocY h (Yaml.map [("ip", Yaml.str (vip.getD ""))])
      hSetItem h1 ifA "vip" vv
    else .ok h)
  -- line 146: mnet["interfaces"] = [iface]
  let (h, la) := h.alloc (.arr [ifv])
  let h ← hSetItem h netA "interfaces" (.ref la)
  -- line 147: mnet["nameservers"] = [ns]
  let (h, nsa) := h.alloc (.arr [.str ns])
  let h ← hSetItem h netA "nameservers" (.ref nsa)
  -- line 150: kubelet = cfg["machine"].setdefault("kubelet", {})
  let mval3 ← hGetItem h cfgA "machine"
  let mA3 ← asDictAddr h mval3
  let (h, kubval) ← hSetdefault h mA3 "kubelet"
  let kubA ← asDictAddr h kubval
  -- line 151: kubelet.setdefault("extraArgs", {})
  let (h, _) ← hSetdefault h kubA "extraArgs"
  -- line 154: kubelet["extraArgs"]["rotate-server-certificates"] = "true"
  let eav ← hGetItem h kubA "extraArgs"
  let eaA ← asDictAddr h eav
  let h ← hSetItem h eaA "rotate-server-certificates" (.str "true")
  if enable_ccm then
    -- line 158: kubelet["extraArgs"]["cloud-provider"] = "external"
    let eav2 ← hGetItem h kubA "extraArgs"
    let eaA2 ← asDictAddr h eav2
    let h ← hSetItem h eaA2 "cloud-provider" (.str "external")
    -- line 161: features = cfg["machine"].setdefault("features", {})
    let mval4 ← hGetItem h cfgA "machine"
    let mA4 ← asDictAddr h mval4
    let (h, fval) ← hSetdefault h mA4 "features"
    let fA ← asDictAddr h fval
    -- lines 162-166: features["kubernetesTalosAPIAccess"] = {...}
    let (h, fbv) := allocY h ccmFeatureBlock
    let h ← hSetItem h fA "kubernetesTalosAPIAccess" fbv
    -- line 169: if cfg.get("cluster", {}).get("controlPlane", {}):
    let cfgKvs ← dictEntries h cfgA
    let cond ← ccmCond h cfgKvs
    if cond then
      -- line 170: cluster = cfg.setdefault("cluster", {})
      let (h, cval) ← hSetdefault h cfgA "cluster"
      let cA ← asDictAddr h cval
      -- lines 171-177: cluster["externalCloudProvider"] = {...}
      let (h, ecpv) := allocY h externalCloudProviderBlock
      let h ← hSetItem h cA "externalCloudProvider" ecpv
      .ok (h, cfg)
    else
      .ok (h, cfg)
  else
    .ok (h, cfg)

/-! ### Region reasoning for the heap

`patchH` must only ever allocate fresh objects and mutate fresh ones: the
template's region of the heap is never written.  We capture this with an
invariant relating the heap at any point of the patch to the heap at entry. -/

/-- All references of a value satisfy `P`. -/
def HVal.refsIn (P : Nat → Prop) : HVal → Prop
  | .ref a => P a
  | _ => True

/-- All references stored in an object satisfy `P`. -/
def HObj.refsIn (P : Nat → Prop) : HObj → Prop
  | .dict kvs => ∀ kv ∈ kvs, HVal.refsIn P kv.2
  | .arr xs => ∀ x ∈ xs, HVal.refsIn P x

/-- The fresh region of `h` relative to an entry watermark `n0`. -/
def FR (n0 : Nat) (h : Heap) : Nat → Prop := fun b => n0 ≤ b ∧ b < h.next

/-- Invariant of every heap reached while patching, relative to the heap
`h0` at entry: addresses grow, all entries are below the watermark, the
old region is bit-for-bit untouched, and every fresh object references
only fresh objects. -/
structure HInv (h0 h : Heap) : Prop where
  mono : h0.next ≤ h.next
  dom : ∀ e ∈ h.mem, e.1 < h.next
  frame : ∀ a, a < h0.next → h.lookup a = h0.lookup a
  fresh : ∀ e ∈ h.mem, h0.next ≤ e.1 → HObj.refsIn (FR h0.next h) e.2

theorem hvalRefsIn_mono {P Q : Nat → Prop} (hpq : ∀ a, P a → Q a) :
    ∀ v, HVal.refsIn P v → HVal.refsIn Q v := by
  intro v hv
  cases v with
  | ref a => exact hpq a hv
  | str s => trivial
  | bool b => trivial
  | int n => trivial
  | null => trivial

theorem hobjRefsIn_mono {P Q : Nat → Prop} (hpq : ∀ a, P a → Q a) :
    ∀ o, HObj.refsIn P o → HObj.refsIn Q o := by
  intro o ho
  cases o with
  | dict kvs =>
      intro kv hkv
      exact hvalRefsIn_mono hpq _ (ho kv hkv)
  | arr xs =>
      intro x hx
      exact hvalRefsIn_mono hpq _ (ho x hx)

theorem FR_mono {n0 : Nat} {h h' : Heap} (hn : h.next ≤ h'.next) :
    ∀ a, FR n0 h a → FR n0 h' a := by
  intro a ⟨h1, h2⟩
  exact ⟨h1, lt_of_lt_of_le h2 hn⟩

theorem Heap.lookup_mem {h : Heap} {a : Nat} {o : HObj}
    (hl : h.lookup a = some o) : (a, o) ∈ h.mem := by
  unfold Heap.lookup at hl
  obtain ⟨e, he, heo⟩ := Option.map_eq_some'.mp hl
  have hmem := List.mem_of_find?_eq_some he
  have hp := List.find?_some he
  have ha : e.1 = a := by simpa using hp
  have : e = (a, o) := by
    obtain ⟨e1, e2⟩ := e
    simp only at ha heo
    rw [ha, heo]
  exact this ▸ hmem

theorem Heap.lookup_eq_none_of_high {h : Heap} {a : Nat}
    (hdom : ∀ e ∈ h.mem, e.1 < h.next) (ha : h.next ≤ a) :
    h.lookup a = none := by
  unfold Heap.lookup
  rw [List.find?_eq_none.mpr]
  · rfl
  · intro e he
    simp only [beq_iff_eq]
    intro hcontra
    exact absurd (hcontra ▸ hdom e he) (by omega)

theorem find?_append_some {α : Type} {l1 : List α} (l2 : List α)
    {p : α → Bool} {x : α} (h : l1.find? p = some x) :
    (l1 ++ l2).find? p = some x := by
  induction l1 with
  | nil => simp at h
  | cons e rest ih =>
      cases hpe : p e with
      | true =>
          rw [List.find?_cons_of_pos _ hpe] at h
          rw [List.cons_append, List.find?_cons_of_pos _ hpe]
          exact h
      | false =>
          rw [List.find?_cons_of_neg _ (by simp [hpe])] at h
          rw [List.cons_append, List.find?_cons_of_neg _ (by simp [hpe])]
          exact ih h

theorem find?_append_none {α : Type} {l1 : List α} (l2 : List α)
    {p : α → Bool} (h : l1.find? p = none) :
    (l1 ++ l2).find? p = l2.find? p := by
  induction l1 with
  | nil => rfl
  | cons e rest ih =>
      cases hpe : p e with
      | true =>
          rw [List.find?_cons_of_pos _ hpe] at h
          exact absurd h (by simp)
      | false =>
          rw [List.find?_cons_of_neg _ (by simp [hpe])] at h
          rw [List.cons_append, List.find?_cons_of_neg _ (by simp [hpe])]
          exact ih h

theorem Heap.lookup_alloc_old {h : Heap} {o : HObj} {a : Nat}
    (ha : a ≠ h.next) : (h.alloc o).1.lookup a = h.lookup a := by
  unfold Heap.alloc Heap.lookup
  simp only
  cases hf : h.mem.find? (fun e => e.1 == a) with
  | some e => rw [find?_append_some _ hf]
  | none =>
      rw [find?_append_none _ hf,
          List.find?_cons_of_neg _ (by simp [Ne.symm ha]), List.find?_nil]

theorem Heap.lookup_alloc_self {h : Heap} {o : HObj}
    (hdom : ∀ e ∈ h.mem, e.1 < h.next) :
    (h.alloc o).1.lookup (h.alloc o).2 = some o := by
  have hnone : h.mem.find? (fun e => e.1 == h.next) = none := by
    rw [List.find?_eq_none]
    intro e he
    simp only [beq_iff_eq]
    intro hc
    exact absurd (hc ▸ hdom e he) (by omega)
  unfold Heap.alloc Heap.lookup
  simp only
  rw [find?_append_none _ hnone, List.find?_cons_of_pos _ (by simp)]
  rfl

theorem write_find?_ne (l : List (Nat × HObj)) (a c : Nat) (o : HObj)
    (hne : c ≠ a) :
    (l.map (fun e => if e.1 = a then (a, o) else e)).find? (fun e => e.1 == c)
      = l.find? (fun e => e.1 == c) := by
  induction l with
  | nil => rfl
  | cons e rest ih =>
      by_cases hea : e.1 = a
      · rw [List.map_cons, if_pos hea,
            List.find?_cons_of_neg _ (by simp [Ne.symm hne]),
            List.find?_cons_of_neg _ (by simp [hea, Ne.symm hne])]
        exact ih
      · rw [List.map_cons, if_neg hea]
        by_cases hec : e.1 = c
        · rw [List.find?_cons_of_pos _ (by simp [hec]),
              List.find?_cons_of_pos _ (by simp [hec])]
        · rw [List.find?_cons_of_neg _ (by simp [hec]),
              List.find?_cons_of_neg _ (by simp [hec])]
          exact ih

theorem write_find?_self (l : List (Nat × HObj)) (a : Nat) (o : HObj)
    (hl : (l.find? (fun e => e.1 == a)).isSome) :
    (l.map (fun e => if e.1 = a then (a, o) else e)).find? (fun e => e.1 == a)
      = some (a, o) := by
  induction l with
  | nil => simp at hl
  | cons e rest ih =>
      by_cases hea : e.1 = a
      · rw [List.map_cons, if_pos hea, List.find?_cons_of_pos _ (by simp)]
      · rw [List.find?_cons_of_neg _ (by simp [hea])] at hl
        rw [List.map_cons, if_neg hea,
            List.find?_cons_of_neg _ (by simp [hea])]
        exact ih hl

theorem Heap.lookup_write_ne {h : Heap} {a c : Nat} {o : HObj}
    (hne : c ≠ a) : (h.write a o).lookup c = h.lookup c := by
  unfold Heap.write Heap.lookup
  simp only
  rw [write_find?_ne _ _ _ _ hne]

theorem Heap.lookup_write_self {h : Heap} {a : Nat} {o o' : HObj}
    (hl : h.lookup a = some o') : (h.write a o).lookup a = some o := by
  unfold Heap.write Heap.lookup
  unfold Heap.lookup at hl
  simp only
  rw [write_find?_self]
  · rfl
  · cases hf : h.mem.find? (fun e => e.1 == a) with
    | none => rw [hf] at hl; simp at hl
    | some e => simp

theorem Heap.mem_write {h : Heap} {a : Nat} {o : HObj} {e : Nat × HObj}
    (he : e ∈ (h.write a o).mem) :
    ∃ e' ∈ h.mem, e = if e'.1 = a then (a, o) else e' := by
  unfold Heap.write at he
  simp only [List.mem_map] at he
  obtain ⟨e', he', heq⟩ := he
  exact ⟨e', he', heq.symm⟩

theorem mapGet?_mem {α : Type} {kvs : List (String × α)} {k : String} {v : α}
    (h : mapGet? kvs k = some v) : (k, v) ∈ kvs := by
  induction kvs with
  | nil => simp [mapGet?] at h
  | cons e rest ih =>
      obtain ⟨k', v'⟩ := e
      by_cases hk : k' = k
      · subst hk
        simp [mapGet?] at h
        subst h
        simp
      · simp only [mapGet?, if_neg hk] at h
        exact List.mem_cons_of_mem _ (ih h)

theorem mem_mapSet {α : Type} {kvs : List (String × α)} {k : String} {v : α}
    {e : String × α} (h : e ∈ mapSet kvs k v) : e = (k, v) ∨ e ∈ kvs := by
  induction kvs with
  | nil => simpa [mapSet] using h
  | cons e' rest ih =>
      obtain ⟨k', v'⟩ := e'
      by_cases hk : k' = k
      · subst hk
        simp only [mapSet, if_pos rfl] at h
        rcases List.mem_cons.mp h with h | h
        · exact Or.inl h
        · exact Or.inr (List.mem_cons_of_mem _ h)
      · simp only [mapSet, if_neg hk] at h
        rcases List.mem_cons.mp h with h | h
        · exact Or.inr (h ▸ List.mem_cons_self _ _)
        · rcases ih h with h | h
          · exact Or.inl h
          · exact Or.inr (List.mem_cons_of_mem _ h)

/-- The invariant survives a fresh allocation of an object whose references
are fresh, and the new address is fresh. -/
theorem hinv_alloc {h0 h : Heap} {o : HObj} (inv : HInv h0 h)
    (ho : HObj.refsIn (FR h0.next h) o) :
    HInv h0 (h.alloc o).1 ∧ FR h0.next (h.alloc o).1 (h.alloc o).2 := by
  have hnext : (h.alloc o).1.next = h.next + 1 := rfl
  have hmem : (h.alloc o).1.mem = h.mem ++ [(h.next, o)] := rfl
  refine ⟨⟨by rw [hnext]; have := inv.mono; omega, ?_, ?_, ?_⟩, ?_⟩
  · intro e he
    rw [hmem] at he
    rcases List.mem_append.mp he with he | he
    · have := inv.dom e he
      omega
    · simp only [List.mem_singleton] at he
      subst he
      simp [hnext]
  · intro a ha
    have hane : a ≠ h.next := by
      have := inv.mono
      omega
    rw [Heap.lookup_alloc_old hane]
    exact inv.frame a ha
  · intro e he hfr
    rw [hmem] at he
    rcases List.mem_append.mp he with he | he
    · exact hobjRefsIn_mono (FR_mono (by omega)) _ (inv.fresh e he hfr)
    · simp only [List.mem_singleton] at he
      subst he
      exact hobjRefsIn_mono (FR_mono (by omega)) _ ho
  · exact ⟨inv.mono, by simp [Heap.alloc, hnext]⟩

mutual
theorem hinv_allocY (t : Yaml) {h0 h : Heap} (inv : HInv h0 h) :
    HInv h0 (allocY h t).1 ∧ h.next ≤ (allocY h t).1.next ∧
    HVal.refsIn (FR h0.next (allocY h t).1) (allocY h t).2 := by
  cases t with
  | null => exact ⟨inv, le_refl _, trivial⟩
  | bool b => exact ⟨inv, le_refl _, trivial⟩
  | int n => exact ⟨inv, le_refl _, trivial⟩
  | str s => exact ⟨inv, le_refl _, trivial⟩
  | arr xs =>
      obtain ⟨inv1, hm1, hvs⟩ := hinv_allocL xs inv
      have harr : HObj.refsIn (FR h0.next (allocL h xs).1)
          (HObj.arr (allocL h xs).2) := hvs
      have halloc := hinv_alloc inv1 harr
      exact ⟨halloc.1, by
        have : ((allocL h xs).1.alloc (.arr (allocL h xs).2)).1.next
            = (allocL h xs).1.next + 1 := rfl
        simp only [allocY]
        omega, halloc.2⟩
  | map kvs =>
      obtain ⟨inv1, hm1, hkvs⟩ := hinv_allocKVs kvs inv
      have hdict : HObj.refsIn (FR h0.next (allocKVs h kvs).1)
          (HObj.dict (allocKVs h kvs).2) := hkvs
      have halloc := hinv_alloc inv1 hdict
      exact ⟨halloc.1, by
        have : ((allocKVs h kvs).1.alloc (.dict (allocKVs h kvs).2)).1.next
            = (allocKVs h kvs).1.next + 1 := rfl
        simp only [allocY]
        omega, halloc.2⟩

theorem hinv_allocL (ys : List Yaml) {h0 h : Heap} (inv : HInv h0 h) :
    HInv h0 (allocL h ys).1 ∧ h.next ≤ (allocL h ys).1.next ∧
    ∀ v ∈ (allocL h ys).2, HVal.refsIn (FR h0.next (allocL h ys).1) v := by
  cases ys with
  | nil => exact ⟨inv, le_refl _, by simp [allocL]⟩
  | cons y ys =>
      obtain ⟨inv1, hm1, hv⟩ := hinv_allocY y inv
      obtain ⟨inv2, hm2, hvs⟩ := hinv_allocL ys inv1
      refine ⟨inv2, by simp only [allocL]; omega, ?_⟩
      intro v hvm
      simp only [allocL, List.mem_cons] at hvm
      rcases hvm with hvm | hvm
      · subst hvm
        exact hvalRefsIn_mono (FR_mono hm2) _ hv
      · exact hvs v hvm

theorem hinv_allocKVs (kvs : List (String × Yaml)) {h0 h : Heap}
    (inv : HInv h0 h) :
    HInv h0 (allocKVs h kvs).1 ∧ h.next ≤ (allocKVs h kvs).1.next ∧
    ∀ kv ∈ (allocKVs h kvs).2,
      HVal.refsIn (FR h0.next (allocKVs h kvs).1) kv.2 := by
  cases kvs with
  | nil => exact ⟨inv, le_refl _, by simp [allocKVs]⟩
  | cons ky kvs =>
      obtain ⟨k, y⟩ := ky
      obtain ⟨inv1, hm1, hv⟩ := hinv_allocY y inv
      obtain ⟨inv2, hm2, hvs⟩ := hinv_allocKVs kvs inv1
      refine ⟨inv2, by simp only [allocKVs]; omega, ?_⟩
      intro kv hkvm
      simp only [allocKVs, List.mem_cons] at hkvm
      rcases hkvm with hkvm | hkvm
      · subst hkvm
        exact hvalRefsIn_mono (FR_mono hm2) _ hv
      · exact hvs kv hkvm
end

theorem dictEntries_ok {h : Heap} {a : Nat} {kvs : List (String × HVal)}
    (hd : dictEntries h a = .ok kvs) : h.lookup a = some (.dict kvs) := by
  unfold dictEntries at hd
  cases hl : h.lookup a with
  | none => rw [hl] at hd; simp at hd
  | some o =>
      rw [hl] at hd
      cases o with
      | dict kvs' => simp at hd; rw [hd]
      | arr xs => simp at hd

/-- Entries of a fresh dict have fresh references. -/
theorem hinv_entry_refs {h0 h : Heap} (inv : HInv h0 h) {a : Nat}
    {kvs : List (String × HVal)} (ha : FR h0.next h a)
    (hl : h.lookup a = some (.dict kvs)) :
    ∀ kv ∈ kvs, HVal.refsIn (FR h0.next h) kv.2 :=
  inv.fresh (a, .dict kvs) (Heap.lookup_mem hl) ha.1

theorem asDictAddr_fr {h0 h : Heap} {v : HVal} {a : Nat}
    (hv : HVal.refsIn (FR h0.next h) v) (hd : asDictAddr h v = .ok a) :
    FR h0.next h a := by
  cases v with
  | ref a' =>
      cases hl : h.lookup a' with
      | none => simp [asDictAddr, hl] at hd
      | some o =>
          cases o with
          | dict kvs =>
              simp only [asDictAddr, hl, Except.ok.injEq] at hd
              exact hd ▸ hv
          | arr xs => simp [asDictAddr, hl] at hd
  | str s => simp [asDictAddr] at hd
  | bool b => simp [asDictAddr] at hd
  | int n => simp [asDictAddr] at hd
  | null => simp [asDictAddr] at hd

theorem hinv_hGetItem {h0 h : Heap} {a : Nat} {k : String} {v : HVal}
    (inv : HInv h0 h) (ha : FR h0.next h a) (hg : hGetItem h a k = .ok v) :
    HVal.refsIn (FR h0.next h) v := by
  rw [hGetItem, except_bind_eq_ok] at hg
  obtain ⟨kvs, hkvs, hg⟩ := hg
  have hl := dictEntries_ok hkvs
  cases hget : mapGet? kvs k with
  | none => rw [hget] at hg; simp at hg
  | some v' =>
      rw [hget] at hg
      simp at hg
      subst hg
      exact hinv_entry_refs inv ha hl (k, v') (mapGet?_mem hget)

theorem hinv_hSetItem {h0 h h' : Heap} {a : Nat} {k : String} {v : HVal}
    (inv : HInv h0 h) (ha : FR h0.next h a)
    (hv : HVal.refsIn (FR h0.next h) v) (hs : hSetItem h a k v = .ok h') :
    HInv h0 h' ∧ h'.next = h.next ∧
    (∀ c, c ≠ a → h'.lookup c = h.lookup c) := by
  rw [hSetItem, except_bind_eq_ok] at hs
  obtain ⟨kvs, hkvs, hs⟩ := hs
  have hl := dictEntries_ok hkvs
  simp only [Except.ok.injEq] at hs
  subst hs
  have hnext : (h.write a (.dict (mapSet kvs k v))).next = h.next := rfl
  refine ⟨⟨by rw [hnext]; exact inv.mono, ?_, ?_, ?_⟩, hnext, ?_⟩
  · intro e he
    obtain ⟨e', he', heq⟩ := Heap.mem_write he
    rw [hnext, heq]
    by_cases h1 : e'.1 = a
    · simp only [if_pos h1]
      exact ha.2
    · simp only [if_neg h1]
      exact inv.dom e' he'
  · intro c hc
    have hcne : c ≠ a := by
      have := inv.mono
      have := ha.1
      omega
    rw [Heap.lookup_write_ne hcne]
    exact inv.frame c hc
  · intro e he hfr
    obtain ⟨e', he', heq⟩ := Heap.mem_write he
    have hP : ∀ b, FR h0.next h b → FR h0.next (h.write a (.dict (mapSet kvs k v))) b := by
      intro b hb
      exact ⟨hb.1, by rw [hnext]; exact hb.2⟩
    by_cases h1 : e'.1 = a
    · rw [heq, if_pos h1]
      intro kv hkv
      rcases mem_mapSet hkv with hkv | hkv
      · subst hkv
        exact hvalRefsIn_mono hP _ hv
      · exact hvalRefsIn_mono hP _
          (hinv_entry_refs inv ha hl kv hkv)
    · rw [heq, if_neg h1]
      refine hobjRefsIn_mono hP _ (inv.fresh e' he' ?_)
      rw [heq, if_neg h1] at hfr
      exact hfr
  · intro c hc
    exact Heap.lookup_write_ne hc

theorem hinv_hSetdefault {h0 h h' : Heap} {a : Nat} {k : String} {rv : HVal}
    (inv : HInv h0 h) (ha : FR h0.next h a)
    (hs : hSetdefault h a k = .ok (h', rv)) :
    HInv h0 h' ∧ h.next ≤ h'.next ∧ HVal.refsIn (FR h0.next h') rv := by
  rw [hSetdefault, except_bind_eq_ok] at hs
  obtain ⟨kvs, hkvs, hs⟩ := hs
  have hl := dictEntries_ok hkvs
  cases hget : mapGet? kvs k with
  | some v =>
      rw [hget] at hs
      simp only [Except.ok.injEq, Prod.mk.injEq] at hs
      obtain ⟨hs1, hs2⟩ := hs
      subst hs1; subst hs2
      exact ⟨inv, le_refl _, hinv_entry_refs inv ha hl (k, v) (mapGet?_mem hget)⟩
  | none =>
      rw [hget] at hs
      simp only [Except.ok.injEq, Prod.mk.injEq] at hs
      obtain ⟨hs1, hs2⟩ := hs
      have hempty : HObj.refsIn (FR h0.next h) (HObj.dict []) := by
        intro kv hkv
        simp at hkv
      obtain ⟨inv1, hb⟩ := hinv_alloc inv hempty
      have hnext1 : (h.alloc (.dict [])).1.next = h.next + 1 := rfl
      have hl1 : (h.alloc (.dict [])).1.lookup a = some (.dict kvs) := by
        rw [Heap.lookup_alloc_old (by
          have := ha.2
          omega)]
        exact hl
      have ha1 : FR h0.next (h.alloc (.dict [])).1 a := ⟨ha.1, by
        have := ha.2
        rw [hnext1]
        omega⟩
      -- the write of kvs ++ [(k, ref b)] into a
      have hwnext : h'.next = (h.alloc (.dict [])).1.next := by
        rw [← hs1]; rfl
      have hdict2 : HObj.refsIn (FR h0.next (h.alloc (.dict [])).1)
          (HObj.dict (kvs ++ [(k, .ref (h.alloc (.dict [])).2)])) := by
        intro kv hkv
        rcases List.mem_append.mp hkv with hkv | hkv
        · refine hvalRefsIn_mono (fun b hb => ⟨hb.1, ?_⟩) _
            (hinv_entry_refs inv ha hl kv hkv)
          rw [hnext1]
          have := hb.2
          omega
        · simp only [List.mem_singleton] at hkv
          subst hkv
          exact hb
      refine ⟨?_, by
        rw [← hs1]
        have hwn : ((h.alloc (HObj.dict [])).1.write a
            (HObj.dict (kvs ++ [(k, HVal.ref (h.alloc (HObj.dict [])).2)]))).next
            = (h.alloc (HObj.dict [])).1.next := rfl
        rw [hwn, hnext1]
        omega, ?_⟩
      · subst hs1
        constructor
        · rw [show (((h.alloc (.dict [])).1.write a
              (.dict (kvs ++ [(k, .ref (h.alloc (.dict [])).2)]))).next)
              = (h.alloc (.dict [])).1.next from rfl]
          exact inv1.mono
        · intro e he
          obtain ⟨e', he', heq⟩ := Heap.mem_write he
          by_cases h1 : e'.1 = a
          · rw [heq, if_pos h1]
            exact ha1.2
          · rw [heq, if_neg h1]
            exact inv1.dom e' he'
        · intro c hc
          have hcne : c ≠ a := by
            have := inv.mono
            have := ha.1
            omega
          rw [Heap.lookup_write_ne hcne]
          exact inv1.frame c hc
        · intro e he hfr
          obtain ⟨e', he', heq⟩ := Heap.mem_write he
          have hP : ∀ b, FR h0.next (h.alloc (.dict [])).1 b →
              FR h0.next ((h.alloc (.dict [])).1.write a
                (.dict (kvs ++ [(k, .ref (h.alloc (.dict [])).2)]))) b :=
            fun b hb => ⟨hb.1, hb.2⟩
          by_cases h1 : e'.1 = a
          · rw [heq, if_pos h1]
            exact fun kv hkv => hvalRefsIn_mono hP _ (hdict2 kv hkv)
          · rw [heq, if_neg h1]
            refine hobjRefsIn_mono hP _ (inv1.fresh e' he' ?_)
            rw [heq, if_neg h1] at hfr
            exact hfr
      · subst hs2
        subst hs1
        exact ⟨hb.1, hb.2⟩

theorem hinv_copyH {h0 h h' : Heap} {fuel : Nat} {v w : HVal}
    (inv : HInv h0 h) (hc : copyH fuel h v = some (h', w)) :
    HInv h0 h' ∧ h.next ≤ h'.next ∧ HVal.refsIn (FR h0.next h') w := by
  unfold copyH at hc
  cases hr : readY fuel h v with
  | none => rw [hr] at hc; simp at hc
  | some t =>
      rw [hr] at hc
      simp only [Option.map_some', Option.some.injEq] at hc
      obtain ⟨inv1, hm1, hw⟩ := hinv_allocY t inv
      rw [hc] at inv1 hm1 hw
      exact ⟨inv1, hm1, hw⟩

/-- Lines 144-145 (the conditional VIP insertion) preserve the invariant. -/
theorem refsIn_ref {P : Nat → Prop} {a : Nat} (h : P a) :
    HVal.refsIn P (HVal.ref a) := h

theorem hinv_vip_step {h0 h h' : Heap} {ifA : Nat} {vip : Option String}
    (inv : HInv h0 h) (hifA : FR h0.next h ifA)
    (hs : (if optTruthy vip then
        hSetItem (allocY h (Yaml.map [("ip", Yaml.str (vip.getD ""))])).1 ifA
          "vip" (allocY h (Yaml.map [("ip", Yaml.str (vip.getD ""))])).2
      else Except.ok h) = .ok h') :
    HInv h0 h' ∧ h.next ≤ h'.next := by
  by_cases hvip : optTruthy vip
  · rw [if_pos hvip] at hs
    obtain ⟨inv1, hm1, hv⟩ :=
      hinv_allocY (Yaml.map [("ip", Yaml.str (vip.getD ""))]) inv
    obtain ⟨inv2, hn2, -⟩ := hinv_hSetItem inv1 (FR_mono hm1 _ hifA) hv hs
    exact ⟨inv2, by omega⟩
  · rw [if_neg hvip] at hs
    simp only [Except.ok.injEq] at hs
    subst hs
    exact ⟨inv, le_refl _⟩

/-- The master region theorem for `patchH`: starting from any well-formed
heap, the patch only allocates and mutates fresh objects — the entry heap
is untouched below its watermark — and the returned document lives
entirely in the fresh region. -/
theorem patchH_inv {fuel : Nat} {h0 h1 : Heap} {base doc : HVal}
    {ip cidr gw ns ifname disk : String} {vip : Option String}
    {enable_ccm : Bool}
    (hdom : ∀ e ∈ h0.mem, e.1 < h0.next)
    (hrun : patchH fuel h0 base ip cidr gw ns ifname disk vip enable_ccm
      = .ok (h1, doc)) :
    HInv h0 h1 ∧ HVal.refsIn (FR h0.next h1) doc := by
  have inv0 : HInv h0 h0 := ⟨le_refl _, hdom, fun _ _ => rfl,
    fun e he hfr => absurd (hdom e he) (by omega)⟩
  rw [patchH] at hrun
  cases hcopy : copyH fuel h0 base with
  | none =>
      rw [hcopy] at hrun
      simp [except_bind_eq_ok] at hrun
  | some r =>
  obtain ⟨hA, cfg⟩ := r
  rw [hcopy] at hrun
  simp only [except_bind_eq_ok] at hrun
  obtain ⟨p, hp, hrun⟩ := hrun
  simp only [Except.ok.injEq] at hp
  subst hp
  obtain ⟨invA, monoA, hcfg⟩ := hinv_copyH inv0 hcopy
  obtain ⟨cfgA, hcfgA, hrun⟩ := hrun
  have haCfgA : FR h0.next hA cfgA := asDictAddr_fr hcfg hcfgA
  obtain ⟨⟨hB, mval⟩, hB_eq, hrun⟩ := hrun
  obtain ⟨invB, monoB, hmval⟩ := hinv_hSetdefault invA haCfgA hB_eq
  obtain ⟨mA, hmA, hrun⟩ := hrun
  have haMA : FR h0.next hB mA := asDictAddr_fr hmval hmA
  obtain ⟨⟨hC, instval⟩, hC_eq, hrun⟩ := hrun
  obtain ⟨invC, monoC, hinstval⟩ := hinv_hSetdefault invB haMA hC_eq
  obtain ⟨instA, hinstA, hrun⟩ := hrun
  have haInstA : FR h0.next hC instA := asDictAddr_fr hinstval hinstA
  obtain ⟨hD, hD_eq, hrun⟩ := hrun
  obtain ⟨invD, nD, -⟩ := hinv_hSetItem invC haInstA (by trivial) hD_eq
  obtain ⟨hE, hE_eq, hrun⟩ := hrun
  obtain ⟨invD1, monoD1, hextv⟩ := hinv_allocY qemuAgentExt invD
  obtain ⟨invE, nE, -⟩ := hinv_hSetItem invD1
    (⟨haInstA.1, by have := haInstA.2; omega⟩) hextv hE_eq
  obtain ⟨hF, hF_eq, hrun⟩ := hrun
  obtain ⟨invE1, monoE1, hkav⟩ := hinv_allocY ifnamesKernelArgs invE
  obtain ⟨invF, nF, -⟩ := hinv_hSetItem invE1
    (⟨haInstA.1, by have := haInstA.2; omega⟩) hkav hF_eq
  obtain ⟨mval2, hmval2, hrun⟩ := hrun
  have haCfgA_F : FR h0.next hF cfgA :=
    ⟨haCfgA.1, by have := haCfgA.2; omega⟩
  have hmval2r := hinv_hGetItem invF haCfgA_F hmval2
  obtain ⟨mA2, hmA2, hrun⟩ := hrun
  have haMA2 : FR h0.next hF mA2 := asDictAddr_fr hmval2r hmA2
  obtain ⟨⟨hG, netval⟩, hG_eq, hrun⟩ := hrun
  obtain ⟨invG, monoG, hnetval⟩ := hinv_hSetdefault invF haMA2 hG_eq
  obtain ⟨netA, hnetA, hrun⟩ := hrun
  have haNetA : FR h0.next hG netA := asDictAddr_fr hnetval hnetA
  obtain ⟨ifA, hifA, hrun⟩ := hrun
  obtain ⟨invG1, monoG1, hifv⟩ :=
    hinv_allocY (mkIface ip cidr gw ifname none) invG
  have haIfA : FR h0.next (allocY hG (mkIface ip cidr gw ifname none)).1 ifA :=
    asDictAddr_fr hifv hifA
  obtain ⟨hH, hH_eq, hrun⟩ := hrun
  obtain ⟨invH, monoH⟩ := hinv_vip_step invG1 haIfA hH_eq
  obtain ⟨hI, hI_eq, hrun⟩ := hrun
  have hIfvH : HVal.refsIn (FR h0.next hH)
      (allocY hG (mkIface ip cidr gw ifname none)).2 :=
    hvalRefsIn_mono (FR_mono monoH) _ hifv
  have harr : HObj.refsIn (FR h0.next hH)
      (HObj.arr [(allocY hG (mkIface ip cidr gw ifname none)).2]) := by
    intro x hx
    simp only [List.mem_singleton] at hx
    subst hx
    exact hIfvH
  obtain ⟨invH1, hla⟩ := hinv_alloc invH harr
  have nAllocIf : (hH.alloc (HObj.arr
      [(allocY hG (mkIface ip cidr gw ifname none)).2])).1.next
      = hH.next + 1 := rfl
  obtain ⟨invI, nI, -⟩ := hinv_hSetItem invH1
    (⟨haNetA.1, by have := haNetA.2; omega⟩) (refsIn_ref hla) hI_eq
  obtain ⟨hJ, hJ_eq, hrun⟩ := hrun
  have harr2 : HObj.refsIn (FR h0.next hI) (HObj.arr [HVal.str ns]) := by
    intro x hx
    simp only [List.mem_singleton] at hx
    subst hx
    trivial
  obtain ⟨invI1, hnsa⟩ := hinv_alloc invI harr2
  have nAllocNs : (hI.alloc (HObj.arr [HVal.str ns])).1.next
      = hI.next + 1 := rfl
  obtain ⟨invJ, nJ, -⟩ := hinv_hSetItem invI1
    (⟨haNetA.1, by have := haNetA.2; omega⟩) (refsIn_ref hnsa) hJ_eq
  obtain ⟨mval3, hmval3, hrun⟩ := hrun
  have haCfgA_J : FR h0.next hJ cfgA :=
    ⟨haCfgA.1, by have := haCfgA.2; omega⟩
  have hmval3r := hinv_hGetItem invJ haCfgA_J hmval3
  obtain ⟨mA3, hmA3, hrun⟩ := hrun
  have haMA3 : FR h0.next hJ mA3 := asDictAddr_fr hmval3r hmA3
  obtain ⟨⟨hK, kubval⟩, hK_eq, hrun⟩ := hrun
  obtain ⟨invK, monoK, hkubval⟩ := hinv_hSetdefault invJ haMA3 hK_eq
  obtain ⟨kubA, hkubA, hrun⟩ := hrun
  have haKubA : FR h0.next hK kubA := asDictAddr_fr hkubval hkubA
  obtain ⟨⟨hL, eaval0⟩, hL_eq, hrun⟩ := hrun
  obtain ⟨invL, monoL, -⟩ := hinv_hSetdefault invK haKubA hL_eq
  obtain ⟨eav, heav, hrun⟩ := hrun
  have haKubA_L : FR h0.next hL kubA :=
    ⟨haKubA.1, by have := haKubA.2; omega⟩
  have heavr := hinv_hGetItem invL haKubA_L heav
  obtain ⟨eaA, heaA, hrun⟩ := hrun
  have haEaA : FR h0.next hL eaA := asDictAddr_fr heavr heaA
  obtain ⟨hM, hM_eq, hrun⟩ := hrun
  obtain ⟨invM, nM, -⟩ := hinv_hSetItem invL haEaA (by trivial) hM_eq
  cases enable_ccm with
  | false =>
      rw [if_neg (by decide)] at hrun
      simp only [Except.ok.injEq, Prod.mk.injEq] at hrun
      obtain ⟨he1, he2⟩ := hrun
      subst he1; subst he2
      refine ⟨invM, hvalRefsIn_mono (fun b hb => ⟨hb.1, by
        have := hb.2
        omega⟩) _ hcfg⟩
  | true =>
      rw [if_pos rfl] at hrun
      simp only [except_bind_eq_ok] at hrun
      obtain ⟨eav2, heav2, hrun⟩ := hrun
      have haKubA_M : FR h0.next hM kubA :=
        ⟨haKubA.1, by have := haKubA.2; omega⟩
      have heav2r := hinv_hGetItem invM haKubA_M heav2
      obtain ⟨eaA2, heaA2, hrun⟩ := hrun
      have haEaA2 : FR h0.next hM eaA2 := asDictAddr_fr heav2r heaA2
      obtain ⟨hN, hN_eq, hrun⟩ := hrun
      obtain ⟨invN, nN, -⟩ := hinv_hSetItem invM haEaA2 (by trivial) hN_eq
      obtain ⟨mval4, hmval4, hrun⟩ := hrun
      have haCfgA_N : FR h0.next hN cfgA :=
        ⟨haCfgA.1, by have := haCfgA.2; omega⟩
      have hmval4r := hinv_hGetItem invN haCfgA_N hmval4
      obtain ⟨mA4, hmA4, hrun⟩ := hrun
      have haMA4 : FR h0.next hN mA4 := asDictAddr_fr hmval4r hmA4
      obtain ⟨⟨hO, fval⟩, hO_eq, hrun⟩ := hrun
      obtain ⟨invO, monoO, hfval⟩ := hinv_hSetdefault invN haMA4 hO_eq
      obtain ⟨fA, hfA, hrun⟩ := hrun
      have haFA : FR h0.next hO fA := asDictAddr_fr hfval hfA
      obtain ⟨hP, hP_eq, hrun⟩ := hrun
      obtain ⟨invO1, monoO1, hfbv⟩ := hinv_allocY ccmFeatureBlock invO
      obtain ⟨invP, nP, -⟩ := hinv_hSetItem invO1
        (⟨haFA.1, by have := haFA.2; omega⟩) hfbv hP_eq
      obtain ⟨cfgKvs, hcfgKvs, hrun⟩ := hrun
      obtain ⟨cond, hcond, hrun⟩ := hrun
      cases cond with
      | false =>
          rw [if_neg (by decide)] at hrun
          simp only [Except.ok.injEq, Prod.mk.injEq] at hrun
          obtain ⟨he1, he2⟩ := hrun
          subst he1; subst he2
          refine ⟨invP, hvalRefsIn_mono (fun b hb => ⟨hb.1, by
            have := hb.2
            omega⟩) _ hcfg⟩
      | true =>
          rw [if_pos rfl] at hrun
          simp only [except_bind_eq_ok] at hrun
          have haCfgA_P : FR h0.next hP cfgA :=
            ⟨haCfgA.1, by have := haCfgA.2; omega⟩
          obtain ⟨⟨hQ, cval⟩, hQ_eq, hrun⟩ := hrun
          obtain ⟨invQ, monoQ, hcval⟩ := hinv_hSetdefault invP haCfgA_P hQ_eq
          obtain ⟨cA, hcA, hrun⟩ := hrun
          have haCA : FR h0.next hQ cA := asDictAddr_fr hcval hcA
          obtain ⟨hR, hR_eq, hrun⟩ := hrun
          obtain ⟨invQ1, monoQ1, hecpv⟩ :=
            hinv_allocY externalCloudProviderBlock invQ
          obtain ⟨invR, nR, -⟩ := hinv_hSetItem invQ1
            (⟨haCA.1, by have := haCA.2; omega⟩) hecpv hR_eq
          simp only [Except.ok.injEq, Prod.mk.injEq] at hrun
          obtain ⟨he1, he2⟩ := hrun
          subst he1; subst he2
          refine ⟨invR, hvalRefsIn_mono (fun b hb => ⟨hb.1, by
            have := hb.2
            omega⟩) _ hcfg⟩

/-! ### Reachability and observation -/

/-- Address `b` is reachable from a value: it is the value's own referent
or reachable from some member of the referenced container.  The mutable
substructure shared between two values is exactly the overlap of their
reachable address sets. -/
inductive Reach (h : Heap) : HVal → Nat → Prop where
  | here {a : Nat} : Reach h (.ref a) a
  | dict {a : Nat} {kvs : List (String × HVal)} {k : String} {v : HVal}
      {b : Nat} : h.lookup a = some (.dict kvs) → (k, v) ∈ kvs →
      Reach h v b → Reach h (.ref a) b
  | arr {a : Nat} {xs : List HVal} {v : HVal} {b : Nat} :
      h.lookup a = some (.arr xs) → v ∈ xs →
      Reach h v b → Reach h (.ref a) b

/-- Reachability stays inside any region that is closed under following
stored references. -/
theorem reach_closed {h : Heap} {P : Nat → Prop}
    (hstep : ∀ a o, P a → h.lookup a = some o → HObj.refsIn P o)
    {v : HVal} {b : Nat} (hr : Reach h v b) :
    HVal.refsIn P v → P b := by
  induction hr with
  | here => intro hv; exact hv
  | dict hl hmem _ ih =>
      intro hv
      exact ih (hstep _ _ hv hl _ hmem)
  | arr hl hmem _ ih =>
      intro hv
      exact ih (hstep _ _ hv hl _ hmem)

/-- From a value whose references are fresh, only fresh addresses are
reachable. -/
theorem reach_fresh {h0 h : Heap} (inv : HInv h0 h) {v : HVal}
    (hv : HVal.refsIn (FR h0.next h) v) {b : Nat} (hr : Reach h v b) :
    FR h0.next h b := by
  refine reach_closed ?_ hr hv
  intro a o ha hl
  exact inv.fresh (a, o) (Heap.lookup_mem hl) ha.1

/-- Reachability only depends on the heap cells it traverses. -/
theorem reach_of_agree {h h' : Heap} {v : HVal}
    (hag : ∀ b, Reach h v b → h'.lookup b = h.lookup b) {b : Nat}
    (hr : Reach h v b) : Reach h' v b := by
  induction hr with
  | here => exact Reach.here
  | @dict a kvs k w b hl hmem hrch ih =>
      have hla : h'.lookup a = h.lookup a := hag a Reach.here
      refine Reach.dict (hla.trans hl) hmem (ih ?_)
      intro c hc
      exact hag c (Reach.dict hl hmem hc)
  | @arr a xs w b hl hmem hrch ih =>
      have hla : h'.lookup a = h.lookup a := hag a Reach.here
      refine Reach.arr (hla.trans hl) hmem (ih ?_)
      intro c hc
      exact hag c (Reach.arr hl hmem hc)

/-- Conversely, reachability in the agreeing heap implies reachability in
the original, so the reachable set is exactly preserved. -/
theorem reach_of_agree_rev {h h' : Heap} {v : HVal}
    (hag : ∀ b, Reach h v b → h'.lookup b = h.lookup b) {b : Nat}
    (hr : Reach h' v b) : Reach h v b := by
  induction hr with
  | here => exact Reach.here
  | @dict a kvs k w b hl hmem hrch ih =>
      have hla : h'.lookup a = h.lookup a := hag a Reach.here
      have hl2 : h.lookup a = some (.dict kvs) := by rw [← hla]; exact hl
      refine Reach.dict hl2 hmem (ih ?_)
      intro c hc
      exact hag c (Reach.dict hl2 hmem hc)
  | @arr a xs w b hl hmem hrch ih =>
      have hla : h'.lookup a = h.lookup a := hag a Reach.here
      have hl2 : h.lookup a = some (.arr xs) := by rw [← hla]; exact hl
      refine Reach.arr hl2 hmem (ih ?_)
      intro c hc
      exact hag c (Reach.arr hl2 hmem hc)

/-- Reachability of an address from a pending read task. -/
def RTReach (h : Heap) : RT → Nat → Prop
  | .v x, b => Reach h x b
  | .l xs, b => ∃ x ∈ xs, Reach h x b
  | .kv kvs, b => ∃ kv ∈ kvs, Reach h kv.2 b

/-- Reading back depends only on the heap cells reachable from the task. -/
theorem readT_congr (fuel : Nat) (h h' : Heap) : ∀ (t : RT),
    (∀ b, RTReach h t b → h'.lookup b = h.lookup b) →
    readT fuel h' t = readT fuel h t := by
  induction fuel with
  | zero =>
      intro t hag
      match t with
      | .v (.str s) => rfl
      | .v (.bool b) => rfl
      | .v (.int n) => rfl
      | .v .null => rfl
      | .v (.ref a) => rfl
      | .l [] => rfl
      | .l (_ :: _) => rfl
      | .kv [] => rfl
      | .kv (_ :: _) => rfl
  | succ fuel ih =>
      intro t hag
      match t with
      | .v (.str s) => rfl
      | .v (.bool b) => rfl
      | .v (.int n) => rfl
      | .v .null => rfl
      | .v (.ref a) =>
          have hla : h'.lookup a = h.lookup a := hag a Reach.here
          show (match h'.lookup a with
            | some (.dict kvs) => readT fuel h' (.kv kvs)
            | some (.arr xs) => readT fuel h' (.l xs)
            | none => none) =
            (match h.lookup a with
            | some (.dict kvs) => readT fuel h (.kv kvs)
            | some (.arr xs) => readT fuel h (.l xs)
            | none => none)
          rw [hla]
          cases hl : h.lookup a with
          | none => rfl
          | some o =>
              cases o with
              | dict kvs =>
                  refine ih (.kv kvs) ?_
                  intro b hb
                  obtain ⟨⟨k, x⟩, hkv, hr⟩ := hb
                  exact hag b (Reach.dict hl hkv hr)
              | arr xs =>
                  refine ih (.l xs) ?_
                  intro b hb
                  obtain ⟨x, hx, hr⟩ := hb
                  exact hag b (Reach.arr hl hx hr)
      | .l [] => rfl
      | .l (x :: xs) =>
          show (match readT fuel h' (.v x), readT fuel h' (.l xs) with
            | some y, some (Yaml.arr ys) => some (Yaml.arr (y :: ys))
            | _, _ => (none : Option Yaml)) =
            (match readT fuel h (.v x), readT fuel h (.l xs) with
            | some y, some (Yaml.arr ys) => some (Yaml.arr (y :: ys))
            | _, _ => none)
          rw [ih (.v x) (fun b hb => hag b ⟨x, List.mem_cons_self _ _, hb⟩),
              ih (.l xs) (fun b hb => by
                obtain ⟨y, hy, hr⟩ := hb
                exact hag b ⟨y, List.mem_cons_of_mem _ hy, hr⟩)]
      | .kv [] => rfl
      | .kv ((k, x) :: kvs) =>
          show (match readT fuel h' (.v x), readT fuel h' (.kv kvs) with
            | some y, some (Yaml.map ys) => some (Yaml.map ((k, y) :: ys))
            | _, _ => (none : Option Yaml)) =
            (match readT fuel h (.v x), readT fuel h (.kv kvs) with
            | some y, some (Yaml.map ys) => some (Yaml.map ((k, y) :: ys))
            | _, _ => none)
          rw [ih (.v x) (fun b hb => hag b ⟨(k, x), List.mem_cons_self _ _, hb⟩),
              ih (.kv kvs) (fun b hb => by
                obtain ⟨e, he, hr⟩ := hb
                exact hag b ⟨e, List.mem_cons_of_mem _ he, hr⟩)]

/-- Reading a value back depends only on the heap cells reachable from
it. -/
theorem readY_congr (fuel : Nat) (h h' : Heap) (v : HVal)
    (hag : ∀ b, Reach h v b → h'.lookup b = h.lookup b) :
    readY fuel h' v = readY fuel h v :=
  readT_congr fuel h h' (RT.v v) hag

/-! ### Shift simulation: a repeated patch is a shifted replay

Running `patchH` twice with the same arguments performs the same
allocations in lockstep: the second run's fresh cells are the first
run's with every address shifted by a constant, so the two documents
read back to the same `Yaml` tree. -/

/-- Shift every reference of a value by `δ`. -/
def shiftV (δ : Nat) : HVal → HVal
  | .ref a => .ref (a + δ)
  | .str s => .str s
  | .bool b => .bool b
  | .int n => .int n
  | .null => .null

/-- Shift every reference stored in an object by `δ`. -/
def shiftO (δ : Nat) : HObj → HObj
  | .dict kvs => .dict (kvs.map (fun kv => (kv.1, shiftV δ kv.2)))
  | .arr xs => .arr (xs.map (shiftV δ))

/-- Simulation relation between a mid-patch heap `g` of a first run and
the corresponding heap `g'` of an identical second run: addresses below
the shared watermark `n1` read the same, and every cell of the first
run's fresh region reappears at the `δ`-shifted address holding the
`δ`-shifted object. -/
structure SimR (n1 δ : Nat) (g g' : Heap) : Prop where
  nle : n1 ≤ g.next
  next : g'.next = g.next + δ
  dom : ∀ e ∈ g.mem, e.1 < g.next
  dom' : ∀ e ∈ g'.mem, e.1 < g'.next
  low : ∀ a, a < n1 → g'.lookup a = g.lookup a
  hi : ∀ a, n1 ≤ a → a < g.next →
    g'.lookup (a + δ) = (g.lookup a).map (shiftO δ)

theorem mapGet?_shift (δ : Nat) (kvs : List (String × HVal)) (k : String) :
    mapGet? (kvs.map (fun kv => (kv.1, shiftV δ kv.2))) k
      = (mapGet? kvs k).map (shiftV δ) := by
  induction kvs with
  | nil => rfl
  | cons kv rest ih =>
      obtain ⟨k1, v⟩ := kv
      by_cases hk : k1 = k
      · simp [mapGet?, hk]
      · simp only [List.map_cons, mapGet?, if_neg hk]
        exact ih

theorem mapSet_shift (δ : Nat) (kvs : List (String × HVal)) (k : String)
    (v : HVal) :
    mapSet (kvs.map (fun kv => (kv.1, shiftV δ kv.2))) k (shiftV δ v)
      = (mapSet kvs k v).map (fun kv => (kv.1, shiftV δ kv.2)) := by
  induction kvs with
  | nil => rfl
  | cons kv rest ih =>
      obtain ⟨k1, v1⟩ := kv
      by_cases hk : k1 = k
      · simp [mapSet, hk]
      · simp only [List.map_cons, mapSet, if_neg hk, List.map_cons]
        rw [ih]

theorem simR_alloc {n1 δ : Nat} {g g' : Heap} (sr : SimR n1 δ g g')
    (o : HObj) :
    SimR n1 δ (g.alloc o).1 (g'.alloc (shiftO δ o)).1 ∧
    (g'.alloc (shiftO δ o)).2 = (g.alloc o).2 + δ := by
  have hn : (g.alloc o).1.next = g.next + 1 := rfl
  have hn' : (g'.alloc (shiftO δ o)).1.next = g'.next + 1 := rfl
  refine ⟨⟨?_, ?_, ?_, ?_, ?_, ?_⟩, ?_⟩
  · rw [hn]; have := sr.nle; omega
  · rw [hn, hn', sr.next]; omega
  · intro e he
    have hmem : (g.alloc o).1.mem = g.mem ++ [(g.next, o)] := rfl
    rw [hmem] at he
    rcases List.mem_append.mp he with he | he
    · have := sr.dom e he
      rw [hn]
      omega
    · simp only [List.mem_singleton] at he
      subst he
      show g.next < (g.alloc o).1.next
      rw [hn]
      omega
  · intro e he
    have hmem : (g'.alloc (shiftO δ o)).1.mem
        = g'.mem ++ [(g'.next, shiftO δ o)] := rfl
    rw [hmem] at he
    rcases List.mem_append.mp he with he | he
    · have := sr.dom' e he
      rw [hn']
      omega
    · simp only [List.mem_singleton] at he
      subst he
      show g'.next < (g'.alloc (shiftO δ o)).1.next
      rw [hn']
      omega
  · intro a ha
    have h1 : a ≠ g'.next := by
      have := sr.nle
      have := sr.next
      omega
    have h2 : a ≠ g.next := by
      have := sr.nle
      omega
    rw [Heap.lookup_alloc_old h1, Heap.lookup_alloc_old h2]
    exact sr.low a ha
  · intro a ha1 ha2
    rw [hn] at ha2
    by_cases hc : a = g.next
    · subst hc
      have hself : (g.alloc o).1.lookup (g.alloc o).2 = some o :=
        Heap.lookup_alloc_self sr.dom
      have hself' : (g'.alloc (shiftO δ o)).1.lookup
          (g'.alloc (shiftO δ o)).2 = some (shiftO δ o) :=
        Heap.lookup_alloc_self sr.dom'
      have hself2 : (g.alloc o).1.lookup g.next = some o := hself
      have hself2' : (g'.alloc (shiftO δ o)).1.lookup g'.next
          = some (shiftO δ o) := hself'
      rw [show g.next + δ = g'.next from by rw [sr.next], hself2', hself2]
      rfl
    · have ha2b : a < g.next := by omega
      have h1 : a + δ ≠ g'.next := by
        rw [sr.next]
        omega
      rw [Heap.lookup_alloc_old h1, Heap.lookup_alloc_old hc]
      exact sr.hi a ha1 ha2b
  · show g'.next = g.next + δ
    exact sr.next

theorem simR_write {n1 δ : Nat} {g g' : Heap} (sr : SimR n1 δ g g')
    {a : Nat} (ha : FR n1 g a) {o0 : HObj} (hl : g.lookup a = some o0)
    (o : HObj) :
    SimR n1 δ (g.write a o) (g'.write (a + δ) (shiftO δ o)) := by
  have hn : (g.write a o).next = g.next := rfl
  have hn' : (g'.write (a + δ) (shiftO δ o)).next = g'.next := rfl
  have hl' : g'.lookup (a + δ) = some (shiftO δ o0) := by
    rw [sr.hi a ha.1 ha.2, hl]
    rfl
  refine ⟨?_, ?_, ?_, ?_, ?_, ?_⟩
  · rw [hn]; exact sr.nle
  · rw [hn, hn']; exact sr.next
  · intro e he
    obtain ⟨e1, he1, heq⟩ := Heap.mem_write he
    rw [hn, heq]
    by_cases h1 : e1.1 = a
    · simp only [if_pos h1]
      exact ha.2
    · simp only [if_neg h1]
      exact sr.dom e1 he1
  · intro e he
    obtain ⟨e1, he1, heq⟩ := Heap.mem_write he
    rw [hn', heq]
    by_cases h1 : e1.1 = a + δ
    · simp only [if_pos h1]
      show a + δ < g'.next
      rw [sr.next]
      have := ha.2
      omega
    · simp only [if_neg h1]
      exact sr.dom' e1 he1
  · intro c hc
    have h1 : c ≠ a + δ := by
      have := ha.1
      have := sr.nle
      omega
    have h2 : c ≠ a := by
      have := ha.1
      have := sr.nle
      omega
    rw [Heap.lookup_write_ne h1, Heap.lookup_write_ne h2]
    exact sr.low c hc
  · intro c hc1 hc2
    rw [hn] at hc2
    by_cases h1 : c = a
    · subst h1
      rw [Heap.lookup_write_self hl', Heap.lookup_write_self hl]
      rfl
    · have h2 : c + δ ≠ a + δ := by omega
      rw [Heap.lookup_write_ne h2, Heap.lookup_write_ne h1]
      exact sr.hi c hc1 hc2

mutual
theorem simR_allocY (y : Yaml) {n1 δ : Nat} {g g' : Heap}
    (sr : SimR n1 δ g g') :
    SimR n1 δ (allocY g y).1 (allocY g' y).1 ∧
    (allocY g' y).2 = shiftV δ (allocY g y).2 := by
  cases y with
  | null => exact ⟨sr, rfl⟩
  | bool b => exact ⟨sr, rfl⟩
  | int n => exact ⟨sr, rfl⟩
  | str s => exact ⟨sr, rfl⟩
  | arr xs =>
      obtain ⟨sr1, hvs⟩ := simR_allocL xs sr
      obtain ⟨sra, haddr⟩ := simR_alloc sr1 (HObj.arr (allocL g xs).2)
      constructor
      · show SimR n1 δ ((allocL g xs).1.alloc (HObj.arr (allocL g xs).2)).1
            ((allocL g' xs).1.alloc (HObj.arr (allocL g' xs).2)).1
        rw [hvs]
        exact sra
      · show HVal.ref (allocL g' xs).1.next
            = HVal.ref ((allocL g xs).1.next + δ)
        rw [sr1.next]
  | map kvs =>
      obtain ⟨sr1, hkvs⟩ := simR_allocKVs kvs sr
      obtain ⟨sra, haddr⟩ := simR_alloc sr1 (HObj.dict (allocKVs g kvs).2)
      constructor
      · show SimR n1 δ
            ((allocKVs g kvs).1.alloc (HObj.dict (allocKVs g kvs).2)).1
            ((allocKVs g' kvs).1.alloc (HObj.dict (allocKVs g' kvs).2)).1
        rw [hkvs]
        exact sra
      · show HVal.ref (allocKVs g' kvs).1.next
            = HVal.ref ((allocKVs g kvs).1.next + δ)
        rw [sr1.next]

theorem simR_allocL (ys : List Yaml) {n1 δ : Nat} {g g' : Heap}
    (sr : SimR n1 δ g g') :
    SimR n1 δ (allocL g ys).1 (allocL g' ys).1 ∧
    (allocL g' ys).2 = (allocL g ys).2.map (shiftV δ) := by
  cases ys with
  | nil => exact ⟨sr, rfl⟩
  | cons y ys =>
      obtain ⟨sr1, hv⟩ := simR_allocY y sr
      obtain ⟨sr2, hvs⟩ := simR_allocL ys sr1
      refine ⟨sr2, ?_⟩
      show (allocY g' y).2 :: (allocL (allocY g' y).1 ys).2
          = ((allocY g y).2 :: (allocL (allocY g y).1 ys).2).map (shiftV δ)
      rw [List.map_cons, hv, hvs]

theorem simR_allocKVs (kvs : List (String × Yaml)) {n1 δ : Nat}
    {g g' : Heap} (sr : SimR n1 δ g g') :
    SimR n1 δ (allocKVs g kvs).1 (allocKVs g' kvs).1 ∧
    (allocKVs g' kvs).2
      = (allocKVs g kvs).2.map (fun kv => (kv.1, shiftV δ kv.2)) := by
  cases kvs with
  | nil => exact ⟨sr, rfl⟩
  | cons ky kvs =>
      obtain ⟨k, y⟩ := ky
      obtain ⟨sr1, hv⟩ := simR_allocY y sr
      obtain ⟨sr2, hvs⟩ := simR_allocKVs kvs sr1
      refine ⟨sr2, ?_⟩
      show (k, (allocY g' y).2) :: (allocKVs (allocY g' y).1 kvs).2
          = ((k, (allocY g y).2) :: (allocKVs (allocY g y).1 kvs).2).map
              (fun kv => (kv.1, shiftV δ kv.2))
      rw [List.map_cons, hv, hvs]
end

theorem simR_dictEntries {n1 δ : Nat} {g g' : Heap} (sr : SimR n1 δ g g')
    {a : Nat} (ha : FR n1 g a) {kvs : List (String × HVal)}
    (hd : dictEntries g a = .ok kvs) :
    dictEntries g' (a + δ)
      = .ok (kvs.map (fun kv => (kv.1, shiftV δ kv.2))) := by
  have hl := dictEntries_ok hd
  have hl' : g'.lookup (a + δ)
      = some (HObj.dict (kvs.map (fun kv => (kv.1, shiftV δ kv.2)))) := by
    rw [sr.hi a ha.1 ha.2, hl]
    rfl
  unfold dictEntries
  rw [hl']

theorem simR_asDictAddr {n1 δ : Nat} {g g' : Heap} (sr : SimR n1 δ g g')
    {v : HVal} (hv : HVal.refsIn (FR n1 g) v) {a : Nat}
    (hd : asDictAddr g v = .ok a) :
    asDictAddr g' (shiftV δ v) = .ok (a + δ) ∧ FR n1 g a := by
  cases v with
  | ref a1 =>
      cases hl : g.lookup a1 with
      | none => simp [asDictAddr, hl] at hd
      | some o =>
          cases o with
          | dict kvs =>
              simp only [asDictAddr, hl, Except.ok.injEq] at hd
              subst hd
              have hfr : FR n1 g a1 := hv
              have hl' : g'.lookup (a1 + δ) = some (HObj.dict
                  (kvs.map (fun kv => (kv.1, shiftV δ kv.2)))) := by
                rw [sr.hi a1 hfr.1 hfr.2, hl]
                rfl
              exact ⟨by simp [asDictAddr, shiftV, hl'], hfr⟩
          | arr xs => simp [asDictAddr, hl] at hd
  | str s => simp [asDictAddr] at hd
  | bool b => simp [asDictAddr] at hd
  | int n => simp [asDictAddr] at hd
  | null => simp [asDictAddr] at hd

theorem simR_hGetItem {n1 δ : Nat} {g g' : Heap} (sr : SimR n1 δ g g')
    {a : Nat} (ha : FR n1 g a) {k : String} {v : HVal}
    (hg : hGetItem g a k = .ok v) :
    hGetItem g' (a + δ) k = .ok (shiftV δ v) := by
  rw [hGetItem, except_bind_eq_ok] at hg
  obtain ⟨kvs, hkvs, hg⟩ := hg
  have hd' := simR_dictEntries sr ha hkvs
  rw [hGetItem, except_bind_eq_ok]
  refine ⟨_, hd', ?_⟩
  rw [mapGet?_shift]
  cases hget : mapGet? kvs k with
  | none =>
      rw [hget] at hg
      simp at hg
  | some w =>
      rw [hget] at hg
      simp only [Except.ok.injEq] at hg
      subst hg
      rfl

theorem simR_hSetItem {n1 δ : Nat} {g g' : Heap} (sr : SimR n1 δ g g')
    {a : Nat} (ha : FR n1 g a) {k : String} {v : HVal} {gout : Heap}
    (hs : hSetItem g a k v = .ok gout) :
    ∃ gw, hSetItem g' (a + δ) k (shiftV δ v) = .ok gw ∧
      SimR n1 δ gout gw := by
  rw [hSetItem, except_bind_eq_ok] at hs
  obtain ⟨kvs, hkvs, hs⟩ := hs
  simp only [Except.ok.injEq] at hs
  have hl := dictEntries_ok hkvs
  have hd' := simR_dictEntries sr ha hkvs
  refine ⟨g'.write (a + δ) (HObj.dict (mapSet
      (kvs.map (fun kv => (kv.1, shiftV δ kv.2))) k (shiftV δ v))), ?_, ?_⟩
  · rw [hSetItem, except_bind_eq_ok]
    exact ⟨_, hd', rfl⟩
  · have hobj : HObj.dict (mapSet
        (kvs.map (fun kv => (kv.1, shiftV δ kv.2))) k (shiftV δ v))
        = shiftO δ (HObj.dict (mapSet kvs k v)) := by
      rw [mapSet_shift]
      rfl
    rw [← hs, hobj]
    exact simR_write sr ha hl (HObj.dict (mapSet kvs k v))

theorem simR_hSetdefault {n1 δ : Nat} {g g' : Heap} (sr : SimR n1 δ g g')
    {a : Nat} (ha : FR n1 g a) {k : String} {gout : Heap} {rv : HVal}
    (hs : hSetdefault g a k = .ok (gout, rv)) :
    ∃ gw, hSetdefault g' (a + δ) k = .ok (gw, shiftV δ rv) ∧
      SimR n1 δ gout gw := by
  rw [hSetdefault, except_bind_eq_ok] at hs
  obtain ⟨kvs, hkvs, hs⟩ := hs
  have hl := dictEntries_ok hkvs
  have hd' := simR_dictEntries sr ha hkvs
  cases hget : mapGet? kvs k with
  | some v =>
      rw [hget] at hs
      simp only [Except.ok.injEq, Prod.mk.injEq] at hs
      obtain ⟨hs1, hs2⟩ := hs
      subst hs1
      subst hs2
      refine ⟨g', ?_, sr⟩
      rw [hSetdefault, except_bind_eq_ok]
      refine ⟨_, hd', ?_⟩
      rw [mapGet?_shift, hget]
      rfl
  | none =>
      rw [hget] at hs
      simp only [Except.ok.injEq, Prod.mk.injEq] at hs
      obtain ⟨hs1, hs2⟩ := hs
      obtain ⟨sra, haddr⟩ := simR_alloc sr (HObj.dict [])
      have hfra : FR n1 (g.alloc (HObj.dict [])).1 a := by
        refine ⟨ha.1, ?_⟩
        have h2 := ha.2
        have hne : (g.alloc (HObj.dict [])).1.next = g.next + 1 := rfl
        omega
      have hane : a ≠ g.next := by
        have := ha.2
        omega
      have hla : (g.alloc (HObj.dict [])).1.lookup a
          = some (HObj.dict kvs) := by
        rw [Heap.lookup_alloc_old hane]
        exact hl
      have hw := simR_write sra hfra hla
        (HObj.dict (kvs ++ [(k, HVal.ref (g.alloc (HObj.dict [])).2)]))
      refine ⟨(g'.alloc (HObj.dict [])).1.write (a + δ)
        (HObj.dict ((kvs.map (fun kv => (kv.1, shiftV δ kv.2)))
          ++ [(k, HVal.ref (g'.alloc (HObj.dict [])).2)])), ?_, ?_⟩
      · rw [hSetdefault, except_bind_eq_ok]
        refine ⟨_, hd', ?_⟩
        rw [mapGet?_shift, hget, ← hs2]
        show Except.ok ((g'.alloc (HObj.dict [])).1.write (a + δ)
            (HObj.dict ((kvs.map (fun kv => (kv.1, shiftV δ kv.2)))
              ++ [(k, HVal.ref g'.next)])), HVal.ref g'.next)
          = Except.ok ((g'.alloc (HObj.dict [])).1.write (a + δ)
            (HObj.dict ((kvs.map (fun kv => (kv.1, shiftV δ kv.2)))
              ++ [(k, HVal.ref g'.next)])), HVal.ref (g.next + δ))
        rw [sr.next]
      · have hobj : HObj.dict ((kvs.map (fun kv => (kv.1, shiftV δ kv.2)))
            ++ [(k, HVal.ref (g'.alloc (HObj.dict [])).2)])
            = shiftO δ (HObj.dict
              (kvs ++ [(k, HVal.ref (g.alloc (HObj.dict [])).2)])) := by
          show HObj.dict ((kvs.map (fun kv => (kv.1, shiftV δ kv.2)))
              ++ [(k, HVal.ref g'.next)])
            = HObj.dict ((kvs ++ [(k, HVal.ref g.next)]).map
                (fun kv => (kv.1, shiftV δ kv.2)))
          rw [List.map_append, sr.next]
          rfl
        rw [← hs1, hobj]
        exact hw

theorem simR_hTruthy {n1 δ : Nat} {g g' : Heap} (sr : SimR n1 δ g g')
    {v : HVal} (hv : HVal.refsIn (FR n1 g) v) :
    hTruthy g' (shiftV δ v) = hTruthy g v := by
  cases v with
  | ref a =>
      have hfr : FR n1 g a := hv
      show (match g'.lookup (a + δ) with
        | some (HObj.dict kvs) => !kvs.isEmpty
        | some (HObj.arr xs) => !xs.isEmpty
        | none => false) =
        (match g.lookup a with
        | some (HObj.dict kvs) => !kvs.isEmpty
        | some (HObj.arr xs) => !xs.isEmpty
        | none => false)
      rw [sr.hi a hfr.1 hfr.2]
      cases g.lookup a with
      | none => rfl
      | some o =>
          cases o with
          | dict kvs => cases kvs <;> rfl
          | arr xs => cases xs <;> rfl
  | str s => rfl
  | bool b => rfl
  | int n => rfl
  | null => rfl

/-- Freshness of every value held by a pending read task. -/
def RTfresh (n1 : Nat) (g : Heap) : RT → Prop
  | .v x => HVal.refsIn (FR n1 g) x
  | .l xs => ∀ x ∈ xs, HVal.refsIn (FR n1 g) x
  | .kv kvs => ∀ kv ∈ kvs, HVal.refsIn (FR n1 g) kv.2

/-- Shift every value held by a pending read task. -/
def shiftT (δ : Nat) : RT → RT
  | .v x => .v (shiftV δ x)
  | .l xs => .l (xs.map (shiftV δ))
  | .kv kvs => .kv (kvs.map (fun kv => (kv.1, shiftV δ kv.2)))

/-- Under the simulation relation, shifted fresh values read back to the
same tree in the second run's heap as the originals do in the first
run's. -/
theorem readT_sim (fuel : Nat) {n1 δ : Nat} {g g' : Heap}
    (sr : SimR n1 δ g g')
    (closed : ∀ a o, FR n1 g a → g.lookup a = some o →
      HObj.refsIn (FR n1 g) o) :
    ∀ t : RT, RTfresh n1 g t → readT fuel g' (shiftT δ t) = readT fuel g t := by
  induction fuel with
  | zero =>
      intro t ht
      match t with
      | .v (.str s) => rfl
      | .v (.bool b) => rfl
      | .v (.int n) => rfl
      | .v .null => rfl
      | .v (.ref a) => rfl
      | .l [] => rfl
      | .l (_ :: _) => rfl
      | .kv [] => rfl
      | .kv (_ :: _) => rfl
  | succ fuel ih =>
      intro t ht
      match t with
      | .v (.str s) => rfl
      | .v (.bool b) => rfl
      | .v (.int n) => rfl
      | .v .null => rfl
      | .v (.ref a) =>
          have hfr : FR n1 g a := ht
          show (match g'.lookup (a + δ) with
            | some (.dict kvs) => readT fuel g' (.kv kvs)
            | some (.arr xs) => readT fuel g' (.l xs)
            | none => none) =
            (match g.lookup a with
            | some (.dict kvs) => readT fuel g (.kv kvs)
            | some (.arr xs) => readT fuel g (.l xs)
            | none => none)
          rw [sr.hi a hfr.1 hfr.2]
          cases hl : g.lookup a with
          | none => rfl
          | some o =>
              have ho := closed a o hfr hl
              cases o with
              | dict kvs =>
                  show readT fuel g' (RT.kv (kvs.map
                      (fun kv => (kv.1, shiftV δ kv.2)))) = _
                  exact ih (.kv kvs) ho
              | arr xs =>
                  show readT fuel g' (RT.l (xs.map (shiftV δ))) = _
                  exact ih (.l xs) ho
      | .l [] => rfl
      | .l (x :: xs) =>
          show (match readT fuel g' (.v (shiftV δ x)),
              readT fuel g' (.l (xs.map (shiftV δ))) with
            | some y, some (Yaml.arr ys) => some (Yaml.arr (y :: ys))
            | _, _ => (none : Option Yaml)) =
            (match readT fuel g (.v x), readT fuel g (.l xs) with
            | some y, some (Yaml.arr ys) => some (Yaml.arr (y :: ys))
            | _, _ => none)
          have h1 : readT fuel g' (RT.v (shiftV δ x)) = readT fuel g (RT.v x) :=
            ih (.v x) (ht x (List.mem_cons_self _ _))
          have h2 : readT fuel g' (RT.l (xs.map (shiftV δ)))
              = readT fuel g (RT.l xs) :=
            ih (.l xs) (fun y hy => ht y (List.mem_cons_of_mem _ hy))
          rw [h1, h2]
      | .kv [] => rfl
      | .kv ((k, x) :: kvs) =>
          show (match readT fuel g' (.v (shiftV δ x)),
              readT fuel g' (.kv (kvs.map (fun kv => (kv.1, shiftV δ kv.2)))) with
            | some y, some (Yaml.map ys) => some (Yaml.map ((k, y) :: ys))
            | _, _ => (none : Option Yaml)) =
            (match readT fuel g (.v x), readT fuel g (.kv kvs) with
            | some y, some (Yaml.map ys) => some (Yaml.map ((k, y) :: ys))
            | _, _ => none)
          have h1 : readT fuel g' (RT.v (shiftV δ x)) = readT fuel g (RT.v x) :=
            ih (.v x) (ht (k, x) (List.mem_cons_self _ _))
          have h2 : readT fuel g'
              (RT.kv (kvs.map (fun kv => (kv.1, shiftV δ kv.2))))
              = readT fuel g (RT.kv kvs) :=
            ih (.kv kvs) (fun kv hkv => ht kv (List.mem_cons_of_mem _ hkv))
          rw [h1, h2]

/-- Reading back a shifted fresh value in the second run's heap gives the
same tree as reading the original in the first run's heap. -/
theorem readY_sim (fuel : Nat) {n1 δ : Nat} {g g' : Heap}
    (sr : SimR n1 δ g g')
    (closed : ∀ a o, FR n1 g a → g.lookup a = some o →
      HObj.refsIn (FR n1 g) o)
    {v : HVal} (hv : HVal.refsIn (FR n1 g) v) :
    readY fuel g' (shiftV δ v) = readY fuel g v :=
  readT_sim fuel sr closed (RT.v v) hv

mutual
theorem allocY_mono (y : Yaml) (h : Heap) : h.next ≤ (allocY h y).1.next := by
  cases y with
  | null => exact le_refl _
  | bool b => exact le_refl _
  | int n => exact le_refl _
  | str s => exact le_refl _
  | arr xs =>
      have h1 := allocL_mono xs h
      have h2 : ((allocL h xs).1.alloc (HObj.arr (allocL h xs).2)).1.next
          = (allocL h xs).1.next + 1 := rfl
      show h.next ≤ ((allocL h xs).1.alloc (HObj.arr (allocL h xs).2)).1.next
      omega
  | map kvs =>
      have h1 := allocKVs_mono kvs h
      have h2 : ((allocKVs h kvs).1.alloc
          (HObj.dict (allocKVs h kvs).2)).1.next
          = (allocKVs h kvs).1.next + 1 := rfl
      show h.next ≤ ((allocKVs h kvs).1.alloc
          (HObj.dict (allocKVs h kvs).2)).1.next
      omega

theorem allocL_mono (ys : List Yaml) (h : Heap) :
    h.next ≤ (allocL h ys).1.next := by
  cases ys with
  | nil => exact le_refl _
  | cons y ys =>
      have h1 := allocY_mono y h
      have h2 := allocL_mono ys (allocY h y).1
      show h.next ≤ (allocL (allocY h y).1 ys).1.next
      omega

theorem allocKVs_mono (kvs : List (String × Yaml)) (h : Heap) :
    h.next ≤ (allocKVs h kvs).1.next := by
  cases kvs with
  | nil => exact le_refl _
  | cons ky kvs =>
      obtain ⟨k, y⟩ := ky
      have h1 := allocY_mono y h
      have h2 := allocKVs_mono kvs (allocY h y).1
      show h.next ≤ (allocKVs (allocY h y).1 kvs).1.next
      omega
end

theorem simR_vip_step {n1 δ : Nat} {g g' : Heap} (sr : SimR n1 δ g g')
    {ifA : Nat} (hifA : FR n1 g ifA) {vip : Option String} {gout : Heap}
    (hs : (if optTruthy vip then
        hSetItem (allocY g (Yaml.map [("ip", Yaml.str (vip.getD ""))])).1 ifA
          "vip" (allocY g (Yaml.map [("ip", Yaml.str (vip.getD ""))])).2
      else Except.ok g) = .ok gout) :
    ∃ gw, (if optTruthy vip then
        hSetItem (allocY g' (Yaml.map [("ip", Yaml.str (vip.getD ""))])).1
          (ifA + δ) "vip"
          (allocY g' (Yaml.map [("ip", Yaml.str (vip.getD ""))])).2
      else Except.ok g') = .ok gw ∧ SimR n1 δ gout gw := by
  by_cases hvt : optTruthy vip
  · rw [if_pos hvt] at hs ⊢
    obtain ⟨sr2, hsh⟩ :=
      simR_allocY (Yaml.map [("ip", Yaml.str (vip.getD ""))]) sr
    have hfr2 : FR n1 (allocY g (Yaml.map [("ip", Yaml.str (vip.getD ""))])).1
        ifA := ⟨hifA.1, lt_of_lt_of_le hifA.2 (allocY_mono _ g)⟩
    obtain ⟨gw, hgw, srOut⟩ := simR_hSetItem sr2 hfr2 hs
    refine ⟨gw, ?_, srOut⟩
    rw [hsh]
    exact hgw
  · rw [if_neg hvt] at hs ⊢
    simp only [Except.ok.injEq] at hs
    subst hs
    exact ⟨g', rfl, sr⟩

theorem simR_ccmCond {n1 δ : Nat} {g g' : Heap} (sr : SimR n1 δ g g')
    (closed : ∀ a o, FR n1 g a → g.lookup a = some o →
      HObj.refsIn (FR n1 g) o)
    {cfgKvs : List (String × HVal)}
    (hfr : ∀ kv ∈ cfgKvs, HVal.refsIn (FR n1 g) kv.2)
    {cond condb : Bool}
    (hc : ccmCond g cfgKvs = .ok cond)
    (hcb : ccmCond g' (cfgKvs.map (fun kv => (kv.1, shiftV δ kv.2)))
      = .ok condb) :
    condb = cond := by
  unfold ccmCond at hc hcb
  rw [mapGet?_shift] at hcb
  cases hgc : mapGet? cfgKvs "cluster" with
  | none =>
      rw [hgc] at hc hcb
      simp only [Option.map_none'] at hcb
      simp only [Except.ok.injEq] at hc hcb
      rw [← hc, ← hcb]
  | some clv =>
      rw [hgc] at hc hcb
      simp only [Option.map_some'] at hcb
      cases clv with
      | str s => simp at hc
      | bool b => simp at hc
      | int n => simp at hc
      | null => simp at hc
      | ref ca =>
          have hfrca : FR n1 g ca :=
            hfr ("cluster", HVal.ref ca) (mapGet?_mem hgc)
          have hcb2 : (match g'.lookup (ca + δ) with
               | some (.dict ckvs) =>
                   Except.ok (match mapGet? ckvs "controlPlane" with
                     | none => false
                     | some cpv => hTruthy g' cpv)
               | _ => Except.error "AttributeError") = .ok condb := hcb
          have hcx : (match g.lookup ca with
               | some (.dict ckvs) =>
                   Except.ok (match mapGet? ckvs "controlPlane" with
                     | none => false
                     | some cpv => hTruthy g cpv)
               | _ => Except.error "AttributeError") = .ok cond := hc
          rw [sr.hi ca hfrca.1 hfrca.2] at hcb2
          cases hlca : g.lookup ca with
          | none =>
              rw [hlca] at hcx
              simp at hcx
          | some o =>
              rw [hlca] at hcb2
              cases o with
              | arr xs =>
                  rw [hlca] at hcx
                  simp at hcx
              | dict ckvs =>
                  rw [hlca] at hcx
                  simp only [Except.ok.injEq] at hcx
                  simp only [Option.map_some'] at hcb2
                  have hcb3 : Except.ok (match mapGet?
                      (ckvs.map (fun kv => (kv.1, shiftV δ kv.2)))
                      "controlPlane" with
                    | none => false
                    | some cpv => hTruthy g' cpv) = Except.ok condb := hcb2
                  rw [mapGet?_shift] at hcb3
                  simp only [Except.ok.injEq] at hcb3
                  cases hcp : mapGet? ckvs "controlPlane" with
                  | none =>
                      rw [hcp] at hcx hcb3
                      simp only [Option.map_none'] at hcb3
                      have hc2 : false = cond := hcx
                      have hcb4 : false = condb := hcb3
                      rw [← hc2, ← hcb4]
                  | some cpv =>
                      rw [hcp] at hcx hcb3
                      simp only [Option.map_some'] at hcb3
                      have hc2 : hTruthy g cpv = cond := hcx
                      have hcb4 : hTruthy g' (shiftV δ cpv) = condb := hcb3
                      have hcpvr : HVal.refsIn (FR n1 g) cpv := by
                        have ho := closed ca (HObj.dict ckvs) hfrca hlca
                        exact ho ("controlPlane", cpv) (mapGet?_mem hcp)
                      rw [simR_hTruthy sr hcpvr] at hcb4
                      rw [← hc2, ← hcb4]

/-- Replaying `patchH` with identical arguments from the heap the first
run produced performs the same allocations and writes shifted by the
constant `h1.next - h0.next`: the two final heaps are related by the
simulation relation and the second document is the address-shift of the
first. -/
theorem patchH_sim {fuel : Nat} {h0 h1 h2 : Heap} {tpl doc1 doc2 : HVal}
    {ip cidr gwip ns ifname disk : String} {vip : Option String}
    {ccm : Bool}
    (hdom : ∀ e ∈ h0.mem, e.1 < h0.next)
    (hrun1 : patchH fuel h0 tpl ip cidr gwip ns ifname disk vip ccm
      = .ok (h1, doc1))
    (hrun2 : patchH fuel h1 tpl ip cidr gwip ns ifname disk vip ccm
      = .ok (h2, doc2))
    (htr : readY fuel h1 tpl = readY fuel h0 tpl) :
    SimR h0.next (h1.next - h0.next) h1 h2 ∧
    doc2 = shiftV (h1.next - h0.next) doc1 := by
  obtain ⟨invFin, -⟩ := patchH_inv hdom hrun1
  have inv0 : HInv h0 h0 := ⟨le_refl _, hdom, fun _ _ => rfl,
    fun e he hfr => absurd (hdom e he) (by omega)⟩
  have sr0 : SimR h0.next (h1.next - h0.next) h0 h1 := by
    refine ⟨le_refl _, ?_, hdom, invFin.dom, invFin.frame, ?_⟩
    · have := invFin.mono
      omega
    · intro a ha1 ha2
      omega
  rw [patchH] at hrun1 hrun2
  cases hread : readY fuel h0 tpl with
  | none =>
      have hc0 : copyH fuel h0 tpl = none := by
        unfold copyH
        rw [hread]
        rfl
      rw [hc0] at hrun1
      simp [except_bind_eq_ok] at hrun1
  | some t =>
  have hc1 : copyH fuel h0 tpl = some (allocY h0 t) := by
    unfold copyH
    rw [hread]
    rfl
  have hc2 : copyH fuel h1 tpl = some (allocY h1 t) := by
    unfold copyH
    rw [htr, hread]
    rfl
  cases hcopy : copyH fuel h0 tpl with
  | none =>
      rw [hc1] at hcopy
      simp at hcopy
  | some r =>
  obtain ⟨hA, cfg⟩ := r
  cases hcopyb : copyH fuel h1 tpl with
  | none =>
      rw [hc2] at hcopyb
      simp at hcopyb
  | some rb =>
  obtain ⟨hAb, cfgb⟩ := rb
  have hpa : allocY h0 t = (hA, cfg) := Option.some.inj (hc1.symm.trans hcopy)
  have hpbe : allocY h1 t = (hAb, cfgb) :=
    Option.some.inj (hc2.symm.trans hcopyb)
  have hAeq : (allocY h0 t).1 = hA := by rw [hpa]
  have hcfgeq : (allocY h0 t).2 = cfg := by rw [hpa]
  have hAbeq : (allocY h1 t).1 = hAb := by rw [hpbe]
  have hcfgbeq : (allocY h1 t).2 = cfgb := by rw [hpbe]
  rw [hcopy] at hrun1
  rw [hcopyb] at hrun2
  simp only [except_bind_eq_ok] at hrun1 hrun2
  obtain ⟨p, hp, hrun1⟩ := hrun1
  simp only [Except.ok.injEq] at hp
  subst hp
  obtain ⟨pb, hpb2, hrun2⟩ := hrun2
  simp only [Except.ok.injEq] at hpb2
  subst hpb2
  obtain ⟨invA, monoA, hcfg⟩ := hinv_copyH inv0 hcopy
  have srA : SimR h0.next (h1.next - h0.next) hA hAb := by
    rw [← hAeq, ← hAbeq]
    exact (simR_allocY t sr0).1
  have hshcfg : cfgb = shiftV (h1.next - h0.next) cfg := by
    rw [← hcfgeq, ← hcfgbeq]
    exact (simR_allocY t sr0).2
  subst hshcfg
  obtain ⟨cfgA, hcfgA, hrun1⟩ := hrun1
  obtain ⟨cfgAb, hcfgAb, hrun2⟩ := hrun2
  have haCfgA : FR h0.next hA cfgA := asDictAddr_fr hcfg hcfgA
  obtain ⟨hsimc, -⟩ := simR_asDictAddr srA hcfg hcfgA
  rw [hsimc] at hcfgAb
  simp only [Except.ok.injEq] at hcfgAb
  subst hcfgAb
  obtain ⟨⟨hB, mval⟩, hB_eq, hrun1⟩ := hrun1
  obtain ⟨⟨hBb, mvalb⟩, hBb_eq, hrun2⟩ := hrun2
  obtain ⟨invB, monoB, hmval⟩ := hinv_hSetdefault invA haCfgA hB_eq
  obtain ⟨gq1, hgq1, srB⟩ := simR_hSetdefault srA haCfgA hB_eq
  rw [hgq1] at hBb_eq
  simp only [Except.ok.injEq, Prod.mk.injEq] at hBb_eq
  obtain ⟨hBb1, hBb2⟩ := hBb_eq
  subst hBb1
  subst hBb2
  obtain ⟨mA, hmA, hrun1⟩ := hrun1
  obtain ⟨mAb, hmAb, hrun2⟩ := hrun2
  have haMA : FR h0.next hB mA := asDictAddr_fr hmval hmA
  obtain ⟨hsimm, -⟩ := simR_asDictAddr srB hmval hmA
  rw [hsimm] at hmAb
  simp only [Except.ok.injEq] at hmAb
  subst hmAb
  obtain ⟨⟨hC, instval⟩, hC_eq, hrun1⟩ := hrun1
  obtain ⟨⟨hCb, instvalb⟩, hCb_eq, hrun2⟩ := hrun2
  obtain ⟨invC, monoC, hinstval⟩ := hinv_hSetdefault invB haMA hC_eq
  obtain ⟨gq2, hgq2, srC⟩ := simR_hSetdefault srB haMA hC_eq
  rw [hgq2] at hCb_eq
  simp only [Except.ok.injEq, Prod.mk.injEq] at hCb_eq
  obtain ⟨hCb1, hCb2⟩ := hCb_eq
  subst hCb1
  subst hCb2
  obtain ⟨instA, hinstA, hrun1⟩ := hrun1
  obtain ⟨instAb, hinstAb, hrun2⟩ := hrun2
  have haInstA : FR h0.next hC instA := asDictAddr_fr hinstval hinstA
  obtain ⟨hsimi, -⟩ := simR_asDictAddr srC hinstval hinstA
  rw [hsimi] at hinstAb
  simp only [Except.ok.injEq] at hinstAb
  subst hinstAb
  obtain ⟨hD, hD_eq, hrun1⟩ := hrun1
  obtain ⟨hDb, hDb_eq, hrun2⟩ := hrun2
  obtain ⟨invD, nD, -⟩ := hinv_hSetItem invC haInstA (by trivial) hD_eq
  obtain ⟨gq3, hgq3, srD⟩ := simR_hSetItem srC haInstA hD_eq
  have hgq3b : hSetItem gq2 (instA + (h1.next - h0.next)) "disk"
      (HVal.str disk) = .ok gq3 := hgq3
  rw [hgq3b] at hDb_eq
  simp only [Except.ok.injEq] at hDb_eq
  subst hDb_eq
  obtain ⟨hE, hE_eq, hrun1⟩ := hrun1
  obtain ⟨hEb, hEb_eq, hrun2⟩ := hrun2
  obtain ⟨invD1, monoD1, hextv⟩ := hinv_allocY qemuAgentExt invD
  obtain ⟨srD1, hextsh⟩ := simR_allocY qemuAgentExt srD
  obtain ⟨invE, nE, -⟩ := hinv_hSetItem invD1
    (⟨haInstA.1, by have := haInstA.2; omega⟩) hextv hE_eq
  obtain ⟨gq4, hgq4, srE⟩ := simR_hSetItem srD1
    (⟨haInstA.1, by have := haInstA.2; omega⟩) hE_eq
  rw [hextsh] at hEb_eq
  rw [hgq4] at hEb_eq
  simp only [Except.ok.injEq] at hEb_eq
  subst hEb_eq
  obtain ⟨hF, hF_eq, hrun1⟩ := hrun1
  obtain ⟨hFb, hFb_eq, hrun2⟩ := hrun2
  obtain ⟨invE1, monoE1, hkav⟩ := hinv_allocY ifnamesKernelArgs invE
  obtain ⟨srE1, hkavsh⟩ := simR_allocY ifnamesKernelArgs srE
  obtain ⟨invF, nF, -⟩ := hinv_hSetItem invE1
    (⟨haInstA.1, by have := haInstA.2; omega⟩) hkav hF_eq
  obtain ⟨gq5, hgq5, srF⟩ := simR_hSetItem srE1
    (⟨haInstA.1, by have := haInstA.2; omega⟩) hF_eq
  rw [hkavsh] at hFb_eq
  rw [hgq5] at hFb_eq
  simp only [Except.ok.injEq] at hFb_eq
  subst hFb_eq
  obtain ⟨mval2, hmval2, hrun1⟩ := hrun1
  obtain ⟨mval2b, hmval2b, hrun2⟩ := hrun2
  have haCfgA_F : FR h0.next hF cfgA :=
    ⟨haCfgA.1, by have := haCfgA.2; omega⟩
  have hmval2r := hinv_hGetItem invF haCfgA_F hmval2
  have hsimg2 := simR_hGetItem srF haCfgA_F hmval2
  rw [hsimg2] at hmval2b
  simp only [Except.ok.injEq] at hmval2b
  subst hmval2b
  obtain ⟨mA2, hmA2, hrun1⟩ := hrun1
  obtain ⟨mA2b, hmA2b, hrun2⟩ := hrun2
  have haMA2 : FR h0.next hF mA2 := asDictAddr_fr hmval2r hmA2
  obtain ⟨hsimm2, -⟩ := simR_asDictAddr srF hmval2r hmA2
  rw [hsimm2] at hmA2b
  simp only [Except.ok.injEq] at hmA2b
  subst hmA2b
  obtain ⟨⟨hG, netval⟩, hG_eq, hrun1⟩ := hrun1
  obtain ⟨⟨hGb, netvalb⟩, hGb_eq, hrun2⟩ := hrun2
  obtain ⟨invG, monoG, hnetval⟩ := hinv_hSetdefault invF haMA2 hG_eq
  obtain ⟨gq6, hgq6, srG⟩ := simR_hSetdefault srF haMA2 hG_eq
  rw [hgq6] at hGb_eq
  simp only [Except.ok.injEq, Prod.mk.injEq] at hGb_eq
  obtain ⟨hGb1, hGb2⟩ := hGb_eq
  subst hGb1
  subst hGb2
  obtain ⟨netA, hnetA, hrun1⟩ := hrun1
  obtain ⟨netAb, hnetAb, hrun2⟩ := hrun2
  have haNetA : FR h0.next hG netA := asDictAddr_fr hnetval hnetA
  obtain ⟨hsimn, -⟩ := simR_asDictAddr srG hnetval hnetA
  rw [hsimn] at hnetAb
  simp only [Except.ok.injEq] at hnetAb
  subst hnetAb
  obtain ⟨ifA, hifA, hrun1⟩ := hrun1
  obtain ⟨ifAb, hifAb, hrun2⟩ := hrun2
  obtain ⟨invG1, monoG1, hifv⟩ :=
    hinv_allocY (mkIface ip cidr gwip ifname none) invG
  obtain ⟨srG1, hifsh⟩ := simR_allocY (mkIface ip cidr gwip ifname none) srG
  have haIfA : FR h0.next (allocY hG (mkIface ip cidr gwip ifname none)).1
      ifA := asDictAddr_fr hifv hifA
  obtain ⟨hsimif, -⟩ := simR_asDictAddr srG1 hifv hifA
  rw [hifsh, hsimif] at hifAb
  simp only [Except.ok.injEq] at hifAb
  subst hifAb
  obtain ⟨hH, hH_eq, hrun1⟩ := hrun1
  obtain ⟨hHb, hHb_eq, hrun2⟩ := hrun2
  obtain ⟨invH, monoH⟩ := hinv_vip_step invG1 haIfA hH_eq
  obtain ⟨gq7, hgq7, srH⟩ := simR_vip_step srG1 haIfA hH_eq
  rw [hgq7] at hHb_eq
  simp only [Except.ok.injEq] at hHb_eq
  subst hHb_eq
  obtain ⟨hI, hI_eq, hrun1⟩ := hrun1
  obtain ⟨hIb, hIb_eq, hrun2⟩ := hrun2
  have hIfvH : HVal.refsIn (FR h0.next hH)
      (allocY hG (mkIface ip cidr gwip ifname none)).2 :=
    hvalRefsIn_mono (FR_mono monoH) _ hifv
  have harr : HObj.refsIn (FR h0.next hH)
      (HObj.arr [(allocY hG (mkIface ip cidr gwip ifname none)).2]) := by
    intro x hx
    simp only [List.mem_singleton] at hx
    subst hx
    exact hIfvH
  obtain ⟨invH1, hla⟩ := hinv_alloc invH harr
  have nAllocIf : (hH.alloc (HObj.arr
      [(allocY hG (mkIface ip cidr gwip ifname none)).2])).1.next
      = hH.next + 1 := rfl
  obtain ⟨invI, nI, -⟩ := hinv_hSetItem invH1
    (⟨haNetA.1, by have := haNetA.2; omega⟩) (refsIn_ref hla) hI_eq
  rw [hifsh] at hIb_eq
  obtain ⟨srH1, -⟩ := simR_alloc srH
    (HObj.arr [(allocY hG (mkIface ip cidr gwip ifname none)).2])
  have srH1b : SimR h0.next (h1.next - h0.next)
      (hH.alloc (HObj.arr
        [(allocY hG (mkIface ip cidr gwip ifname none)).2])).1
      (gq7.alloc (HObj.arr [shiftV (h1.next - h0.next)
        (allocY hG (mkIface ip cidr gwip ifname none)).2])).1 := srH1
  have hrefeq : (HVal.ref (gq7.alloc (HObj.arr [shiftV (h1.next - h0.next)
        (allocY hG (mkIface ip cidr gwip ifname none)).2])).2 : HVal)
      = shiftV (h1.next - h0.next) (HVal.ref (hH.alloc (HObj.arr
        [(allocY hG (mkIface ip cidr gwip ifname none)).2])).2) := by
    show HVal.ref gq7.next
        = HVal.ref (hH.next + (h1.next - h0.next))
    rw [srH.next]
  rw [hrefeq] at hIb_eq
  obtain ⟨gq8, hgq8, srI⟩ := simR_hSetItem srH1b
    (⟨haNetA.1, by have := haNetA.2; omega⟩) hI_eq
  rw [hgq8] at hIb_eq
  simp only [Except.ok.injEq] at hIb_eq
  subst hIb_eq
  obtain ⟨hJ, hJ_eq, hrun1⟩ := hrun1
  obtain ⟨hJb, hJb_eq, hrun2⟩ := hrun2
  have harr2 : HObj.refsIn (FR h0.next hI) (HObj.arr [HVal.str ns]) := by
    intro x hx
    simp only [List.mem_singleton] at hx
    subst hx
    trivial
  obtain ⟨invI1, hnsa⟩ := hinv_alloc invI harr2
  have nAllocNs : (hI.alloc (HObj.arr [HVal.str ns])).1.next
      = hI.next + 1 := rfl
  obtain ⟨invJ, nJ, -⟩ := hinv_hSetItem invI1
    (⟨haNetA.1, by have := haNetA.2; omega⟩) (refsIn_ref hnsa) hJ_eq
  obtain ⟨srI1, -⟩ := simR_alloc srI (HObj.arr [HVal.str ns])
  have srI1b : SimR h0.next (h1.next - h0.next)
      (hI.alloc (HObj.arr [HVal.str ns])).1
      (gq8.alloc (HObj.arr [HVal.str ns])).1 := srI1
  have hrefeq2 : (HVal.ref (gq8.alloc (HObj.arr [HVal.str ns])).2 : HVal)
      = shiftV (h1.next - h0.next)
        (HVal.ref (hI.alloc (HObj.arr [HVal.str ns])).2) := by
    show HVal.ref gq8.next
        = HVal.ref (hI.next + (h1.next - h0.next))
    rw [srI.next]
  rw [hrefeq2] at hJb_eq
  obtain ⟨gq9, hgq9, srJ⟩ := simR_hSetItem srI1b
    (⟨haNetA.1, by have := haNetA.2; omega⟩) hJ_eq
  rw [hgq9] at hJb_eq
  simp only [Except.ok.injEq] at hJb_eq
  subst hJb_eq
  obtain ⟨mval3, hmval3, hrun1⟩ := hrun1
  obtain ⟨mval3b, hmval3b, hrun2⟩ := hrun2
  have haCfgA_J : FR h0.next hJ cfgA :=
    ⟨haCfgA.1, by have := haCfgA.2; omega⟩
  have hmval3r := hinv_hGetItem invJ haCfgA_J hmval3
  have hsimg3 := simR_hGetItem srJ haCfgA_J hmval3
  rw [hsimg3] at hmval3b
  simp only [Except.ok.injEq] at hmval3b
  subst hmval3b
  obtain ⟨mA3, hmA3, hrun1⟩ := hrun1
  obtain ⟨mA3b, hmA3b, hrun2⟩ := hrun2
  have haMA3 : FR h0.next hJ mA3 := asDictAddr_fr hmval3r hmA3
  obtain ⟨hsimm3, -⟩ := simR_asDictAddr srJ hmval3r hmA3
  rw [hsimm3] at hmA3b
  simp only [Except.ok.injEq] at hmA3b
  subst hmA3b
  obtain ⟨⟨hK, kubval⟩, hK_eq, hrun1⟩ := hrun1
  obtain ⟨⟨hKb, kubvalb⟩, hKb_eq, hrun2⟩ := hrun2
  obtain ⟨invK, monoK, hkubval⟩ := hinv_hSetdefault invJ haMA3 hK_eq
  obtain ⟨gq10, hgq10, srK⟩ := simR_hSetdefault srJ haMA3 hK_eq
  rw [hgq10] at hKb_eq
  simp only [Except.ok.injEq, Prod.mk.injEq] at hKb_eq
  obtain ⟨hKb1, hKb2⟩ := hKb_eq
  subst hKb1
  subst hKb2
  obtain ⟨kubA, hkubA, hrun1⟩ := hrun1
  obtain ⟨kubAb, hkubAb, hrun2⟩ := hrun2
  have haKubA : FR h0.next hK kubA := asDictAddr_fr hkubval hkubA
  obtain ⟨hsimk, -⟩ := simR_asDictAddr srK hkubval hkubA
  rw [hsimk] at hkubAb
  simp only [Except.ok.injEq] at hkubAb
  subst hkubAb
  obtain ⟨⟨hL, eaval0⟩, hL_eq, hrun1⟩ := hrun1
  obtain ⟨⟨hLb, eaval0b⟩, hLb_eq, hrun2⟩ := hrun2
  obtain ⟨invL, monoL, -⟩ := hinv_hSetdefault invK haKubA hL_eq
  obtain ⟨gq11, hgq11, srL⟩ := simR_hSetdefault srK haKubA hL_eq
  rw [hgq11] at hLb_eq
  simp only [Except.ok.injEq, Prod.mk.injEq] at hLb_eq
  obtain ⟨hLb1, hLb2⟩ := hLb_eq
  subst hLb1
  subst hLb2
  obtain ⟨eav, heav, hrun1⟩ := hrun1
  obtain ⟨eavb, heavb, hrun2⟩ := hrun2
  have haKubA_L : FR h0.next hL kubA :=
    ⟨haKubA.1, by have := haKubA.2; omega⟩
  have heavr := hinv_hGetItem invL haKubA_L heav
  have hsimea := simR_hGetItem srL haKubA_L heav
  rw [hsimea] at heavb
  simp only [Except.ok.injEq] at heavb
  subst heavb
  obtain ⟨eaA, heaA, hrun1⟩ := hrun1
  obtain ⟨eaAb, heaAb, hrun2⟩ := hrun2
  have haEaA : FR h0.next hL eaA := asDictAddr_fr heavr heaA
  obtain ⟨hsimeaa, -⟩ := simR_asDictAddr srL heavr heaA
  rw [hsimeaa] at heaAb
  simp only [Except.ok.injEq] at heaAb
  subst heaAb
  obtain ⟨hM, hM_eq, hrun1⟩ := hrun1
  obtain ⟨hMb, hMb_eq, hrun2⟩ := hrun2
  obtain ⟨invM, nM, -⟩ := hinv_hSetItem invL haEaA (by trivial) hM_eq
  obtain ⟨gq12, hgq12, srM⟩ := simR_hSetItem srL haEaA hM_eq
  have hgq12b : hSetItem gq11 (eaA + (h1.next - h0.next))
      "rotate-server-certificates" (HVal.str "true") = .ok gq12 := hgq12
  rw [hgq12b] at hMb_eq
  simp only [Except.ok.injEq] at hMb_eq
  subst hMb_eq
  cases ccm with
  | false =>
      rw [if_neg (by decide)] at hrun1 hrun2
      simp only [Except.ok.injEq, Prod.mk.injEq] at hrun1 hrun2
      obtain ⟨he1, he2⟩ := hrun1
      obtain ⟨hf1, hf2⟩ := hrun2
      subst he1
      subst he2
      subst hf1
      subst hf2
      exact ⟨srM, rfl⟩
  | true =>
      rw [if_pos rfl] at hrun1 hrun2
      simp only [except_bind_eq_ok] at hrun1 hrun2
      obtain ⟨eav2, heav2, hrun1⟩ := hrun1
      obtain ⟨eav2b, heav2b, hrun2⟩ := hrun2
      have haKubA_M : FR h0.next hM kubA :=
        ⟨haKubA.1, by have := haKubA.2; omega⟩
      have heav2r := hinv_hGetItem invM haKubA_M heav2
      have hsimea2 := simR_hGetItem srM haKubA_M heav2
      rw [hsimea2] at heav2b
      simp only [Except.ok.injEq] at heav2b
      subst heav2b
      obtain ⟨eaA2, heaA2, hrun1⟩ := hrun1
      obtain ⟨eaA2b, heaA2b, hrun2⟩ := hrun2
      have haEaA2 : FR h0.next hM eaA2 := asDictAddr_fr heav2r heaA2
      obtain ⟨hsimea2a, -⟩ := simR_asDictAddr srM heav2r heaA2
      rw [hsimea2a] at heaA2b
      simp only [Except.ok.injEq] at heaA2b
      subst heaA2b
      obtain ⟨hN, hN_eq, hrun1⟩ := hrun1
      obtain ⟨hNb, hNb_eq, hrun2⟩ := hrun2
      obtain ⟨invN, nN, -⟩ := hinv_hSetItem invM haEaA2 (by trivial) hN_eq
      obtain ⟨gq13, hgq13, srN⟩ := simR_hSetItem srM haEaA2 hN_eq
      have hgq13b : hSetItem gq12 (eaA2 + (h1.next - h0.next))
          "cloud-provider" (HVal.str "external") = .ok gq13 := hgq13
      rw [hgq13b] at hNb_eq
      simp only [Except.ok.injEq] at hNb_eq
      subst hNb_eq
      obtain ⟨mval4, hmval4, hrun1⟩ := hrun1
      obtain ⟨mval4b, hmval4b, hrun2⟩ := hrun2
      have haCfgA_N : FR h0.next hN cfgA :=
        ⟨haCfgA.1, by have := haCfgA.2; omega⟩
      have hmval4r := hinv_hGetItem invN haCfgA_N hmval4
      have hsimg4 := simR_hGetItem srN haCfgA_N hmval4
      rw [hsimg4] at hmval4b
      simp only [Except.ok.injEq] at hmval4b
      subst hmval4b
      obtain ⟨mA4, hmA4, hrun1⟩ := hrun1
      obtain ⟨mA4b, hmA4b, hrun2⟩ := hrun2
      have haMA4 : FR h0.next hN mA4 := asDictAddr_fr hmval4r hmA4
      obtain ⟨hsimm4, -⟩ := simR_asDictAddr srN hmval4r hmA4
      rw [hsimm4] at hmA4b
      simp only [Except.ok.injEq] at hmA4b
      subst hmA4b
      obtain ⟨⟨hO, fval⟩, hO_eq, hrun1⟩ := hrun1
      obtain ⟨⟨hOb, fvalb⟩, hOb_eq, hrun2⟩ := hrun2
      obtain ⟨invO, monoO, hfval⟩ := hinv_hSetdefault invN haMA4 hO_eq
      obtain ⟨gq14, hgq14, srO⟩ := simR_hSetdefault srN haMA4 hO_eq
      rw [hgq14] at hOb_eq
      simp only [Except.ok.injEq, Prod.mk.injEq] at hOb_eq
      obtain ⟨hOb1, hOb2⟩ := hOb_eq
      subst hOb1
      subst hOb2
      obtain ⟨fA, hfA, hrun1⟩ := hrun1
      obtain ⟨fAb, hfAb, hrun2⟩ := hrun2
      have haFA : FR h0.next hO fA := asDictAddr_fr hfval hfA
      obtain ⟨hsimf, -⟩ := simR_asDictAddr srO hfval hfA
      rw [hsimf] at hfAb
      simp only [Except.ok.injEq] at hfAb
      subst hfAb
      obtain ⟨hP, hP_eq, hrun1⟩ := hrun1
      obtain ⟨hPb, hPb_eq, hrun2⟩ := hrun2
      obtain ⟨invO1, monoO1, hfbv⟩ := hinv_allocY ccmFeatureBlock invO
      obtain ⟨srO1, hfbsh⟩ := simR_allocY ccmFeatureBlock srO
      obtain ⟨invP, nP, -⟩ := hinv_hSetItem invO1
        (⟨haFA.1, by have := haFA.2; omega⟩) hfbv hP_eq
      obtain ⟨gq15, hgq15, srP⟩ := simR_hSetItem srO1
        (⟨haFA.1, by have := haFA.2; omega⟩) hP_eq
      rw [hfbsh] at hPb_eq
      rw [hgq15] at hPb_eq
      simp only [Except.ok.injEq] at hPb_eq
      subst hPb_eq
      obtain ⟨cfgKvs, hcfgKvs, hrun1⟩ := hrun1
      obtain ⟨cfgKvsb, hcfgKvsb, hrun2⟩ := hrun2
      have haCfgA_P : FR h0.next hP cfgA :=
        ⟨haCfgA.1, by have := haCfgA.2; omega⟩
      have hdeb := simR_dictEntries srP haCfgA_P hcfgKvs
      rw [hdeb] at hcfgKvsb
      simp only [Except.ok.injEq] at hcfgKvsb
      subst hcfgKvsb
      obtain ⟨cond, hcond, hrun1⟩ := hrun1
      obtain ⟨condb, hcondb, hrun2⟩ := hrun2
      have hlP : hP.lookup cfgA = some (HObj.dict cfgKvs) :=
        dictEntries_ok hcfgKvs
      have closedP : ∀ a o, FR h0.next hP a → hP.lookup a = some o →
          HObj.refsIn (FR h0.next hP) o := by
        intro a o ha hl
        exact invP.fresh (a, o) (Heap.lookup_mem hl) ha.1
      have hfrKvs : ∀ kv ∈ cfgKvs, HVal.refsIn (FR h0.next hP) kv.2 :=
        hinv_entry_refs invP haCfgA_P hlP
      have hcondeq : condb = cond :=
        simR_ccmCond srP closedP hfrKvs hcond hcondb
      subst hcondeq
      cases condb with
      | false =>
          rw [if_neg (by decide)] at hrun1 hrun2
          simp only [Except.ok.injEq, Prod.mk.injEq] at hrun1 hrun2
          obtain ⟨he1, he2⟩ := hrun1
          obtain ⟨hf1, hf2⟩ := hrun2
          subst he1
          subst he2
          subst hf1
          subst hf2
          exact ⟨srP, rfl⟩
      | true =>
          rw [if_pos rfl] at hrun1 hrun2
          simp only [except_bind_eq_ok] at hrun1 hrun2
          obtain ⟨⟨hQ, cval⟩, hQ_eq, hrun1⟩ := hrun1
          obtain ⟨⟨hQb, cvalb⟩, hQb_eq, hrun2⟩ := hrun2
          obtain ⟨invQ, monoQ, hcval⟩ := hinv_hSetdefault invP haCfgA_P hQ_eq
          obtain ⟨gq16, hgq16, srQ⟩ := simR_hSetdefault srP haCfgA_P hQ_eq
          rw [hgq16] at hQb_eq
          simp only [Except.ok.injEq, Prod.mk.injEq] at hQb_eq
          obtain ⟨hQb1, hQb2⟩ := hQb_eq
          subst hQb1
          subst hQb2
          obtain ⟨cA, hcA, hrun1⟩ := hrun1
          obtain ⟨cAb, hcAb, hrun2⟩ := hrun2
          have haCA : FR h0.next hQ cA := asDictAddr_fr hcval hcA
          obtain ⟨hsimca, -⟩ := simR_asDictAddr srQ hcval hcA
          rw [hsimca] at hcAb
          simp only [Except.ok.injEq] at hcAb
          subst hcAb
          obtain ⟨hR, hR_eq, hrun1⟩ := hrun1
          obtain ⟨hRb, hRb_eq, hrun2⟩ := hrun2
          obtain ⟨invQ1, monoQ1, hecpv⟩ :=
            hinv_allocY externalCloudProviderBlock invQ
          obtain ⟨srQ1, hecpsh⟩ :=
            simR_allocY externalCloudProviderBlock srQ
          obtain ⟨invR, nR, -⟩ := hinv_hSetItem invQ1
            (⟨haCA.1, by have := haCA.2; omega⟩) hecpv hR_eq
          obtain ⟨gq17, hgq17, srR⟩ := simR_hSetItem srQ1
            (⟨haCA.1, by have := haCA.2; omega⟩) hR_eq
          rw [hecpsh] at hRb_eq
          rw [hgq17] at hRb_eq
          simp only [Except.ok.injEq] at hRb_eq
          subst hRb_eq
          simp only [Except.ok.injEq, Prod.mk.injEq] at hrun1 hrun2
          obtain ⟨he1, he2⟩ := hrun1
          obtain ⟨hf1, hf2⟩ := hrun2
          subst he1
          subst he2
          subst hf1
          subst hf2
          exact ⟨srR, rfl⟩

/-! ## Claim C1: isolation of the documents produced by patch_node -/

/-- C1: run patch_node twice over the heap (same template, any two node
parameter sets).  The two returned documents and the template share no
mutable substructure: their reachable address sets are pairwise disjoint.
Consequently mutating any heap cell of one document (writing any object
over any address reachable from it) changes neither what the other
document reads back to, nor its reachable set, nor what the template
reads back to — and symmetrically. -/
theorem c1_isolation {fuel1 fuel2 : Nat} {h0 h1 h2 : Heap}
    {tpl doc1 doc2 : HVal} {ip1 cidr1 gw1 ns1 ifname1 disk1 : String}
    {vip1 : Option String} {ccm1 : Bool}
    {ip2 cidr2 gw2 ns2 ifname2 disk2 : String} {vip2 : Option String}
    {ccm2 : Bool}
    (hdom : ∀ e ∈ h0.mem, e.1 < h0.next)
    (hcl : ∀ e ∈ h0.mem, HObj.refsIn (fun b => b < h0.next) e.2)
    (htpl : HVal.refsIn (fun b => b < h0.next) tpl)
    (hrun1 : patchH fuel1 h0 tpl ip1 cidr1 gw1 ns1 ifname1 disk1 vip1 ccm1
      = .ok (h1, doc1))
    (hrun2 : patchH fuel2 h1 tpl ip2 cidr2 gw2 ns2 ifname2 disk2 vip2 ccm2
      = .ok (h2, doc2)) :
    (∀ b, Reach h2 doc1 b → ¬ Reach h2 doc2 b) ∧
    (∀ b, Reach h2 doc1 b → ¬ Reach h2 tpl b) ∧
    (∀ b, Reach h2 doc2 b → ¬ Reach h2 tpl b) ∧
    (∀ b obj, Reach h2 doc1 b →
      (∀ fuel, readY fuel (h2.write b obj) doc2 = readY fuel h2 doc2) ∧
      (∀ fuel, readY fuel (h2.write b obj) tpl = readY fuel h2 tpl) ∧
      (∀ c, Reach (h2.write b obj) doc2 c ↔ Reach h2 doc2 c)) ∧
    (∀ b obj, Reach h2 doc2 b →
      (∀ fuel, readY fuel (h2.write b obj) doc1 = readY fuel h2 doc1) ∧
      (∀ fuel, readY fuel (h2.write b obj) tpl = readY fuel h2 tpl) ∧
      (∀ c, Reach (h2.write b obj) doc1 c ↔ Reach h2 doc1 c)) := by
  obtain ⟨inv1, hdoc1⟩ := patchH_inv hdom hrun1
  obtain ⟨inv2, hdoc2⟩ := patchH_inv inv1.dom hrun2
  have hm01 : h0.next ≤ h1.next := inv1.mono
  have hm12 : h1.next ≤ h2.next := inv2.mono
  -- reach of doc1 in h2 is inside the first fresh region
  have hag1 : ∀ b, Reach h1 doc1 b → h2.lookup b = h1.lookup b := by
    intro b hb
    have := reach_fresh inv1 hdoc1 hb
    exact inv2.frame b this.2
  have hreach1 : ∀ b, Reach h2 doc1 b → h0.next ≤ b ∧ b < h1.next := by
    intro b hb
    exact reach_fresh inv1 hdoc1 (reach_of_agree_rev hag1 hb)
  have hreach2 : ∀ b, Reach h2 doc2 b → h1.next ≤ b ∧ b < h2.next := by
    intro b hb
    exact reach_fresh inv2 hdoc2 hb
  -- reach of the template stays inside the untouched original region
  have htplstep : ∀ a o, a < h0.next → h2.lookup a = some o →
      HObj.refsIn (fun b => b < h0.next) o := by
    intro a o ha hl
    rw [inv2.frame a (by have := inv1.mono; omega), inv1.frame a ha] at hl
    exact hcl (a, o) (Heap.lookup_mem hl)
  have hreachT : ∀ b, Reach h2 tpl b → b < h0.next := by
    intro b hb
    exact reach_closed htplstep hb htpl
  refine ⟨?_, ?_, ?_, ?_, ?_⟩
  · intro b hb1 hb2
    have := hreach1 b hb1
    have := hreach2 b hb2
    omega
  · intro b hb1 hbT
    have := hreach1 b hb1
    have := hreachT b hbT
    omega
  · intro b hb2 hbT
    have := hreach2 b hb2
    have := hreachT b hbT
    omega
  · intro b obj hb
    have hbR := hreach1 b hb
    have hagn2 : ∀ c, Reach h2 doc2 c →
        (h2.write b obj).lookup c = h2.lookup c := by
      intro c hc
      have := hreach2 c hc
      exact Heap.lookup_write_ne (by omega)
    have hagnT : ∀ c, Reach h2 tpl c →
        (h2.write b obj).lookup c = h2.lookup c := by
      intro c hc
      have := hreachT c hc
      exact Heap.lookup_write_ne (by omega)
    exact ⟨fun fuel => readY_congr fuel h2 _ doc2 hagn2,
      fun fuel => readY_congr fuel h2 _ tpl hagnT,
      fun c => ⟨reach_of_agree_rev hagn2, reach_of_agree hagn2⟩⟩
  · intro b obj hb
    have hbR := hreach2 b hb
    have hagn1 : ∀ c, Reach h2 doc1 c →
        (h2.write b obj).lookup c = h2.lookup c := by
      intro c hc
      have := hreach1 c hc
      exact Heap.lookup_write_ne (by omega)
    have hagnT : ∀ c, Reach h2 tpl c →
        (h2.write b obj).lookup c = h2.lookup c := by
      intro c hc
      have := hreachT c hc
      exact Heap.lookup_write_ne (by omega)
    exact ⟨fun fuel => readY_congr fuel h2 _ doc1 hagn1,
      fun fuel => readY_congr fuel h2 _ tpl hagnT,
      fun c => ⟨reach_of_agree_rev hagn1, reach_of_agree hagn1⟩⟩

/-- Witness entry heap for C1: a one-object heap holding the template
(an empty dict, which patch_node fills in defensively). -/
def w1h0 : Heap := ⟨[(0, HObj.dict [])], 1⟩

/-- First witness run of patchH for C1. -/
def w1p1 : Heap × HVal :=
  match patchH 8 w1h0 (HVal.ref 0) "10.0.0.11" "24" "g" "n" "e" "d"
      (some "9") false with
  | .ok r => r
  | .error _ => (w1h0, HVal.null)

/-- Second witness run of patchH for C1, from the first run's heap. -/
def w1p2 : Heap × HVal :=
  match patchH 8 w1p1.1 (HVal.ref 0) "10.0.0.12" "24" "g" "n" "e" "d"
      (some "9") false with
  | .ok r => r
  | .error _ => (w1h0, HVal.null)

set_option maxHeartbeats 2000000 in
/-- Witness for C1: two concrete patch runs from the same stored template. -/
theorem c1_isolation_w :
    (∀ b, Reach w1p2.1 w1p1.2 b → ¬ Reach w1p2.1 w1p2.2 b) ∧
    (∀ b, Reach w1p2.1 w1p1.2 b → ¬ Reach w1p2.1 (HVal.ref 0) b) ∧
    (∀ b, Reach w1p2.1 w1p2.2 b → ¬ Reach w1p2.1 (HVal.ref 0) b) ∧
    (∀ b obj, Reach w1p2.1 w1p1.2 b →
      (∀ fuel, readY fuel (w1p2.1.write b obj) w1p2.2
        = readY fuel w1p2.1 w1p2.2) ∧
      (∀ fuel, readY fuel (w1p2.1.write b obj) (HVal.ref 0)
        = readY fuel w1p2.1 (HVal.ref 0)) ∧
      (∀ c, Reach (w1p2.1.write b obj) w1p2.2 c ↔ Reach w1p2.1 w1p2.2 c)) ∧
    (∀ b obj, Reach w1p2.1 w1p2.2 b →
      (∀ fuel, readY fuel (w1p2.1.write b obj) w1p1.2
        = readY fuel w1p2.1 w1p1.2) ∧
      (∀ fuel, readY fuel (w1p2.1.write b obj) (HVal.ref 0)
        = readY fuel w1p2.1 (HVal.ref 0)) ∧
      (∀ c, Reach (w1p2.1.write b obj) w1p1.2 c ↔ Reach w1p2.1 w1p1.2 c)) :=
  @c1_isolation 8 8 w1h0 w1p1.1 w1p2.1 (HVal.ref 0) w1p1.2 w1p2.2
    "10.0.0.11" "24" "g" "n" "e" "d" (some "9") false
    "10.0.0.12" "24" "g" "n" "e" "d" (some "9") false
    (by
      intro e he
      simp only [w1h0, List.mem_singleton] at he
      subst he
      decide)
    (by
      intro e he
      simp only [w1h0, List.mem_singleton] at he
      subst he
      intro kv hkv
      simp at hkv)
    (by exact Nat.zero_lt_one)
    (by rfl)
    (by rfl)

/-! ## Claim C8: idempotence of patching -/

/-- C8: run patch_node twice over the heap with the same stored template
and identical node parameters.  The two returned documents are
structurally equal, field for field: they read back to the same `Yaml`
tree at every fuel.  Yet they are independent values sharing no mutable
substructure: their reachable address sets are disjoint. -/
theorem c8_idempotent {fuel : Nat} {h0 h1 h2 : Heap} {tpl doc1 doc2 : HVal}
    {ip cidr gwip ns ifname disk : String} {vip : Option String}
    {ccm : Bool}
    (hdom : ∀ e ∈ h0.mem, e.1 < h0.next)
    (hcl : ∀ e ∈ h0.mem, HObj.refsIn (fun b => b < h0.next) e.2)
    (htpl : HVal.refsIn (fun b => b < h0.next) tpl)
    (hrun1 : patchH fuel h0 tpl ip cidr gwip ns ifname disk vip ccm
      = .ok (h1, doc1))
    (hrun2 : patchH fuel h1 tpl ip cidr gwip ns ifname disk vip ccm
      = .ok (h2, doc2)) :
    (∀ f, readY f h2 doc1 = readY f h2 doc2) ∧
    (∀ b, Reach h2 doc1 b → ¬ Reach h2 doc2 b) := by
  obtain ⟨inv1, hdoc1⟩ := patchH_inv hdom hrun1
  obtain ⟨inv2, hdoc2⟩ := patchH_inv inv1.dom hrun2
  have htplstep : ∀ a o, a < h0.next → h0.lookup a = some o →
      HObj.refsIn (fun b => b < h0.next) o := by
    intro a o ha hl
    exact hcl (a, o) (Heap.lookup_mem hl)
  have hreachT : ∀ b, Reach h0 tpl b → b < h0.next := by
    intro b hb
    exact reach_closed htplstep hb htpl
  have htr : readY fuel h1 tpl = readY fuel h0 tpl := by
    refine readY_congr fuel h0 h1 tpl ?_
    intro b hb
    exact inv1.frame b (hreachT b hb)
  obtain ⟨srFin, hsh⟩ := patchH_sim hdom hrun1 hrun2 htr
  have closed1 : ∀ a o, FR h0.next h1 a → h1.lookup a = some o →
      HObj.refsIn (FR h0.next h1) o := by
    intro a o ha hl
    exact inv1.fresh (a, o) (Heap.lookup_mem hl) ha.1
  have hag1 : ∀ b, Reach h1 doc1 b → h2.lookup b = h1.lookup b := by
    intro b hb
    have := reach_fresh inv1 hdoc1 hb
    exact inv2.frame b this.2
  refine ⟨?_, ?_⟩
  · intro f
    have h12 : readY f h2 doc1 = readY f h1 doc1 :=
      readY_congr f h1 h2 doc1 hag1
    have hsim : readY f h2 (shiftV (h1.next - h0.next) doc1)
        = readY f h1 doc1 := readY_sim f srFin closed1 hdoc1
    rw [h12, hsh, hsim]
  · intro b hb1 hb2
    have hr1 : h0.next ≤ b ∧ b < h1.next :=
      reach_fresh inv1 hdoc1 (reach_of_agree_rev hag1 hb1)
    have hr2 : h1.next ≤ b ∧ b < h2.next := reach_fresh inv2 hdoc2 hb2
    omega

/-- Witness entry heap for C8: a one-object heap holding the template. -/
def w8h0 : Heap := ⟨[(0, HObj.dict [])], 1⟩

/-- First witness run of patchH for C8. -/
def w8p1 : Heap × HVal :=
  match patchH 8 w8h0 (HVal.ref 0) "10.0.0.11" "24" "g" "n" "e" "d"
      (some "9") false with
  | .ok r => r
  | .error _ => (w8h0, HVal.null)

/-- Second witness run of patchH for C8: identical arguments, started
from the first run's heap. -/
def w8p2 : Heap × HVal :=
  match patchH 8 w8p1.1 (HVal.ref 0) "10.0.0.11" "24" "g" "n" "e" "d"
      (some "9") false with
  | .ok r => r
  | .error _ => (w8h0, HVal.null)

set_option maxHeartbeats 2000000 in
/-- Witness for C8: two identical concrete patch runs from the same
stored template. -/
theorem c8_idempotent_w :
    (∀ f, readY f w8p2.1 w8p1.2 = readY f w8p2.1 w8p2.2) ∧
    (∀ b, Reach w8p2.1 w8p1.2 b → ¬ Reach w8p2.1 w8p2.2 b) :=
  @c8_idempotent 8 w8h0 w8p1.1 w8p2.1 (HVal.ref 0) w8p1.2 w8p2.2
    "10.0.0.11" "24" "g" "n" "e" "d" (some "9") false
    (by
      intro e he
      simp only [w8h0, List.mem_singleton] at he
      subst he
      decide)
    (by
      intro e he
      simp only [w8h0, List.mem_singleton] at he
      subst he
      intro kv hkv
      simp at hkv)
    (by exact Nat.zero_lt_one)
    (by rfl)
    (by rfl)

end Talos
